import Mathlib

/-!
# AliMUONDigitMaker: raw data to digits

A shallow embedding of `MUON/AliMUONDigitMaker.cxx`.  The digit maker reads a
tracker stream and a trigger stream from one raw event and fills a digit store
and a trigger store.  The mapping service, the crate store, the raw streams and
the two output stores are collaborators whose code lives in other files; they
appear here as plain data (the streams), as records of lookup functions (the
mapping, the crates) and as small list-based containers (the stores).

A dereference of a null pointer and `AliFatal` end the run: the functions
return `Except Fault _`.
-/

namespace AliMUON

/-! ## Basic types -/

/-- Value of `kTRUE` seen as an `Int_t`. -/
def kTRUE : Int := 1

/-- Value of `kFALSE` seen as an `Int_t`. -/
def kFALSE : Int := 0

/-- Ways in which a run ends without returning. -/
inductive Fault where
  | nullPointer
  | fatal
deriving DecidableEq, Repr

/-- Plane types of `AliMp::PlaneType`. -/
inductive PlaneType where
  | kBendingPlane
  | kNonBendingPlane
deriving DecidableEq, Repr

/-- Cathode types of `AliMp::CathodType`. -/
inductive CathodType where
  | kCath0
  | kCath1
deriving DecidableEq, Repr

/-- Integer value of a cathode type, as taken by the `Int_t cathode` argument
of the digit store. -/
def CathodType.toInt : CathodType → Int
  | .kCath0 => 0
  | .kCath1 => 1

/-- Modelled from the spec: `AliMp::GetCathodType(Int_t)`, declared in
`AliMpCathodType.h`; cathode 0 is X/Bend, cathode 1 is Y/NonBend. -/
def GetCathodType (iCath : Nat) : CathodType :=
  if iCath = 0 then .kCath0 else .kCath1

/-- An `AliMpPad` as far as the digit maker looks at it: validity and the
pair of indices. -/
structure AliMpPad where
  IsValid : Bool
  ix : Int
  iy : Int
deriving DecidableEq, Repr

/-- An `AliMpVSegmentation`: its plane type and its pad lookup
`PadByLocation(AliMpIntPair(first, second), warning)`. -/
structure AliMpVSegmentation where
  PlaneType : PlaneType
  PadByLocation : Int → Int → Bool → AliMpPad

/-- The mapping service: `AliMpDDLStore::GetDEfromBus`,
`AliMpSegmentation::GetMpSegmentationByElectronics` and `GetMpSegmentation`
(a null result is `none`), `AliMpDEManager::GetCathod` and
`AliMUONTriggerCircuit::DetElemId`. -/
structure Mapping where
  GetDEfromBus : Int → Int
  GetMpSegmentationByElectronics : Int → Int → Option AliMpVSegmentation
  GetMpSegmentation : Int → CathodType → Option AliMpVSegmentation
  GetCathod : Int → PlaneType → CathodType
  DetElemId : Int → String → Int

/-! ## Digit store -/

/-- A digit of the store.  The four key fields are fixed by `Add`; the pad
indices, the ADC value and the charge are `none` until the matching setter is
called.  The charge set by the trigger path is the literal `1.`, kept as the
integer 1. -/
structure AliMUONVDigit where
  detElemId : Int
  manuId : Int
  manuChannel : Int
  cathode : Int
  padXY : Option (Int × Int)
  adc : Option Int
  charge : Option Int
deriving DecidableEq, Repr

/-- Whether a digit carries the given key. -/
def AliMUONVDigit.hasKey (d : AliMUONVDigit) (detElemId manuId manuChannel cathode : Int) : Bool :=
  d.detElemId == detElemId && d.manuId == manuId && d.manuChannel == manuChannel
    && d.cathode == cathode

/-- Modelled from the spec: the digit store (`AliMUONVDigitStore`, an abstract
class whose implementations are in other files), an append-only collection
with `clear()` and `insert(detectorElementId, chipId, channelId, cathode,
policy) -> Digit|null` where the policy used here rejects a duplicate. -/
structure AliMUONVDigitStore where
  digits : List AliMUONVDigit
deriving DecidableEq, Repr

/-- Store operation `Clear()`. -/
def AliMUONVDigitStore.Clear (_ds : AliMUONVDigitStore) : AliMUONVDigitStore :=
  { digits := [] }

/-- Store operation `Add(detElemId, manuId, manuChannel, cathode, kDeny)`: `none` is the
null pointer returned when a digit with this key is already there; otherwise
the new digit is appended and its position is the handle that is returned. -/
def AliMUONVDigitStore.Add (ds : AliMUONVDigitStore) (detElemId manuId manuChannel cathode : Int) :
    Option (Nat × AliMUONVDigitStore) :=
  if ds.digits.any (fun d => d.hasKey detElemId manuId manuChannel cathode) then none
  else some (ds.digits.length,
    { digits := ds.digits ++
        [{ detElemId := detElemId, manuId := manuId, manuChannel := manuChannel,
           cathode := cathode, padXY := none, adc := none, charge := none }] })

/-- Apply `f` to the element at position `n` of a list. -/
def updateAt (f : AliMUONVDigit → AliMUONVDigit) : List AliMUONVDigit → Nat → List AliMUONVDigit
  | [], _ => []
  | d :: ds, 0 => f d :: ds
  | d :: ds, n + 1 => d :: updateAt f ds n

/-- Digit operation `SetPadXY(x, y)` through the handle `h`. -/
def AliMUONVDigitStore.SetPadXY (ds : AliMUONVDigitStore) (h : Nat) (x y : Int) :
    AliMUONVDigitStore :=
  { digits := updateAt (fun d => { d with padXY := some (x, y) }) ds.digits h }

/-- Digit operation `SetADC(adc)` through the handle `h`. -/
def AliMUONVDigitStore.SetADC (ds : AliMUONVDigitStore) (h : Nat) (adc : Int) :
    AliMUONVDigitStore :=
  { digits := updateAt (fun d => { d with adc := some adc }) ds.digits h }

/-- Digit operation `SetCharge(q)` through the handle `h`. -/
def AliMUONVDigitStore.SetCharge (ds : AliMUONVDigitStore) (h : Nat) (q : Int) :
    AliMUONVDigitStore :=
  { digits := updateAt (fun d => { d with charge := some q }) ds.digits h }

/-! ## Trigger data and trigger store -/

/-- An `AliMUONLocalStruct`: the board id inside its crate, the four X and the
four Y strip patterns (16-bit words) and the remaining decision bits. -/
structure AliMUONLocalStruct where
  id : Nat
  x1 : Nat
  x2 : Nat
  x3 : Nat
  x4 : Nat
  y1 : Nat
  y2 : Nat
  y3 : Nat
  y4 : Nat
  decision : Nat
deriving DecidableEq, Repr

/-- An `AliMUONRegHeader`: its local entries; a null entry is `none`. -/
structure AliMUONRegHeader where
  locals : List (Option AliMUONLocalStruct)
deriving DecidableEq, Repr

/-- An `AliMUONDarcHeader`: global flag, global output word, regional
headers. -/
structure AliMUONDarcHeader where
  GetGlobalFlag : Bool
  GetGlobalOutput : Nat
  regHeaders : List AliMUONRegHeader
deriving DecidableEq, Repr

/-- One DDL section of the trigger stream: the value `GetDDL()` gives while
the section is current, and the Darc header of the section. -/
structure AliMUONDDLTrigger where
  GetDDL : Int
  darcHeader : AliMUONDarcHeader
deriving DecidableEq, Repr

/-- Modelled from the spec: the global trigger record
(`AliMUONGlobalTrigger`), built from the global response word by
`SetFromGlobalResponse`. -/
structure AliMUONGlobalTrigger where
  response : Nat
deriving DecidableEq, Repr

/-- Modelled from the spec: the local trigger record
(`AliMUONLocalTrigger`), built by `SetLocalStruct(loCircuit, localStruct)` from
the circuit number and the local struct. -/
structure AliMUONLocalTrigger where
  loCircuit : Int
  localStruct : AliMUONLocalStruct
deriving DecidableEq, Repr

/-- Modelled from the spec: the trigger store (`AliMUONVTriggerStore`, an
abstract class whose implementations are in other files) with `clear()`,
`setGlobal(GlobalTriggerRecord)` and `append(LocalTriggerRecord)`; the global
record exists at most once, so the store has one slot for it. -/
structure AliMUONVTriggerStore where
  global : Option AliMUONGlobalTrigger
  locals : List AliMUONLocalTrigger
deriving DecidableEq, Repr

/-- Store operation `Clear()`. -/
def AliMUONVTriggerStore.Clear (_ts : AliMUONVTriggerStore) : AliMUONVTriggerStore :=
  { global := none, locals := [] }

/-- Store operation `SetGlobal(globalTrigger)`. -/
def AliMUONVTriggerStore.SetGlobal (ts : AliMUONVTriggerStore) (g : AliMUONGlobalTrigger) :
    AliMUONVTriggerStore :=
  { ts with global := some g }

/-- Store operation `Add(localTrigger)`. -/
def AliMUONVTriggerStore.Add (ts : AliMUONVTriggerStore) (l : AliMUONLocalTrigger) :
    AliMUONVTriggerStore :=
  { ts with locals := ts.locals ++ [l] }

/-! ## Crate topology -/

/-- An `AliMUONLocalTriggerBoard`: number, name and switches. -/
structure AliMUONLocalTriggerBoard where
  GetNumber : Int
  GetName : String
  GetSwitch : Nat → Bool

/-- An `AliMUONTriggerCrate`: its board array; an empty slot is `none`. -/
structure AliMUONTriggerCrate where
  Boards : List (Option AliMUONLocalTriggerBoard)

/-- Element access `TObjArray::At(i)` on a board array: a null pointer for an
empty slot or an index out of range. -/
def TObjArrayAt (boards : List (Option AliMUONLocalTriggerBoard)) (i : Nat) :
    Option AliMUONLocalTriggerBoard :=
  (boards.get? i).join

/-- An `AliMUONTriggerCrateStore`: `Crate(ddl, iReg)` and `LocalBoard(n)`,
each with `none` for a null result. -/
structure AliMUONTriggerCrateStore where
  Crate : Int → Nat → Option AliMUONTriggerCrate
  LocalBoard : Int → Option AliMUONLocalTriggerBoard

/-! ## Raw event and decoder state -/

/-- One tracker sample, as handed out by `AliMUONRawStreamTracker::Next`. -/
structure Sample where
  buspatchId : Int
  manuId : Int
  channelId : Int
  charge : Int
deriving DecidableEq, Repr

/-- The content of one raw event: what the tracker stream yields sample by
sample and what the trigger stream yields section by section. -/
structure RawEvent where
  tracker : List Sample
  trigger : List AliMUONDDLTrigger
deriving DecidableEq, Repr

/-- Calls made on the raw streams and on the two stores. -/
inductive Call where
  | trackerSetReader
  | trackerFirst
  | trackerNext
  | triggerSetReader
  | triggerNextDDL
  | digitClear
  | digitAdd (detElemId manuId manuChannel cathode : Int)
  | triggerClear
  | triggerSetGlobal (g : AliMUONGlobalTrigger)
  | triggerAdd (l : AliMUONLocalTrigger)
deriving DecidableEq, Repr

/-- Messages given to `AliError` and `AliWarning`. -/
inductive Report where
  | errNoStore
  | errNoDigitStore
  | errNoPad (detElemId manuId channelId : Int)
  | errNotAdded (detElemId manuId channelId : Int)
  | warnMissingCrate (iReg : Nat) (ddl : Int)
  | warnNoPad (detElemId nBoard ibitxy : Int)
  | errTriggerNotAdded (detElemId nBoard ibitxy cathode : Int)
deriving DecidableEq, Repr

/-- The mutable part of a run: the two store pointers (`none` is null) with
the content of the stores, the calls made so far and the messages reported so
far, both oldest first. -/
structure St where
  fDigitStore : Option AliMUONVDigitStore
  fTriggerStore : Option AliMUONVTriggerStore
  calls : List Call
  reports : List Report
deriving DecidableEq, Repr

/-- Record a call. -/
def St.call (st : St) (c : Call) : St :=
  { st with calls := st.calls ++ [c] }

/-- Record a message. -/
def St.report (st : St) (r : Report) : St :=
  { st with reports := st.reports ++ [r] }

/-! ## Tracker decoding -/

/-- Body of the `while` loop of `ReadTrackerDDL` for one sample. -/
def trackerSample (m : Mapping) (s : Sample) (st : St) : Except Fault St :=
  let detElemId := m.GetDEfromBus s.buspatchId
  match m.GetMpSegmentationByElectronics detElemId s.manuId with
  | none => .error .nullPointer
  | some seg =>
    let cathodeType := m.GetCathod detElemId seg.PlaneType
    let pad := seg.PadByLocation s.manuId s.channelId false
    if !pad.IsValid then
      .ok (st.report (.errNoPad detElemId s.manuId s.channelId))
    else
      match st.fDigitStore with
      | none => .error .nullPointer
      | some ds =>
        let st1 := st.call (.digitAdd detElemId s.manuId s.channelId cathodeType.toInt)
        match ds.Add detElemId s.manuId s.channelId cathodeType.toInt with
        | none => .ok (st1.report (.errNotAdded detElemId s.manuId s.channelId))
        | some (h, ds1) =>
          .ok { st1 with
            fDigitStore := some ((ds1.SetPadXY h pad.ix pad.iy).SetADC h s.charge) }

/-- The `while` loop of `ReadTrackerDDL`: one `Next` per sample and a last
`Next` that finds the stream exhausted. -/
def trackerLoop (m : Mapping) : List Sample → St → Except Fault St
  | [], st => .ok (st.call .trackerNext)
  | s :: rest, st =>
    match trackerSample m s (st.call .trackerNext) with
    | .error e => .error e
    | .ok st1 => trackerLoop m rest st1

/-- Embedding of `AliMUONDigitMaker::ReadTrackerDDL`. -/
def ReadTrackerDDL (m : Mapping) (raw : RawEvent) (st : St) : Except Fault (Int × St) :=
  match trackerLoop m raw.tracker ((st.call .trackerSetReader).call .trackerFirst) with
  | .error e => .error e
  | .ok st1 => .ok (kTRUE, st1)

/-! ## Trigger decoding -/

/-- Run the body `f` once for each element of a list, in order, stopping at the
first fault: the shape of the `for` loops of the source. -/
def forEach {α σ : Type} (f : α → σ → Except Fault σ) : List α → σ → Except Fault σ
  | [], s => .ok s
  | a :: rest, s =>
    match f a s with
    | .error e => .error e
    | .ok s1 => forEach f rest s1

/-- Conversion of the `UShort_t` returned by `GetX1()` and its like to the
`Short_t` cell of a `TArrayS`. -/
def toShort (v : Nat) : Int :=
  if v % 65536 < 32768 then ((v % 65536 : Nat) : Int) else ((v % 65536 : Nat) : Int) - 65536

/-- Element access `TArrayS::At(i)`. -/
def TArraySAt (a : List Int) (i : Nat) : Int :=
  a.getD i 0

/-- The two pattern arrays `xyPattern[0]` and `xyPattern[1]`. -/
structure XYPattern where
  x : List Int
  y : List Int
deriving DecidableEq, Repr

/-- Pointer indexing `xyPattern[iCath]` for the two cathodes. -/
def XYPattern.at (p : XYPattern) (iCath : Nat) : List Int :=
  if iCath = 0 then p.x else p.y

/-- What `TriggerDigits` works on: the digit store it is handed, with the
calls and messages so far. -/
structure Sink where
  store : AliMUONVDigitStore
  calls : List Call
  reports : List Report
deriving DecidableEq, Repr

/-- The test `(pattern >> ibitxy) & 0x1` of `TriggerDigits`: an arithmetic
shift of the `Int_t`, whose lowest bit is the remainder modulo 2. -/
def bitSet (pattern : Int) (ibitxy : Nat) : Bool :=
  (pattern >>> ibitxy) % 2 != 0

/-- The value of `offset` in `TriggerDigits`. -/
def bitOffset (localBoard : AliMUONLocalTriggerBoard) (iCath : Nat) : Int :=
  if iCath != 0 && localBoard.GetSwitch 6 then -8 else 0

/-- Body of the loop over the 16 bits of a pattern in `TriggerDigits`. -/
def bitStep (seg : Option AliMpVSegmentation) (localBoard : AliMUONLocalTriggerBoard)
    (detElemId nBoard : Int) (iCath : Nat) (pattern : Int) (ibitxy : Nat) (s : Sink) :
    Except Fault Sink :=
  if bitSet pattern ibitxy then
    let offset := bitOffset localBoard iCath
    match seg with
    | none => .error .nullPointer
    | some seg =>
      let pad := seg.PadByLocation nBoard ((ibitxy : Int) + offset) true
      if !pad.IsValid then
        .ok { s with reports := s.reports ++ [.warnNoPad detElemId nBoard ibitxy] }
      else
        let calls1 := s.calls ++ [.digitAdd detElemId nBoard ibitxy iCath]
        match s.store.Add detElemId nBoard ibitxy iCath with
        | none =>
          .ok { s with calls := calls1,
                       reports := s.reports ++ [.errTriggerNotAdded detElemId nBoard ibitxy iCath] }
        | some (h, ds1) =>
          .ok { s with calls := calls1,
                       store := (ds1.SetPadXY h pad.ix pad.iy).SetCharge h 1 }
  else .ok s

/-- Body of the loop over the two cathodes in `TriggerDigits`, for chamber slot
`iChamber`. -/
def slotStep (m : Mapping) (fCrateManager : Option AliMUONTriggerCrateStore) (nBoard : Int)
    (xyPattern : XYPattern) (iChamber iCath : Nat) (s : Sink) : Except Fault Sink :=
  let pattern := TArraySAt (xyPattern.at iCath) iChamber
  if pattern = 0 then .ok s
  else
    match fCrateManager with
    | none => .error .nullPointer
    | some cm =>
      match cm.LocalBoard nBoard with
      | none => .error .nullPointer
      | some localBoard =>
        let detElemId := m.DetElemId ((iChamber : Int) + 10) localBoard.GetName
        let seg := m.GetMpSegmentation detElemId (GetCathodType iCath)
        forEach (bitStep seg localBoard detElemId nBoard iCath pattern) (List.range 16) s

/-- Embedding of `AliMUONDigitMaker::TriggerDigits`. -/
def TriggerDigits (m : Mapping) (fCrateManager : Option AliMUONTriggerCrateStore) (nBoard : Int)
    (xyPattern : XYPattern) (s : Sink) : Except Fault (Int × Sink) :=
  match forEach (fun iChamber => forEach (slotStep m fCrateManager nBoard xyPattern iChamber)
      (List.range 2)) (List.range 4) s with
  | .error e => .error e
  | .ok s1 => .ok (kTRUE, s1)

/-- The arrays `xyPattern` filled from a local struct in `ReadTriggerDDL`. -/
def mkXYPattern (l : AliMUONLocalStruct) : XYPattern :=
  { x := [toShort l.x1, toShort l.x2, toShort l.x3, toShort l.x4],
    y := [toShort l.y1, toShort l.y2, toShort l.y3, toShort l.y4] }

/-- The local trigger part of the body of the loop over the local entries:
with a trigger store, build the local trigger of circuit `loCircuit` from the
local struct and add it. -/
def fillLocal (loCircuit : Int) (ls : AliMUONLocalStruct) (st : St) : St :=
  match st.fTriggerStore with
  | none => st
  | some ts =>
    let localTrigger : AliMUONLocalTrigger := { loCircuit := loCircuit, localStruct := ls }
    { st with fTriggerStore := some (ts.Add localTrigger),
              calls := st.calls ++ [.triggerAdd localTrigger] }

/-- Body of the loop over the 16 bits of a pattern in `TriggerDigits` when its
reference `digitStore` was bound from a null `fDigitStore`: the steps of
`bitStep` up to `digitStore.Add`, which is then called on the null pointer.
Nothing but the messages changes before that. -/
def bitStepNull (seg : Option AliMpVSegmentation) (localBoard : AliMUONLocalTriggerBoard)
    (detElemId nBoard : Int) (iCath : Nat) (pattern : Int) (ibitxy : Nat)
    (reports : List Report) : Except Fault (List Report) :=
  if bitSet pattern ibitxy then
    let offset := bitOffset localBoard iCath
    match seg with
    | none => .error .nullPointer
    | some seg =>
      let pad := seg.PadByLocation nBoard ((ibitxy : Int) + offset) true
      if !pad.IsValid then
        .ok (reports ++ [.warnNoPad detElemId nBoard ibitxy])
      else .error .nullPointer
  else .ok reports

/-- Body of the loop over the two cathodes in `TriggerDigits` when `digitStore`
was bound from a null `fDigitStore`. -/
def slotStepNull (m : Mapping) (fCrateManager : Option AliMUONTriggerCrateStore) (nBoard : Int)
    (xyPattern : XYPattern) (iChamber iCath : Nat) (reports : List Report) :
    Except Fault (List Report) :=
  let pattern := TArraySAt (xyPattern.at iCath) iChamber
  if pattern = 0 then .ok reports
  else
    match fCrateManager with
    | none => .error .nullPointer
    | some cm =>
      match cm.LocalBoard nBoard with
      | none => .error .nullPointer
      | some localBoard =>
        let detElemId := m.DetElemId ((iChamber : Int) + 10) localBoard.GetName
        let seg := m.GetMpSegmentation detElemId (GetCathodType iCath)
        forEach (bitStepNull seg localBoard detElemId nBoard iCath pattern) (List.range 16)
          reports

/-- The run of `AliMUONDigitMaker::TriggerDigits` when `digitStore` was bound
from a null `fDigitStore`: it returns when no set bit has a valid pad, and ends
with a null pointer fault at the first set bit that has one. -/
def TriggerDigitsNull (m : Mapping) (fCrateManager : Option AliMUONTriggerCrateStore)
    (nBoard : Int) (xyPattern : XYPattern) (reports : List Report) :
    Except Fault (Int × List Report) :=
  match forEach (fun iChamber => forEach (slotStepNull m fCrateManager nBoard xyPattern iChamber)
      (List.range 2)) (List.range 4) reports with
  | .error e => .error e
  | .ok reports1 => .ok (kTRUE, reports1)

/-- The trigger digit part of the body of the loop over the local entries:
fill the pattern arrays and call `TriggerDigits` on `*fDigitStore`.  With a
null `fDigitStore` the call is still made; the store is first used at
`digitStore.Add`. -/
def fillTriggerDigits (m : Mapping) (cm : AliMUONTriggerCrateStore) (loCircuit : Int)
    (ls : AliMUONLocalStruct) (st : St) : Except Fault St :=
  match st.fDigitStore with
  | none =>
    match TriggerDigitsNull m (some cm) loCircuit (mkXYPattern ls) st.reports with
    | .error e => .error e
    | .ok (_, reports1) => .ok { st with reports := reports1 }
  | some ds =>
    match TriggerDigits m (some cm) loCircuit (mkXYPattern ls)
        { store := ds, calls := st.calls, reports := st.reports } with
    | .error e => .error e
    | .ok (_, s) =>
      .ok { st with fDigitStore := some s.store, calls := s.calls, reports := s.reports }

/-- Body of the loop over the local entries of a regional header in
`ReadTriggerDDL`; `boards` is the board array of the crate of the region. -/
def localStep (m : Mapping) (cm : AliMUONTriggerCrateStore) (fMakeTriggerDigits : Bool)
    (boards : List (Option AliMUONLocalTriggerBoard)) (localStruct : Option AliMUONLocalStruct)
    (st : St) : Except Fault St :=
  match localStruct with
  | none => .ok st
  | some ls =>
    match TObjArrayAt boards (ls.id + 1) with
    | none => .error .nullPointer
    | some localBoard =>
      let loCircuit := localBoard.GetNumber
      if loCircuit = 0 then .ok st
      else
        let st1 := fillLocal loCircuit ls st
        if fMakeTriggerDigits then fillTriggerDigits m cm loCircuit ls st1
        else .ok st1

/-- Body of the loop over the regional headers in `ReadTriggerDDL`. -/
def regStep (m : Mapping) (fCrateManager : Option AliMUONTriggerCrateStore)
    (fMakeTriggerDigits : Bool) (ddl : Int) (iReg : Nat) (regHeader : AliMUONRegHeader)
    (st : St) : Except Fault St :=
  match fCrateManager with
  | none => .error .fatal
  | some cm =>
    match cm.Crate ddl iReg with
    | none => .error .nullPointer
    | some crate =>
      forEach (localStep m cm fMakeTriggerDigits crate.Boards) regHeader.locals st

/-- The loop over the regional headers in `ReadTriggerDDL`, from index `iReg`
on. -/
def regLoop (m : Mapping) (fCrateManager : Option AliMUONTriggerCrateStore)
    (fMakeTriggerDigits : Bool) (ddl : Int) :
    Nat → List AliMUONRegHeader → St → Except Fault St
  | _, [], st => .ok st
  | iReg, regHeader :: rest, st =>
    match regStep m fCrateManager fMakeTriggerDigits ddl iReg regHeader st with
    | .error e => .error e
    | .ok st1 => regLoop m fCrateManager fMakeTriggerDigits ddl (iReg + 1) rest st1

/-- The global trigger part of the body of the `while` loop of
`ReadTriggerDDL`. -/
def fillGlobal (darcHeader : AliMUONDarcHeader) (st : St) : St :=
  match st.fTriggerStore with
  | none => st
  | some ts =>
    if darcHeader.GetGlobalFlag then
      let globalTrigger : AliMUONGlobalTrigger := { response := darcHeader.GetGlobalOutput }
      { st with fTriggerStore := some (ts.SetGlobal globalTrigger),
                calls := st.calls ++ [.triggerSetGlobal globalTrigger] }
    else st

/-- Body of the `while` loop of `ReadTriggerDDL` for one DDL section. -/
def ddlStep (m : Mapping) (fCrateManager : Option AliMUONTriggerCrateStore)
    (fMakeTriggerDigits : Bool) (ddlTrigger : AliMUONDDLTrigger) (st : St) : Except Fault St :=
  regLoop m fCrateManager fMakeTriggerDigits ddlTrigger.GetDDL 0
    ddlTrigger.darcHeader.regHeaders (fillGlobal ddlTrigger.darcHeader st)

/-- The `while` loop of `ReadTriggerDDL`: one `NextDDL` per section and a last
`NextDDL` that finds the stream exhausted. -/
def ddlLoop (m : Mapping) (fCrateManager : Option AliMUONTriggerCrateStore)
    (fMakeTriggerDigits : Bool) : List AliMUONDDLTrigger → St → Except Fault St
  | [], st => .ok (st.call .triggerNextDDL)
  | ddlTrigger :: rest, st =>
    match ddlStep m fCrateManager fMakeTriggerDigits ddlTrigger (st.call .triggerNextDDL) with
    | .error e => .error e
    | .ok st1 => ddlLoop m fCrateManager fMakeTriggerDigits rest st1

/-- Embedding of `AliMUONDigitMaker::ReadTriggerDDL`. -/
def ReadTriggerDDL (m : Mapping) (fCrateManager : Option AliMUONTriggerCrateStore)
    (fMakeTriggerDigits : Bool) (raw : RawEvent) (st : St) : Except Fault (Int × St) :=
  match ddlLoop m fCrateManager fMakeTriggerDigits raw.trigger (st.call .triggerSetReader) with
  | .error e => .error e
  | .ok st1 => .ok (kTRUE, st1)

/-! ## Entry point -/

/-- Embedding of `AliMUONDigitMaker::Raw2Digits`; the run starts with the two
store pointers as given and no call made yet. -/
def Raw2Digits (m : Mapping) (fCrateManager : Option AliMUONTriggerCrateStore)
    (fMakeTriggerDigits : Bool) (raw : RawEvent)
    (digitStore : Option AliMUONVDigitStore) (triggerStore : Option AliMUONVTriggerStore) :
    Except Fault (Int × St) :=
  let st0 : St :=
    { fDigitStore := digitStore, fTriggerStore := triggerStore, calls := [], reports := [] }
  if digitStore.isNone && triggerStore.isNone then
    .ok (kFALSE, st0.report .errNoStore)
  else
    let afterTracker : Except Fault St :=
      match st0.fDigitStore with
      | none => .ok st0
      | some ds =>
        match ReadTrackerDDL m raw
            ({ st0 with fDigitStore := some ds.Clear }.call .digitClear) with
        | .error e => .error e
        | .ok (_, st1) => .ok st1
    match afterTracker with
    | .error e => .error e
    | .ok st1 =>
      if st1.fTriggerStore.isSome || fMakeTriggerDigits then
        let st2 : St :=
          match st1.fTriggerStore with
          | none => st1
          | some ts => { st1 with fTriggerStore := some ts.Clear }.call .triggerClear
        if fMakeTriggerDigits && st2.fDigitStore.isNone then
          .ok (kTRUE, st2.report .errNoDigitStore)
        else
          match ReadTriggerDDL m fCrateManager fMakeTriggerDigits raw st2 with
          | .error e => .error e
          | .ok (_, st3) => .ok (kTRUE, st3)
      else .ok (kTRUE, st1)

/-! ## Vocabulary of the properties -/

deriving instance DecidableEq for Except

/-- Key of a digit in the store. -/
def AliMUONVDigit.key (d : AliMUONVDigit) : Int × Int × Int × Int :=
  (d.detElemId, d.manuId, d.manuChannel, d.cathode)

/-- Whether the mapping has a segmentation for the sample. -/
def hasSegmentation (m : Mapping) (s : Sample) : Bool :=
  (m.GetMpSegmentationByElectronics (m.GetDEfromBus s.buspatchId) s.manuId).isSome

/-- The pad the mapping gives for a sample that has a segmentation. -/
def samplePad (m : Mapping) (s : Sample) : Option AliMpPad :=
  (m.GetMpSegmentationByElectronics (m.GetDEfromBus s.buspatchId) s.manuId).map
    (fun seg => seg.PadByLocation s.manuId s.channelId false)

/-- A sample whose pad lookup is valid. -/
def validPad (m : Mapping) (s : Sample) : Bool :=
  match samplePad m s with
  | some pad => pad.IsValid
  | none => false

/-- A sample whose pad lookup returns an invalid pad. -/
def invalidPad (m : Mapping) (s : Sample) : Bool :=
  match samplePad m s with
  | some pad => !pad.IsValid
  | none => false

/-- The digit the specification asks for a sample with a valid pad: keyed by
the detector element of the bus patch, the manu, the channel and the cathode
of the plane, placed on the pad of the mapping and carrying the charge of the
sample. -/
def expectedDigit (m : Mapping) (s : Sample) : Option AliMUONVDigit :=
  match m.GetMpSegmentationByElectronics (m.GetDEfromBus s.buspatchId) s.manuId with
  | none => none
  | some seg =>
    let pad := seg.PadByLocation s.manuId s.channelId false
    if pad.IsValid then
      some { detElemId := m.GetDEfromBus s.buspatchId, manuId := s.manuId,
             manuChannel := s.channelId,
             cathode := (m.GetCathod (m.GetDEfromBus s.buspatchId) seg.PlaneType).toInt,
             padXY := some (pad.ix, pad.iy), adc := some s.charge, charge := none }
    else none

/-- One expected digit per sample with a valid pad, in stream order. -/
def expectedDigits (m : Mapping) (l : List Sample) : List AliMUONVDigit :=
  l.filterMap (expectedDigit m)

/-- The digits in the digit store of a state; none when the pointer is null. -/
def St.digits (st : St) : List AliMUONVDigit :=
  match st.fDigitStore with
  | some ds => ds.digits
  | none => []

/-- The digit store pointer and content a run ends with, or its fault. -/
def resultDigits (r : Except Fault (Int × St)) : Except Fault (Option AliMUONVDigitStore) :=
  match r with
  | .error e => .error e
  | .ok (_, st) => .ok st.fDigitStore

/-- The digit store pointer and content a loop ends with, or its fault. -/
def stateDigits (r : Except Fault St) : Except Fault (Option AliMUONVDigitStore) :=
  match r with
  | .error e => .error e
  | .ok st => .ok st.fDigitStore

/-- Number of digits the store of `st1` holds beyond those of `st`. -/
def insertedCount (st st1 : St) : Int :=
  (st1.digits.length : Int) - (st.digits.length : Int)

/-- Every sample of the tracker stream has a segmentation in the mapping. -/
def trackerResolves (m : Mapping) (raw : RawEvent) : Bool :=
  raw.tracker.all (hasSegmentation m)

/-- The lookups `TriggerDigits` makes for one chamber slot and one cathode
resolve: the pattern word is zero, or the board is known to the crate store and
its detector element has a segmentation for the cathode. -/
def slotResolves (m : Mapping) (cm : AliMUONTriggerCrateStore) (nBoard : Int)
    (xyPattern : XYPattern) (iChamber iCath : Nat) : Bool :=
  TArraySAt (xyPattern.at iCath) iChamber == 0 ||
    match cm.LocalBoard nBoard with
    | none => false
    | some localBoard =>
      (m.GetMpSegmentation (m.DetElemId ((iChamber : Int) + 10) localBoard.GetName)
        (GetCathodType iCath)).isSome

/-- The lookups `TriggerDigits` makes for a board resolve, for the four chamber
slots and the two cathodes. -/
def boardResolves (m : Mapping) (cm : AliMUONTriggerCrateStore) (nBoard : Int)
    (xyPattern : XYPattern) : Bool :=
  (List.range 4).all fun iChamber =>
    (List.range 2).all fun iCath => slotResolves m cm nBoard xyPattern iChamber iCath

/-- The lookups made for one local entry resolve: the entry is null, or its
board is in the board array and, when digits are made for it, the lookups of
`TriggerDigits` resolve. -/
def localResolves (m : Mapping) (cm : AliMUONTriggerCrateStore) (fMakeTriggerDigits : Bool)
    (boards : List (Option AliMUONLocalTriggerBoard)) : Option AliMUONLocalStruct → Bool
  | none => true
  | some ls =>
    match TObjArrayAt boards (ls.id + 1) with
    | none => false
    | some localBoard =>
      localBoard.GetNumber == 0 || !fMakeTriggerDigits ||
        boardResolves m cm localBoard.GetNumber (mkXYPattern ls)

/-- The lookups made for the regional headers from index `iReg` on resolve:
each region has a crate and each of its local entries resolves. -/
def regsResolve (m : Mapping) (cm : AliMUONTriggerCrateStore) (fMakeTriggerDigits : Bool)
    (ddl : Int) : Nat → List AliMUONRegHeader → Bool
  | _, [] => true
  | iReg, regHeader :: rest =>
    (match cm.Crate ddl iReg with
      | none => false
      | some crate => regHeader.locals.all (localResolves m cm fMakeTriggerDigits crate.Boards))
    && regsResolve m cm fMakeTriggerDigits ddl (iReg + 1) rest

/-- Every lookup the trigger decoder makes for the event resolves: there is a
crate store, and in every DDL section every region and local entry resolves. -/
def triggerResolves (m : Mapping) (fCrateManager : Option AliMUONTriggerCrateStore)
    (fMakeTriggerDigits : Bool) (raw : RawEvent) : Bool :=
  match fCrateManager with
  | none => false
  | some cm =>
    raw.trigger.all fun ddlTrigger =>
      regsResolve m cm fMakeTriggerDigits ddlTrigger.GetDDL 0 ddlTrigger.darcHeader.regHeaders

/-- The global records of the DDL sections that carry the global flag, in
stream order. -/
def flaggedGlobals (l : List AliMUONDDLTrigger) : List AliMUONGlobalTrigger :=
  l.filterMap fun ddlTrigger =>
    if ddlTrigger.darcHeader.GetGlobalFlag then
      some { response := ddlTrigger.darcHeader.GetGlobalOutput }
    else none

/-- The records handed to `SetGlobal`, in call order. -/
def setGlobalCalls (calls : List Call) : List AliMUONGlobalTrigger :=
  calls.filterMap fun c =>
    match c with
    | .triggerSetGlobal g => some g
    | _ => none

/-- The global record in the trigger store of a state. -/
def St.global (st : St) : Option AliMUONGlobalTrigger :=
  match st.fTriggerStore with
  | some ts => ts.global
  | none => none

/-- A local struct whose resolved board, entry `GetId()+1` of the board array,
has board number 0. -/
def isCopyCard (boards : List (Option AliMUONLocalTriggerBoard)) (ls : AliMUONLocalStruct) :
    Bool :=
  match TObjArrayAt boards (ls.id + 1) with
  | some localBoard => localBoard.GetNumber == 0
  | none => false

/-- Replace a local entry that is a copy card by a null entry. -/
def dropCopyLocal (boards : List (Option AliMUONLocalTriggerBoard)) :
    Option AliMUONLocalStruct → Option AliMUONLocalStruct
  | none => none
  | some ls => if isCopyCard boards ls then none else some ls

/-- Replace the copy cards of the regional headers from index `iReg` on by
null entries. -/
def dropCopyRegs (cm : AliMUONTriggerCrateStore) (ddl : Int) :
    Nat → List AliMUONRegHeader → List AliMUONRegHeader
  | _, [] => []
  | iReg, regHeader :: rest =>
    (match cm.Crate ddl iReg with
      | none => regHeader
      | some crate => { locals := regHeader.locals.map (dropCopyLocal crate.Boards) })
    :: dropCopyRegs cm ddl (iReg + 1) rest

/-- Replace the copy cards of a DDL section by null entries. -/
def dropCopyDDL (cm : AliMUONTriggerCrateStore) (ddlTrigger : AliMUONDDLTrigger) :
    AliMUONDDLTrigger :=
  { ddlTrigger with
    darcHeader := { ddlTrigger.darcHeader with
      regHeaders := dropCopyRegs cm ddlTrigger.GetDDL 0 ddlTrigger.darcHeader.regHeaders } }

/-- What the trigger loops keep of a state for the totality argument: the
digit store pointer stays non-null when digits are to be made. -/
def digitsReady (fMakeTriggerDigits : Bool) (st : St) : Prop :=
  fMakeTriggerDigits = true → st.fDigitStore.isSome = true

/-- What the loops inside one DDL section leave alone: whether there is a
trigger store, its global record, and the records handed to `SetGlobal`. -/
def sameGlobal (st st1 : St) : Prop :=
  st1.fTriggerStore.isSome = st.fTriggerStore.isSome ∧ st1.global = st.global ∧
    setGlobalCalls st1.calls = setGlobalCalls st.calls

/-- The bit positions the loop over `ibitxy` in `TriggerDigits` treats as set,
in the order in which the loop visits them. -/
def setPositions (pattern : Int) : List Nat :=
  (List.range 16).filter (bitSet pattern)

/-- The channel at which the specification looks up the pad of bit `ibitxy`:
shifted by 8 downwards when the cathode is the non-bending one (1) and switch
6 of the board is set, the bit index itself in every other case. -/
def lookupChannel (localBoard : AliMUONLocalTriggerBoard) (iCath ibitxy : Nat) : Int :=
  if iCath = 1 ∧ localBoard.GetSwitch 6 = true then (ibitxy : Int) - 8 else (ibitxy : Int)

/-- The trigger digit the specification asks for bit `ibitxy` of a pattern
word: keyed by the detector element, the board number, the bit index and the
cathode, placed on the pad found at `lookupChannel` and carrying charge 1. -/
def triggerDigit (seg : AliMpVSegmentation) (localBoard : AliMUONLocalTriggerBoard)
    (detElemId nBoard : Int) (iCath ibitxy : Nat) : AliMUONVDigit :=
  let pad := seg.PadByLocation nBoard (lookupChannel localBoard iCath ibitxy) true
  { detElemId := detElemId, manuId := nBoard, manuChannel := ibitxy, cathode := iCath,
    padXY := some (pad.ix, pad.iy), adc := none, charge := some 1 }

/-- The trigger digits expected for one chamber slot and one cathode: one per
set bit of the pattern word, in ascending bit order. -/
def expectedSlotDigits (m : Mapping) (localBoard : AliMUONLocalTriggerBoard) (nBoard : Int)
    (xyPattern : XYPattern) (iChamber iCath : Nat) : List AliMUONVDigit :=
  match m.GetMpSegmentation (m.DetElemId ((iChamber : Int) + 10) localBoard.GetName)
      (GetCathodType iCath) with
  | none => []
  | some seg =>
    (setPositions (TArraySAt (xyPattern.at iCath) iChamber)).map
      (triggerDigit seg localBoard (m.DetElemId ((iChamber : Int) + 10) localBoard.GetName)
        nBoard iCath)

/-- The trigger digits expected for a board: those of the eight pattern words,
chamber slot by chamber slot and, within a slot, cathode 0 before cathode 1. -/
def expectedTriggerDigits (m : Mapping) (localBoard : AliMUONLocalTriggerBoard) (nBoard : Int)
    (xyPattern : XYPattern) : List AliMUONVDigit :=
  (List.range 4).flatMap fun iChamber =>
    (List.range 2).flatMap fun iCath =>
      expectedSlotDigits m localBoard nBoard xyPattern iChamber iCath

/-- Every pad lookup made for one chamber slot and one cathode is valid: the
word is zero, or the segmentation exists and the pad of every set bit is
valid. -/
def slotPadsValid (m : Mapping) (localBoard : AliMUONLocalTriggerBoard) (nBoard : Int)
    (xyPattern : XYPattern) (iChamber iCath : Nat) : Bool :=
  TArraySAt (xyPattern.at iCath) iChamber == 0 ||
    match m.GetMpSegmentation (m.DetElemId ((iChamber : Int) + 10) localBoard.GetName)
        (GetCathodType iCath) with
    | none => false
    | some seg =>
      (setPositions (TArraySAt (xyPattern.at iCath) iChamber)).all fun i =>
        (seg.PadByLocation nBoard (lookupChannel localBoard iCath i) true).IsValid

/-- Every pad lookup made for a board is valid. -/
def padsValid (m : Mapping) (localBoard : AliMUONLocalTriggerBoard) (nBoard : Int)
    (xyPattern : XYPattern) : Bool :=
  (List.range 4).all fun iChamber =>
    (List.range 2).all fun iCath => slotPadsValid m localBoard nBoard xyPattern iChamber iCath

/-- The set positions of the eight pattern words, in the order in which
`TriggerDigits` goes through the words. -/
def allSetPositions (xyPattern : XYPattern) : List Nat :=
  (List.range 4).flatMap fun iChamber =>
    (List.range 2).flatMap fun iCath => setPositions (TArraySAt (xyPattern.at iCath) iChamber)

/-! ## Crate names -/

/-- Embedding of `AliMUONDigitMaker::GetCrateName`; `name` is the content of the
buffer at the call, which the `switch` leaves as it is for a region index
outside 0..7, and the result is the content of the buffer at the end. -/
def GetCrateName (name : String) (iDDL iReg : Int) : String :=
  let name1 :=
    if iReg = 0 ∨ iReg = 1 then toString (iReg + 1)
    else if iReg = 2 then "2-3"
    else if 3 ≤ iReg ∧ iReg ≤ 7 then toString iReg
    else name
  if iDDL = 0 then name1 ++ "R" else name1 ++ "L"

/-- The base of the crate name the specification gives for a region index in
0..7. -/
def crateBaseName (iReg : Int) : String :=
  if iReg = 0 then "1"
  else if iReg = 1 then "2"
  else if iReg = 2 then "2-3"
  else if iReg = 3 then "3"
  else if iReg = 4 then "4"
  else if iReg = 5 then "5"
  else if iReg = 6 then "6"
  else "7"

/-! ## Vocabulary of the properties, continued -/

/-- The local trigger records in the trigger store of a state. -/
def St.locals (st : St) : List AliMUONLocalTrigger :=
  match st.fTriggerStore with
  | some ts => ts.locals
  | none => []

/-- Calls made on the digit store. -/
def Call.onDigitStore : Call → Bool
  | .digitClear => true
  | .digitAdd _ _ _ _ => true
  | _ => false

/-- Calls made on the trigger store. -/
def Call.onTriggerStore : Call → Bool
  | .triggerClear => true
  | .triggerSetGlobal _ => true
  | .triggerAdd _ => true
  | _ => false

/-- Between two states the digit store was not touched: same pointer, same
content, no further call on it. -/
def digitUntouched (st st1 : St) : Prop :=
  st1.fDigitStore = st.fDigitStore ∧
    st1.calls.filter Call.onDigitStore = st.calls.filter Call.onDigitStore

/-- Between two states the trigger store was not touched: same pointer, same
content, no further call on it. -/
def triggerUntouched (st st1 : St) : Prop :=
  st1.fTriggerStore = st.fTriggerStore ∧
    st1.calls.filter Call.onTriggerStore = st.calls.filter Call.onTriggerStore

/-- The state `st` with the trigger store pointer and content replaced. -/
def St.withTrigger (x : Option AliMUONVTriggerStore) (st : St) : St :=
  { st with fTriggerStore := x }

/-- The state in which `Raw2Digits` enters the loop of `ReadTrackerDDL` when a
digit store is supplied: the digit store cleared, the trigger store pointer as
given, and the calls made so far. -/
def trackerStart (triggerStore : Option AliMUONVTriggerStore) : St :=
  { fDigitStore := some { digits := [] }, fTriggerStore := triggerStore,
    calls := [.digitClear, .trackerSetReader, .trackerFirst], reports := [] }

/-- A local entry is null or its board, entry `GetId()+1` of the board array,
is there. -/
def localHasBoard (boards : List (Option AliMUONLocalTriggerBoard)) :
    Option AliMUONLocalStruct → Bool
  | none => true
  | some ls => (TObjArrayAt boards (ls.id + 1)).isSome

/-- From region index `iReg` on, every region has a crate and every local
entry that is not null has a board. -/
def regsHaveBoards (cm : AliMUONTriggerCrateStore) (ddl : Int) :
    Nat → List AliMUONRegHeader → Bool
  | _, [] => true
  | iReg, regHeader :: rest =>
    (match cm.Crate ddl iReg with
      | none => false
      | some crate => regHeader.locals.all (localHasBoard crate.Boards))
    && regsHaveBoards cm ddl (iReg + 1) rest

/-- All crates and boards of a trigger stream are resolvable. -/
def cratesAndBoardsResolve (cm : AliMUONTriggerCrateStore) (l : List AliMUONDDLTrigger) :
    Bool :=
  l.all fun ddlTrigger =>
    regsHaveBoards cm ddlTrigger.GetDDL 0 ddlTrigger.darcHeader.regHeaders

/-- For one chamber slot and one cathode `TriggerDigits` gets along without the
digit store: the pattern word is zero, or the board and the segmentation are
there and no set bit of the pattern has a valid pad. -/
def slotQuiet (m : Mapping) (cm : AliMUONTriggerCrateStore) (nBoard : Int)
    (xyPattern : XYPattern) (iChamber iCath : Nat) : Bool :=
  TArraySAt (xyPattern.at iCath) iChamber == 0 ||
    match cm.LocalBoard nBoard with
    | none => false
    | some localBoard =>
      match m.GetMpSegmentation (m.DetElemId ((iChamber : Int) + 10) localBoard.GetName)
          (GetCathodType iCath) with
      | none => false
      | some seg =>
        (List.range 16).all fun ibitxy =>
          !bitSet (TArraySAt (xyPattern.at iCath) iChamber) ibitxy ||
            !(seg.PadByLocation nBoard ((ibitxy : Int) + bitOffset localBoard iCath)
              true).IsValid

/-- For a board `TriggerDigits` gets along without the digit store, for the
four chamber slots and the two cathodes. -/
def boardQuiet (m : Mapping) (cm : AliMUONTriggerCrateStore) (nBoard : Int)
    (xyPattern : XYPattern) : Bool :=
  (List.range 4).all fun iChamber =>
    (List.range 2).all fun iCath => slotQuiet m cm nBoard xyPattern iChamber iCath

/-- What the synthesis of trigger digits needs for one local entry: nothing for
a null entry, an entry without board or a copy card; otherwise the lookups of
`TriggerDigits` resolve when there is a digit store (`hasStore`), and
`TriggerDigits` gets along without the store when `fDigitStore` is null. -/
def localSynthesisResolves (m : Mapping) (cm : AliMUONTriggerCrateStore) (hasStore : Bool)
    (boards : List (Option AliMUONLocalTriggerBoard)) : Option AliMUONLocalStruct → Bool
  | none => true
  | some ls =>
    match TObjArrayAt boards (ls.id + 1) with
    | none => true
    | some localBoard =>
      localBoard.GetNumber == 0 ||
        if hasStore then boardResolves m cm localBoard.GetNumber (mkXYPattern ls)
        else boardQuiet m cm localBoard.GetNumber (mkXYPattern ls)

/-- What the synthesis of trigger digits needs for the regional headers from
index `iReg` on. -/
def regsSynthesisResolve (m : Mapping) (cm : AliMUONTriggerCrateStore) (hasStore : Bool)
    (ddl : Int) : Nat → List AliMUONRegHeader → Bool
  | _, [] => true
  | iReg, regHeader :: rest =>
    (match cm.Crate ddl iReg with
      | none => true
      | some crate => regHeader.locals.all (localSynthesisResolves m cm hasStore crate.Boards))
    && regsSynthesisResolve m cm hasStore ddl (iReg + 1) rest

/-- What the synthesis of trigger digits needs for a trigger stream in order
not to end in a fault: for every board it is run for, its lookups resolve and,
when `fDigitStore` is null, no set bit has a valid pad. -/
def synthesisResolves (m : Mapping) (cm : AliMUONTriggerCrateStore) (hasStore : Bool)
    (l : List AliMUONDDLTrigger) : Bool :=
  l.all fun ddlTrigger =>
    regsSynthesisResolve m cm hasStore ddlTrigger.GetDDL 0 ddlTrigger.darcHeader.regHeaders

/-! ## The digit maker between two calls -/

/-- Modelled from the spec: the raw stream cursor of the tracker
(`AliMUONRawStreamTracker`, whose code is in other files), with
`setSource(eventHandle)`, which puts the cursor on the event handed in, and
`advance()`, which hands out the samples of that event one by one until the
stream is exhausted.  The cursor keeps the samples of its event and those not
handed out yet. -/
structure AliMUONRawStreamTracker where
  source : List Sample
  pending : List Sample
deriving DecidableEq, Repr

/-- Stream operation `SetReader(rawReader)`. -/
def AliMUONRawStreamTracker.SetReader (_s : AliMUONRawStreamTracker) (rawReader : RawEvent) :
    AliMUONRawStreamTracker :=
  { source := rawReader.tracker, pending := rawReader.tracker }

/-- Stream operation `First()`: back to the first sample of the event. -/
def AliMUONRawStreamTracker.First (s : AliMUONRawStreamTracker) : AliMUONRawStreamTracker :=
  { s with pending := s.source }

/-- The stream after `Next` has returned false. -/
def AliMUONRawStreamTracker.exhausted (s : AliMUONRawStreamTracker) : AliMUONRawStreamTracker :=
  { s with pending := [] }

/-- Modelled from the spec: the raw stream cursor of the trigger
(`AliMUONRawStreamTrigger`, whose code is in other files), with
`setSource(eventHandle)`, which puts the cursor on the event handed in, and
`advance()`, which hands out the DDL sections of that event one by one until
the stream is exhausted.  The cursor keeps the sections not handed out yet. -/
structure AliMUONRawStreamTrigger where
  pending : List AliMUONDDLTrigger
deriving DecidableEq, Repr

/-- Stream operation `SetReader(rawReader)`. -/
def AliMUONRawStreamTrigger.SetReader (_s : AliMUONRawStreamTrigger) (rawReader : RawEvent) :
    AliMUONRawStreamTrigger :=
  { pending := rawReader.trigger }

/-- The stream after `NextDDL` has returned false. -/
def AliMUONRawStreamTrigger.exhausted (_s : AliMUONRawStreamTrigger) : AliMUONRawStreamTrigger :=
  { pending := [] }

/-- The stopwatch members as far as the decoder uses them: whether the
stopwatch runs and how often it was started. -/
structure TStopwatch where
  running : Bool
  fCounter : Nat
deriving DecidableEq, Repr

/-- Stopwatch operation `Start(kFALSE)`: start without a reset. -/
def TStopwatch.Start (t : TStopwatch) : TStopwatch :=
  { running := true, fCounter := t.fCounter + 1 }

/-- Stopwatch operation `Stop()`. -/
def TStopwatch.Stop (t : TStopwatch) : TStopwatch :=
  { t with running := false }

/-- The digit maker object between two calls of `Raw2Digits`: its data members
as the constructor lists them.  The members `fDigitStore` and `fTriggerStore`
are kept in `run`, as the last call left them, with the trace of that call. -/
structure AliMUONDigitMaker where
  fScalerEvent : Bool
  fMakeTriggerDigits : Bool
  fRawStreamTracker : AliMUONRawStreamTracker
  fRawStreamTrigger : AliMUONRawStreamTrigger
  fCrateManager : Option AliMUONTriggerCrateStore
  fTrackerTimer : TStopwatch
  fTriggerTimer : TStopwatch
  fMappingTimer : TStopwatch
  run : St

/-- The object with the store members and the trace replaced. -/
def AliMUONDigitMaker.withRun (self : AliMUONDigitMaker) (st : St) : AliMUONDigitMaker :=
  { self with run := st }

/-- The member function `ReadTrackerDDL` on the object: the stopwatch is
started, `SetReader(rawReader)` and `First()` put the tracker stream on the
first sample of the event, the loop pulls from the stream until it is
exhausted, and the stopwatch is stopped. -/
def AliMUONDigitMaker.ReadTrackerDDL (self : AliMUONDigitMaker) (m : Mapping)
    (rawReader : RawEvent) : Except Fault (Int × AliMUONDigitMaker) :=
  let self1 : AliMUONDigitMaker :=
    { self with
      fTrackerTimer := self.fTrackerTimer.Start,
      fRawStreamTracker := (self.fRawStreamTracker.SetReader rawReader).First,
      run := (self.run.call .trackerSetReader).call .trackerFirst }
  match trackerLoop m self1.fRawStreamTracker.pending self1.run with
  | .error e => .error e
  | .ok st1 =>
    .ok (kTRUE,
      { self1 with
        fRawStreamTracker := self1.fRawStreamTracker.exhausted,
        fTrackerTimer := self1.fTrackerTimer.Stop,
        run := st1 })

/-- The member function `ReadTriggerDDL` on the object: the stopwatch is
started, `SetReader(rawReader)` puts the trigger stream on the event, the loop
pulls DDL sections from the stream until it is exhausted, and the stopwatch is
stopped. -/
def AliMUONDigitMaker.ReadTriggerDDL (self : AliMUONDigitMaker) (m : Mapping)
    (rawReader : RawEvent) : Except Fault (Int × AliMUONDigitMaker) :=
  let self1 : AliMUONDigitMaker :=
    { self with
      fTriggerTimer := self.fTriggerTimer.Start,
      fRawStreamTrigger := self.fRawStreamTrigger.SetReader rawReader,
      run := self.run.call .triggerSetReader }
  match ddlLoop m self1.fCrateManager self1.fMakeTriggerDigits self1.fRawStreamTrigger.pending
      self1.run with
  | .error e => .error e
  | .ok st1 =>
    .ok (kTRUE,
      { self1 with
        fRawStreamTrigger := self1.fRawStreamTrigger.exhausted,
        fTriggerTimer := self1.fTriggerTimer.Stop,
        run := st1 })

/-- The member function `Raw2Digits` on the object: the two store members are
assigned from the arguments, the trace starts anew, and every later step reads
the members. -/
def AliMUONDigitMaker.Raw2Digits (self : AliMUONDigitMaker) (m : Mapping)
    (rawReader : RawEvent) (digitStore : Option AliMUONVDigitStore)
    (triggerStore : Option AliMUONVTriggerStore) : Except Fault (Int × AliMUONDigitMaker) :=
  let self0 := self.withRun
    { fDigitStore := digitStore, fTriggerStore := triggerStore, calls := [], reports := [] }
  if self0.run.fDigitStore.isNone && self0.run.fTriggerStore.isNone then
    .ok (kFALSE, self0.withRun (self0.run.report .errNoStore))
  else
    let afterTracker : Except Fault AliMUONDigitMaker :=
      match self0.run.fDigitStore with
      | none => .ok self0
      | some ds =>
        match AliMUONDigitMaker.ReadTrackerDDL
            (self0.withRun ({ self0.run with fDigitStore := some ds.Clear }.call .digitClear))
            m rawReader with
        | .error e => .error e
        | .ok (_, self1) => .ok self1
    match afterTracker with
    | .error e => .error e
    | .ok self1 =>
      if self1.run.fTriggerStore.isSome || self1.fMakeTriggerDigits then
        let self2 : AliMUONDigitMaker :=
          match self1.run.fTriggerStore with
          | none => self1
          | some ts =>
            self1.withRun ({ self1.run with fTriggerStore := some ts.Clear }.call .triggerClear)
        if self2.fMakeTriggerDigits && self2.run.fDigitStore.isNone then
          .ok (kTRUE, self2.withRun (self2.run.report .errNoDigitStore))
        else
          match AliMUONDigitMaker.ReadTriggerDDL self2 m rawReader with
          | .error e => .error e
          | .ok (_, self3) => .ok (kTRUE, self3)
      else .ok (kTRUE, self1)

/-- What a call on the object delivers: the value returned with the two stores
and the trace of the call, or the fault. -/
def outcome (r : Except Fault (Int × AliMUONDigitMaker)) : Except Fault (Int × St) :=
  match r with
  | .error e => .error e
  | .ok (v, self) => .ok (v, self.run)

/-- A call on the object has left the flag and the crate store as they were. -/
def keepsSettings (self : AliMUONDigitMaker) (r : Except Fault (Int × AliMUONDigitMaker)) :
    Prop :=
  match r with
  | .error _ => True
  | .ok (_, o) =>
    o.fMakeTriggerDigits = self.fMakeTriggerDigits ∧ o.fCrateManager = self.fCrateManager

/-! ## A small detector used for the examples -/

namespace Example

/-- Tracker segmentation: manu 12 has valid pads on channels 0 to 7, the pad
of channel `c` being `(c - 1, c + 4)`. -/
def trackerSeg : AliMpVSegmentation :=
  { PlaneType := .kBendingPlane,
    PadByLocation := fun manu ch _ =>
      if manu = 12 ∧ 0 ≤ ch ∧ ch < 8 then { IsValid := true, ix := ch - 1, iy := ch + 4 }
      else { IsValid := false, ix := 0, iy := 0 } }

/-- Trigger segmentation: a pad is valid when its second coordinate lies in
0 to 11. -/
def triggerSeg : AliMpVSegmentation :=
  { PlaneType := .kNonBendingPlane,
    PadByLocation := fun board ch _ =>
      if 0 ≤ ch ∧ ch < 12 then { IsValid := true, ix := board, iy := ch }
      else { IsValid := false, ix := 0, iy := 0 } }

/-- Mapping: bus patch `b` sits on detector element `100 + b`; only detector
element 103 has a tracker segmentation; the trigger detector element of chamber
`c` is `100 * c`. -/
def mapping : Mapping :=
  { GetDEfromBus := fun b => 100 + b,
    GetMpSegmentationByElectronics := fun de _ => if de = 103 then some trackerSeg else none,
    GetMpSegmentation := fun _ _ => some triggerSeg,
    GetCathod := fun _ p =>
      match p with
      | .kBendingPlane => .kCath0
      | .kNonBendingPlane => .kCath1,
    DetElemId := fun ch _ => 100 * ch }

/-- Board number 7, switch 6 unset. -/
def board7 : AliMUONLocalTriggerBoard :=
  { GetNumber := 7, GetName := "LC7", GetSwitch := fun _ => false }

/-- Board number 9, switch 6 set. -/
def board9 : AliMUONLocalTriggerBoard :=
  { GetNumber := 9, GetName := "LC9", GetSwitch := fun i => i == 6 }

/-- A copy card: board number 0. -/
def copyBoard : AliMUONLocalTriggerBoard :=
  { GetNumber := 0, GetName := "copy", GetSwitch := fun _ => false }

/-- Crate store: regions 0 and 2 of every DDL have a crate with the boards 7,
9 and the copy card in slots 1, 2 and 3; region 1 has no crate. -/
def crates : AliMUONTriggerCrateStore :=
  { Crate := fun _ iReg =>
      if iReg = 1 then none
      else some { Boards := [none, some board7, some board9, some copyBoard] },
    LocalBoard := fun n =>
      if n = 7 then some board7 else if n = 9 then some board9 else none }

/-- The sample of the specification: link 3, chip 12, channel 5, amplitude 87. -/
def sample87 : Sample :=
  { buspatchId := 3, manuId := 12, channelId := 5, charge := 87 }

/-- A second sample on another channel with a valid pad. -/
def sample40 : Sample :=
  { buspatchId := 3, manuId := 12, channelId := 2, charge := 40 }

/-- The key of `sample87` again, with another charge. -/
def sample99 : Sample :=
  { buspatchId := 3, manuId := 12, channelId := 5, charge := 99 }

/-- A sample with a segmentation and no valid pad. -/
def sampleNoPad : Sample :=
  { buspatchId := 3, manuId := 12, channelId := 9, charge := 50 }

/-- A sample on a bus patch whose detector element has no segmentation. -/
def sampleNoSeg : Sample :=
  { buspatchId := 4, manuId := 12, channelId := 5, charge := 60 }

/-- A local struct for slot 1 (board 7) with one X strip. -/
def local7 : AliMUONLocalStruct :=
  { id := 0, x1 := 1, x2 := 0, x3 := 0, x4 := 0, y1 := 0, y2 := 0, y3 := 0, y4 := 0,
    decision := 5 }

/-- A local struct for slot 2 (board 9) with Y strips 8, 12 and 15 on the
first chamber. -/
def local9 : AliMUONLocalStruct :=
  { id := 1, x1 := 0, x2 := 0, x3 := 0, x4 := 0, y1 := 0x9100, y2 := 0, y3 := 0, y4 := 0,
    decision := 6 }

/-- A local struct for slot 3, the copy card, with all patterns full. -/
def localCopy : AliMUONLocalStruct :=
  { id := 2, x1 := 0xFFFF, x2 := 0xFFFF, x3 := 0xFFFF, x4 := 0xFFFF,
    y1 := 0xFFFF, y2 := 0xFFFF, y3 := 0xFFFF, y4 := 0xFFFF, decision := 7 }

/-- A local struct for slot 1 (board 7) with X strips 0 and 13 on the first
chamber; strip 13 has no valid pad. -/
def local7wide : AliMUONLocalStruct :=
  { id := 0, x1 := 0x2001, x2 := 0, x3 := 0, x4 := 0, y1 := 0, y2 := 0, y3 := 0, y4 := 0,
    decision := 4 }

/-- An event with samples without a valid pad and on a channel already
filled, with trigger strips without a valid pad, with a board sent twice
and with a copy card; two of its three DDL sections carry the global flag. -/
def softEvent : RawEvent :=
  { tracker := [sample87, sampleNoPad, sample99, sample40],
    trigger :=
      [{ GetDDL := 0,
         darcHeader :=
           { GetGlobalFlag := true,
             GetGlobalOutput := 3,
             regHeaders :=
               [{ locals :=
                    [some local7wide, none, some local9, some localCopy, some local7] }] } },
       { GetDDL := 1,
         darcHeader := { GetGlobalFlag := true, GetGlobalOutput := 9, regHeaders := [] } },
       { GetDDL := 2,
         darcHeader :=
           { GetGlobalFlag := false,
             GetGlobalOutput := 5,
             regHeaders := [{ locals := [] }] } }] }

/-- An event whose only DDL section has three regions; regions 0 and 2 hold
a local struct each, region 1, for which there is no crate, holds none. -/
def missingCrateEvent : RawEvent :=
  { tracker := [],
    trigger :=
      [{ GetDDL := 0,
         darcHeader :=
           { GetGlobalFlag := false,
             GetGlobalOutput := 0,
             regHeaders :=
               [{ locals := [some local7] }, { locals := [] }, { locals := [some local9] }] } }] }

/-- The event `missingCrateEvent` with its region 0 only. -/
def oneCrateEvent : RawEvent :=
  { tracker := [],
    trigger :=
      [{ GetDDL := 0,
         darcHeader :=
           { GetGlobalFlag := false,
             GetGlobalOutput := 0,
             regHeaders := [{ locals := [some local7] }] } }] }

/-- A state with an empty digit store, an empty trigger store and no call
made. -/
def emptyState : St :=
  { fDigitStore := some { digits := [] }, fTriggerStore := some { global := none, locals := [] },
    calls := [], reports := [] }

/-- A local struct whose board slot, entry 5 of the board array, is beyond
the boards of the example crate. -/
def localNoBoard : AliMUONLocalStruct :=
  { id := 4, x1 := 1, x2 := 0, x3 := 0, x4 := 0, y1 := 0, y2 := 0, y3 := 0, y4 := 0,
    decision := 3 }

/-- An event whose only region holds a local struct without board followed by
a local struct of board 7. -/
def missingBoardEvent : RawEvent :=
  { tracker := [],
    trigger :=
      [{ GetDDL := 0,
         darcHeader :=
           { GetGlobalFlag := false,
             GetGlobalOutput := 0,
             regHeaders := [{ locals := [some localNoBoard, some local7] }] } }] }

/-- A digit store that already holds a digit, on the key of `sample87`. -/
def usedDigitStore : AliMUONVDigitStore :=
  { digits := [{ detElemId := 103, manuId := 12, manuChannel := 5, cathode := 0,
                 padXY := some (1, 1), adc := some 7, charge := none }] }

/-- A trigger store that already holds a global record and a local record. -/
def usedTriggerStore : AliMUONVTriggerStore :=
  { global := some { response := 1 }, locals := [{ loCircuit := 3, localStruct := localCopy }] }

/-- A local struct for slot 1 (board 7) whose only strip, X strip 13 of the
first chamber, has no valid pad. -/
def local7high : AliMUONLocalStruct :=
  { id := 0, x1 := 0x2000, x2 := 0, x3 := 0, x4 := 0, y1 := 0, y2 := 0, y3 := 0, y4 := 0,
    decision := 2 }

/-- An event with two flagged DDL sections whose only local struct sets no
strip with a valid pad. -/
def quietEvent : RawEvent :=
  { tracker := [],
    trigger :=
      [{ GetDDL := 0,
         darcHeader :=
           { GetGlobalFlag := true,
             GetGlobalOutput := 3,
             regHeaders := [{ locals := [some local7high] }] } },
       { GetDDL := 1,
         darcHeader := { GetGlobalFlag := true, GetGlobalOutput := 9, regHeaders := [] } }] }

/-- A state with a null digit store pointer and an empty trigger store. -/
def noDigitState : St :=
  { fDigitStore := none, fTriggerStore := some { global := none, locals := [] },
    calls := [], reports := [] }

/-- The event `softEvent` followed by one more sample, on a bus patch whose
detector element has no segmentation. -/
def softNoSegEvent : RawEvent :=
  { tracker := softEvent.tracker ++ [sampleNoSeg], trigger := softEvent.trigger }

/-- A digit maker that has not decoded anything yet, with trigger digits asked
for. -/
def newMaker : AliMUONDigitMaker :=
  { fScalerEvent := false,
    fMakeTriggerDigits := true,
    fRawStreamTracker := { source := [], pending := [] },
    fRawStreamTrigger := { pending := [] },
    fCrateManager := some crates,
    fTrackerTimer := { running := false, fCounter := 1 },
    fTriggerTimer := { running := false, fCounter := 1 },
    fMappingTimer := { running := false, fCounter := 1 },
    run := { fDigitStore := none, fTriggerStore := none, calls := [], reports := [] } }

/-- A digit maker with the same settings that holds the stores and the trace of
an earlier call, streams left in the middle of another event and stopwatches
that have run. -/
def usedMaker : AliMUONDigitMaker :=
  { fScalerEvent := false,
    fMakeTriggerDigits := true,
    fRawStreamTracker := { source := [sample99, sampleNoSeg, sample40],
                           pending := [sampleNoSeg, sample40] },
    fRawStreamTrigger := { pending := missingCrateEvent.trigger },
    fCrateManager := some crates,
    fTrackerTimer := { running := true, fCounter := 5 },
    fTriggerTimer := { running := false, fCounter := 4 },
    fMappingTimer := { running := false, fCounter := 1 },
    run := { fDigitStore := some usedDigitStore, fTriggerStore := some usedTriggerStore,
             calls := [.trackerNext, .triggerNextDDL], reports := [.errNoStore] } }

end Example

/-! ## Tracker decoding: lemmas -/

theorem updateAt_append_length (f : AliMUONVDigit → AliMUONVDigit) (l : List AliMUONVDigit)
    (d : AliMUONVDigit) : updateAt f (l ++ [d]) l.length = l ++ [f d] := by
  induction l with
  | nil => rfl
  | cons a l ih => simp [updateAt, ih]

theorem hasKey_iff (d : AliMUONVDigit) (a b c e : Int) :
    d.hasKey a b c e = true ↔ d.key = (a, b, c, e) := by
  simp [AliMUONVDigit.hasKey, AliMUONVDigit.key, and_assoc]

theorem any_hasKey_false (l : List AliMUONVDigit) (a b c e : Int)
    (h : (a, b, c, e) ∉ l.map AliMUONVDigit.key) :
    l.any (fun d => d.hasKey a b c e) = false := by
  rw [Bool.eq_false_iff]
  intro hany
  rw [List.any_eq_true] at hany
  obtain ⟨d, hd, hk⟩ := hany
  exact h (List.mem_map.mpr ⟨d, hd, (hasKey_iff d a b c e).mp hk⟩)

theorem trackerSample_expected_some (m : Mapping) (s : Sample) (st : St)
    (ds0 : List AliMUONVDigit) (d : AliMUONVDigit)
    (hd : expectedDigit m s = some d) (hst : st.fDigitStore = some { digits := ds0 })
    (hk : d.key ∉ ds0.map AliMUONVDigit.key) :
    ∃ st1, trackerSample m s st = .ok st1 ∧
      st1.fDigitStore = some { digits := ds0 ++ [d] } := by
  unfold expectedDigit at hd
  cases hsegeq : m.GetMpSegmentationByElectronics (m.GetDEfromBus s.buspatchId) s.manuId with
  | none => simp [hsegeq] at hd
  | some seg =>
    simp only [hsegeq] at hd
    by_cases hv : (seg.PadByLocation s.manuId s.channelId false).IsValid = true
    · simp only [hv, if_true, Option.some.injEq] at hd
      subst hd
      have hany := any_hasKey_false ds0 _ _ _ _ hk
      simp [trackerSample, hsegeq, hv, St.call, hst, AliMUONVDigitStore.Add, hany,
        AliMUONVDigitStore.SetPadXY, AliMUONVDigitStore.SetADC, updateAt_append_length]
    · simp [hv] at hd

theorem trackerSample_expected_none (m : Mapping) (s : Sample) (st : St)
    (hs : hasSegmentation m s = true) (hd : expectedDigit m s = none) :
    ∃ st1, trackerSample m s st = .ok st1 ∧ st1.fDigitStore = st.fDigitStore := by
  unfold hasSegmentation at hs
  obtain ⟨seg, hsegeq⟩ := Option.isSome_iff_exists.mp hs
  unfold expectedDigit at hd
  simp only [hsegeq] at hd
  by_cases hv : (seg.PadByLocation s.manuId s.channelId false).IsValid = true
  · simp [hv] at hd
  · simp [trackerSample, hsegeq, hv, St.report]

theorem trackerLoop_distinct (m : Mapping) :
    ∀ (l : List Sample) (st : St) (ds0 : List AliMUONVDigit),
      st.fDigitStore = some { digits := ds0 } →
      (∀ s ∈ l, hasSegmentation m s = true) →
      ((ds0 ++ expectedDigits m l).map AliMUONVDigit.key).Nodup →
      ∃ st1, trackerLoop m l st = .ok st1 ∧
        st1.fDigitStore = some { digits := ds0 ++ expectedDigits m l } := by
  intro l
  induction l with
  | nil =>
    intro st ds0 hst _ _
    exact ⟨st.call .trackerNext, rfl, by simpa [St.call, expectedDigits] using hst⟩
  | cons s rest ih =>
    intro st ds0 hst hseg hnd
    have hs : hasSegmentation m s = true := hseg s (List.mem_cons_self _ _)
    have hrest : ∀ t ∈ rest, hasSegmentation m t = true :=
      fun t ht => hseg t (List.mem_cons_of_mem _ ht)
    have hst1 : (st.call .trackerNext).fDigitStore = some { digits := ds0 } := hst
    cases hd : expectedDigit m s with
    | none =>
      have hexp : expectedDigits m (s :: rest) = expectedDigits m rest := by
        simp [expectedDigits, List.filterMap_cons, hd]
      rw [hexp] at hnd ⊢
      obtain ⟨st1, hrun1, hs1⟩ := trackerSample_expected_none m s (st.call .trackerNext) hs hd
      obtain ⟨st2, hrun2, hs2⟩ := ih st1 ds0 (hs1.trans hst1) hrest hnd
      exact ⟨st2, by simp [trackerLoop, hrun1, hrun2], hs2⟩
    | some d =>
      have hexp : expectedDigits m (s :: rest) = d :: expectedDigits m rest := by
        simp [expectedDigits, List.filterMap_cons, hd]
      rw [hexp] at hnd ⊢
      have hk : d.key ∉ ds0.map AliMUONVDigit.key := by
        intro hin
        rw [List.map_append, List.map_cons] at hnd
        exact (List.nodup_append.mp hnd).2.2 hin (List.mem_cons_self _ _)
      obtain ⟨st1, hrun1, hs1⟩ :=
        trackerSample_expected_some m s (st.call .trackerNext) ds0 d hd hst1 hk
      have hnd2 : (((ds0 ++ [d]) ++ expectedDigits m rest).map AliMUONVDigit.key).Nodup := by
        simpa [List.append_assoc] using hnd
      obtain ⟨st2, hrun2, hs2⟩ := ih st1 (ds0 ++ [d]) hs1 hrest hnd2
      exact ⟨st2, by simp [trackerLoop, hrun1, hrun2], by simpa [List.append_assoc] using hs2⟩

theorem trackerSample_store_only (m : Mapping) (s : Sample) (st st' : St)
    (h : st.fDigitStore = st'.fDigitStore) :
    stateDigits (trackerSample m s st) = stateDigits (trackerSample m s st') := by
  cases hsegeq : m.GetMpSegmentationByElectronics (m.GetDEfromBus s.buspatchId) s.manuId with
  | none => simp [trackerSample, hsegeq]
  | some seg =>
    by_cases hv : (seg.PadByLocation s.manuId s.channelId false).IsValid = true
    · cases hst : st.fDigitStore with
      | none => simp [trackerSample, hsegeq, hv, ← h, hst]
      | some ds =>
        cases hadd : ds.Add (m.GetDEfromBus s.buspatchId) s.manuId s.channelId
            (m.GetCathod (m.GetDEfromBus s.buspatchId) seg.PlaneType).toInt with
        | none =>
          simp [trackerSample, hsegeq, hv, ← h, hst, hadd, stateDigits, St.call, St.report]
        | some p => simp [trackerSample, hsegeq, hv, ← h, hst, hadd, stateDigits]
    · simp [trackerSample, hsegeq, hv, stateDigits, St.report, h]

theorem trackerLoop_store_only (m : Mapping) :
    ∀ (l : List Sample) (st st' : St), st.fDigitStore = st'.fDigitStore →
      stateDigits (trackerLoop m l st) = stateDigits (trackerLoop m l st') := by
  intro l
  induction l with
  | nil => intro st st' h; simpa [trackerLoop, stateDigits, St.call] using h
  | cons s rest ih =>
    intro st st' h
    have h1 := trackerSample_store_only m s (st.call .trackerNext) (st'.call .trackerNext) h
    simp only [trackerLoop]
    cases hr : trackerSample m s (st.call .trackerNext) with
    | error e =>
      cases hr' : trackerSample m s (st'.call .trackerNext) with
      | error e' => rw [hr, hr'] at h1; simpa [stateDigits] using h1
      | ok st1' => rw [hr, hr'] at h1; simp [stateDigits] at h1
    | ok st1 =>
      cases hr' : trackerSample m s (st'.call .trackerNext) with
      | error e' => rw [hr, hr'] at h1; simp [stateDigits] at h1
      | ok st1' =>
        rw [hr, hr'] at h1
        exact ih st1 st1' (by simpa [stateDigits] using h1)

theorem trackerSample_invalidPad (m : Mapping) (s : Sample) (st : St)
    (h : invalidPad m s = true) :
    ∃ st1, trackerSample m s st = .ok st1 ∧ st1.fDigitStore = st.fDigitStore := by
  unfold invalidPad samplePad at h
  cases hsegeq : m.GetMpSegmentationByElectronics (m.GetDEfromBus s.buspatchId) s.manuId with
  | none => simp [hsegeq] at h
  | some seg =>
    simp [hsegeq] at h
    simp [trackerSample, hsegeq, h, St.report]

theorem trackerLoop_filter (m : Mapping) :
    ∀ (l : List Sample) (st : St),
      stateDigits (trackerLoop m (l.filter (fun s => !invalidPad m s)) st) =
        stateDigits (trackerLoop m l st) := by
  intro l
  induction l with
  | nil => intro st; rfl
  | cons s rest ih =>
    intro st
    by_cases hinv : invalidPad m s = true
    · obtain ⟨st1, hrun, hs1⟩ := trackerSample_invalidPad m s (st.call .trackerNext) hinv
      simp only [List.filter_cons, hinv, Bool.not_true, trackerLoop, hrun]
      simp only [Bool.false_eq_true, if_false]
      rw [ih st]
      exact trackerLoop_store_only m rest st st1 hs1.symm
    · simp only [List.filter_cons, hinv, Bool.not_false, if_true, trackerLoop]
      cases trackerSample m s (st.call .trackerNext) with
      | error e => rfl
      | ok st1 => exact ih st1

theorem expectedDigit_isSome (m : Mapping) (s : Sample) :
    (expectedDigit m s).isSome = validPad m s := by
  unfold expectedDigit validPad samplePad
  cases m.GetMpSegmentationByElectronics (m.GetDEfromBus s.buspatchId) s.manuId with
  | none => rfl
  | some seg =>
    by_cases hv : (seg.PadByLocation s.manuId s.channelId false).IsValid = true
    · simp [hv]
    · simp [hv]

theorem expectedDigits_length (m : Mapping) (l : List Sample) :
    (expectedDigits m l).length = l.countP (validPad m) := by
  induction l with
  | nil => rfl
  | cons s rest ih =>
    have hs := expectedDigit_isSome m s
    unfold expectedDigits at ih ⊢
    rw [List.filterMap_cons, List.countP_cons]
    cases hd : expectedDigit m s with
    | none =>
      rw [hd] at hs
      simp [← hs, ih]
    | some d =>
      rw [hd] at hs
      simp [← hs, ih]

theorem trackerLoop_total (m : Mapping) :
    ∀ (l : List Sample) (st : St), st.fDigitStore.isSome = true →
      (∀ s ∈ l, hasSegmentation m s = true) →
      ∃ st1, trackerLoop m l st = .ok st1 ∧ st1.fDigitStore.isSome = true ∧
        st1.fTriggerStore = st.fTriggerStore := by
  intro l
  induction l with
  | nil => intro st h _; exact ⟨st.call .trackerNext, rfl, h, rfl⟩
  | cons s rest ih =>
    intro st h hseg
    have hs : hasSegmentation m s = true := hseg s (List.mem_cons_self _ _)
    have hrest : ∀ t ∈ rest, hasSegmentation m t = true :=
      fun t ht => hseg t (List.mem_cons_of_mem _ ht)
    unfold hasSegmentation at hs
    obtain ⟨seg, hsegeq⟩ := Option.isSome_iff_exists.mp hs
    obtain ⟨ds, hds⟩ := Option.isSome_iff_exists.mp h
    have hstep : ∃ st1, trackerSample m s (st.call .trackerNext) = .ok st1 ∧
        st1.fDigitStore.isSome = true ∧ st1.fTriggerStore = st.fTriggerStore := by
      by_cases hv : (seg.PadByLocation s.manuId s.channelId false).IsValid = true
      · cases hadd : ds.Add (m.GetDEfromBus s.buspatchId) s.manuId s.channelId
            (m.GetCathod (m.GetDEfromBus s.buspatchId) seg.PlaneType).toInt with
        | none => simp [trackerSample, hsegeq, hv, St.call, St.report, hds, hadd]
        | some p => simp [trackerSample, hsegeq, hv, St.call, hds, hadd]
      · simp [trackerSample, hsegeq, hv, St.call, St.report, hds]
    obtain ⟨st1, hrun1, hs1, ht1⟩ := hstep
    obtain ⟨st2, hrun2, hs2, ht2⟩ := ih st1 hs1 hrest
    exact ⟨st2, by simp [trackerLoop, hrun1, hrun2], hs2, ht2.trans ht1⟩

theorem ReadTrackerDDL_ok_value (m : Mapping) (raw : RawEvent) (st : St) (r : Int) (st1 : St)
    (h : ReadTrackerDDL m raw st = .ok (r, st1)) : r = kTRUE := by
  unfold ReadTrackerDDL at h
  cases hl : trackerLoop m raw.tracker ((st.call .trackerSetReader).call .trackerFirst) with
  | error e => simp [hl] at h
  | ok st2 =>
    simp [hl] at h
    exact h.1.symm

/-! ## Trigger decoding: lemmas -/

theorem forEach_total {α σ : Type} (f : α → σ → Except Fault σ) (P : σ → Prop) :
    ∀ (l : List α) (s : σ), P s →
      (∀ a ∈ l, ∀ t, P t → ∃ t1, f a t = .ok t1 ∧ P t1) →
      ∃ s1, forEach f l s = .ok s1 ∧ P s1 := by
  intro l
  induction l with
  | nil => intro s hs _; exact ⟨s, rfl, hs⟩
  | cons a rest ih =>
    intro s hs hstep
    obtain ⟨t1, h1, hp1⟩ := hstep a (List.mem_cons_self _ _) s hs
    obtain ⟨s1, h2, hp2⟩ := ih t1 hp1 (fun b hb => hstep b (List.mem_cons_of_mem _ hb))
    exact ⟨s1, by simp [forEach, h1, h2], hp2⟩

theorem forEach_rel {α σ : Type} (f : α → σ → Except Fault σ) (R : σ → σ → Prop)
    (hrefl : ∀ s, R s s) (htrans : ∀ s t u, R s t → R t u → R s u)
    (hstep : ∀ a s t, f a s = .ok t → R s t) :
    ∀ (l : List α) (s s1 : σ), forEach f l s = .ok s1 → R s s1 := by
  intro l
  induction l with
  | nil =>
    intro s s1 h
    simp only [forEach, Except.ok.injEq] at h
    exact h ▸ hrefl s
  | cons a rest ih =>
    intro s s1 h
    simp only [forEach] at h
    cases h1 : f a s with
    | error e => simp [h1] at h
    | ok t =>
      simp only [h1] at h
      exact htrans s t s1 (hstep a s t h1) (ih t s1 h)

theorem forEach_congr {α σ : Type} (f g : α → σ → Except Fault σ) :
    ∀ (l : List α) (s : σ), (∀ a ∈ l, ∀ t, f a t = g a t) → forEach f l s = forEach g l s := by
  intro l
  induction l with
  | nil => intro s _; rfl
  | cons a rest ih =>
    intro s h
    simp only [forEach, h a (List.mem_cons_self _ _) s]
    cases g a s with
    | error e => rfl
    | ok t => exact ih t (fun b hb => h b (List.mem_cons_of_mem _ hb))

theorem forEach_map {α β σ : Type} (f : β → σ → Except Fault σ) (g : α → β) :
    ∀ (l : List α) (s : σ), forEach f (l.map g) s = forEach (fun a => f (g a)) l s := by
  intro l
  induction l with
  | nil => intro s; rfl
  | cons a rest ih =>
    intro s
    simp only [List.map_cons, forEach]
    cases f (g a) s with
    | error e => rfl
    | ok t => exact ih t

theorem bitStep_total (seg : AliMpVSegmentation) (localBoard : AliMUONLocalTriggerBoard)
    (detElemId nBoard : Int) (iCath : Nat) (pattern : Int) (ibitxy : Nat) (s : Sink) :
    ∃ s1, bitStep (some seg) localBoard detElemId nBoard iCath pattern ibitxy s = .ok s1 := by
  unfold bitStep
  by_cases hb : bitSet pattern ibitxy = true
  · by_cases hv : (seg.PadByLocation nBoard ((ibitxy : Int) + bitOffset localBoard iCath)
        true).IsValid = true
    · cases hadd : s.store.Add detElemId nBoard ibitxy iCath with
      | none => simp [hb, hv, hadd]
      | some p => simp [hb, hv, hadd]
    · simp [hb, hv]
  · simp [hb]

theorem slotStep_total (m : Mapping) (cm : AliMUONTriggerCrateStore) (nBoard : Int)
    (xyPattern : XYPattern) (iChamber iCath : Nat) (s : Sink)
    (h : slotResolves m cm nBoard xyPattern iChamber iCath = true) :
    ∃ s1, slotStep m (some cm) nBoard xyPattern iChamber iCath s = .ok s1 := by
  unfold slotStep
  by_cases hp : TArraySAt (xyPattern.at iCath) iChamber = 0
  · simp [hp]
  · unfold slotResolves at h
    cases hb : cm.LocalBoard nBoard with
    | none => simp [hp, hb] at h
    | some localBoard =>
      simp only [hb, Bool.or_eq_true, beq_iff_eq, hp, false_or] at h
      obtain ⟨seg, hseg⟩ := Option.isSome_iff_exists.mp h
      simp only [hp, if_false, hb]
      rw [hseg]
      obtain ⟨s1, h1, _⟩ := forEach_total
        (bitStep (some seg) localBoard (m.DetElemId ((iChamber : Int) + 10) localBoard.GetName)
          nBoard iCath (TArraySAt (xyPattern.at iCath) iChamber)) (fun _ => True)
        (List.range 16) s trivial
        (fun i _ t _ => by
          obtain ⟨t1, ht1⟩ := bitStep_total seg localBoard
            (m.DetElemId ((iChamber : Int) + 10) localBoard.GetName) nBoard iCath
            (TArraySAt (xyPattern.at iCath) iChamber) i t
          exact ⟨t1, ht1, trivial⟩)
      exact ⟨s1, h1⟩

theorem TriggerDigits_total (m : Mapping) (cm : AliMUONTriggerCrateStore) (nBoard : Int)
    (xyPattern : XYPattern) (s : Sink) (h : boardResolves m cm nBoard xyPattern = true) :
    ∃ s1, TriggerDigits m (some cm) nBoard xyPattern s = .ok (kTRUE, s1) := by
  unfold boardResolves at h
  rw [List.all_eq_true] at h
  obtain ⟨s1, h1, _⟩ := forEach_total
    (fun iChamber => forEach (slotStep m (some cm) nBoard xyPattern iChamber) (List.range 2))
    (fun _ => True) (List.range 4) s trivial
    (fun iChamber hc t _ => by
      have hch := h iChamber hc
      rw [List.all_eq_true] at hch
      obtain ⟨t1, ht1, _⟩ := forEach_total (slotStep m (some cm) nBoard xyPattern iChamber)
        (fun _ => True) (List.range 2) t trivial
        (fun iCath hi u _ => by
          obtain ⟨u1, hu1⟩ := slotStep_total m cm nBoard xyPattern iChamber iCath u (hch iCath hi)
          exact ⟨u1, hu1, trivial⟩)
      exact ⟨t1, ht1, trivial⟩)
  exact ⟨s1, by simp [TriggerDigits, h1]⟩

theorem fillLocal_digitStore (loCircuit : Int) (ls : AliMUONLocalStruct) (st : St) :
    (fillLocal loCircuit ls st).fDigitStore = st.fDigitStore := by
  unfold fillLocal
  cases st.fTriggerStore <;> rfl

theorem fillTriggerDigits_total (m : Mapping) (cm : AliMUONTriggerCrateStore) (loCircuit : Int)
    (ls : AliMUONLocalStruct) (st : St) (hst : st.fDigitStore.isSome = true)
    (hres : boardResolves m cm loCircuit (mkXYPattern ls) = true) :
    ∃ st1, fillTriggerDigits m cm loCircuit ls st = .ok st1 ∧
      st1.fDigitStore.isSome = true := by
  obtain ⟨ds, hds⟩ := Option.isSome_iff_exists.mp hst
  obtain ⟨s1, h1⟩ := TriggerDigits_total m cm loCircuit (mkXYPattern ls)
    { store := ds, calls := st.calls, reports := st.reports } hres
  exact ⟨{ st with fDigitStore := some s1.store, calls := s1.calls, reports := s1.reports },
    by simp only [fillTriggerDigits, hds, h1], rfl⟩

theorem localStep_total (m : Mapping) (cm : AliMUONTriggerCrateStore) (flag : Bool)
    (boards : List (Option AliMUONLocalTriggerBoard)) (l : Option AliMUONLocalStruct) (st : St)
    (hres : localResolves m cm flag boards l = true) (hst : digitsReady flag st) :
    ∃ st1, localStep m cm flag boards l st = .ok st1 ∧ digitsReady flag st1 := by
  cases l with
  | none => exact ⟨st, rfl, hst⟩
  | some ls =>
    unfold localResolves at hres
    cases hb : TObjArrayAt boards (ls.id + 1) with
    | none => simp [hb] at hres
    | some localBoard =>
      simp only [hb] at hres
      by_cases hz : localBoard.GetNumber = 0
      · exact ⟨st, by simp [localStep, hb, hz], hst⟩
      · cases flag with
        | false =>
          refine ⟨fillLocal localBoard.GetNumber ls st, by simp [localStep, hb, hz], ?_⟩
          intro h; cases h
        | true =>
          have hbr : boardResolves m cm localBoard.GetNumber (mkXYPattern ls) = true := by
            simpa [hz] using hres
          have hst1 : (fillLocal localBoard.GetNumber ls st).fDigitStore.isSome = true := by
            rw [fillLocal_digitStore]
            exact hst rfl
          obtain ⟨st1, h1, hd1⟩ := fillTriggerDigits_total m cm localBoard.GetNumber ls _ hst1 hbr
          exact ⟨st1, by simp [localStep, hb, hz, h1], fun _ => hd1⟩

theorem regLoop_total (m : Mapping) (cm : AliMUONTriggerCrateStore) (flag : Bool) (ddl : Int) :
    ∀ (regs : List AliMUONRegHeader) (iReg : Nat) (st : St),
      regsResolve m cm flag ddl iReg regs = true → digitsReady flag st →
      ∃ st1, regLoop m (some cm) flag ddl iReg regs st = .ok st1 ∧ digitsReady flag st1 := by
  intro regs
  induction regs with
  | nil => intro iReg st _ hst; exact ⟨st, rfl, hst⟩
  | cons reg rest ih =>
    intro iReg st hres hst
    simp only [regsResolve, Bool.and_eq_true] at hres
    obtain ⟨hreg, hrest⟩ := hres
    cases hc : cm.Crate ddl iReg with
    | none => simp [hc] at hreg
    | some crate =>
      simp only [hc] at hreg
      rw [List.all_eq_true] at hreg
      obtain ⟨st1, h1, hp1⟩ := forEach_total (localStep m cm flag crate.Boards)
        (digitsReady flag) reg.locals st hst
        (fun l hl t ht => localStep_total m cm flag crate.Boards l t (hreg l hl) ht)
      obtain ⟨st2, h2, hp2⟩ := ih (iReg + 1) st1 hrest hp1
      exact ⟨st2, by simp [regLoop, regStep, hc, h1, h2], hp2⟩

theorem fillGlobal_digitStore (darcHeader : AliMUONDarcHeader) (st : St) :
    (fillGlobal darcHeader st).fDigitStore = st.fDigitStore := by
  unfold fillGlobal
  cases st.fTriggerStore with
  | none => rfl
  | some ts => by_cases h : darcHeader.GetGlobalFlag = true <;> simp [h]

theorem ddlLoop_total (m : Mapping) (cm : AliMUONTriggerCrateStore) (flag : Bool) :
    ∀ (l : List AliMUONDDLTrigger) (st : St),
      (l.all fun d => regsResolve m cm flag d.GetDDL 0 d.darcHeader.regHeaders) = true →
      digitsReady flag st →
      ∃ st1, ddlLoop m (some cm) flag l st = .ok st1 := by
  intro l
  induction l with
  | nil => intro st _ _; exact ⟨_, rfl⟩
  | cons d rest ih =>
    intro st hres hst
    simp only [List.all_cons, Bool.and_eq_true] at hres
    have hst1 : digitsReady flag (fillGlobal d.darcHeader (st.call .triggerNextDDL)) := by
      intro hf
      rw [fillGlobal_digitStore]
      exact hst hf
    obtain ⟨st1, h1, hp1⟩ := regLoop_total m cm flag d.GetDDL d.darcHeader.regHeaders 0 _
      hres.1 hst1
    obtain ⟨st2, h2⟩ := ih st1 hres.2 hp1
    exact ⟨st2, by simp [ddlLoop, ddlStep, h1, h2]⟩

theorem ReadTriggerDDL_total (m : Mapping) (fCrateManager : Option AliMUONTriggerCrateStore)
    (flag : Bool) (raw : RawEvent) (st : St)
    (hres : triggerResolves m fCrateManager flag raw = true) (hst : digitsReady flag st) :
    ∃ st1, ReadTriggerDDL m fCrateManager flag raw st = .ok (kTRUE, st1) := by
  unfold triggerResolves at hres
  cases fCrateManager with
  | none => simp at hres
  | some cm =>
    obtain ⟨st1, h1⟩ := ddlLoop_total m cm flag raw.trigger (st.call .triggerSetReader) hres hst
    exact ⟨st1, by simp [ReadTriggerDDL, h1]⟩

theorem ReadTriggerDDL_ok_value (m : Mapping) (fCrateManager : Option AliMUONTriggerCrateStore)
    (flag : Bool) (raw : RawEvent) (st : St) (r : Int) (st1 : St)
    (h : ReadTriggerDDL m fCrateManager flag raw st = .ok (r, st1)) : r = kTRUE := by
  unfold ReadTriggerDDL at h
  cases hl : ddlLoop m fCrateManager flag raw.trigger (st.call .triggerSetReader) with
  | error e => simp [hl] at h
  | ok st2 =>
    simp [hl] at h
    exact h.1.symm

theorem Raw2Digits_ok_value (m : Mapping) (fCrateManager : Option AliMUONTriggerCrateStore)
    (flag : Bool) (raw : RawEvent) (ds : Option AliMUONVDigitStore)
    (ts : Option AliMUONVTriggerStore) (hstore : ds.isSome = true ∨ ts.isSome = true)
    (r : Int) (st1 : St) (h : Raw2Digits m fCrateManager flag raw ds ts = .ok (r, st1)) :
    r = kTRUE := by
  have hne : (ds.isNone && ts.isNone) = false := by
    cases ds <;> cases ts <;> simp at hstore ⊢
  unfold Raw2Digits at h
  simp only [hne, Bool.false_eq_true, if_false] at h
  split at h
  · cases h
  · split at h
    · split at h
      · simp only [Except.ok.injEq, Prod.mk.injEq] at h
        exact h.1.symm
      · split at h
        · cases h
        · simp only [Except.ok.injEq, Prod.mk.injEq] at h
          exact h.1.symm
    · simp only [Except.ok.injEq, Prod.mk.injEq] at h
      exact h.1.symm

theorem Raw2Digits_total (m : Mapping) (fCrateManager : Option AliMUONTriggerCrateStore)
    (flag : Bool) (raw : RawEvent) (ds : Option AliMUONVDigitStore)
    (ts : Option AliMUONVTriggerStore) (hstore : ds.isSome = true ∨ ts.isSome = true)
    (htracker : trackerResolves m raw = true)
    (htrigger : triggerResolves m fCrateManager flag raw = true) :
    ∃ st1, Raw2Digits m fCrateManager flag raw ds ts = .ok (kTRUE, st1) := by
  unfold trackerResolves at htracker
  rw [List.all_eq_true] at htracker
  cases ds with
  | none =>
    cases ts with
    | none => simp at hstore
    | some t =>
      cases flag with
      | true => exact ⟨_, rfl⟩
      | false =>
        obtain ⟨st1, h1⟩ := ReadTriggerDDL_total m fCrateManager false raw
          ((St.mk none (some t.Clear) [] []).call .triggerClear) htrigger (by intro h; cases h)
        exact ⟨st1, by simp [Raw2Digits, h1]⟩
  | some d =>
    obtain ⟨st1, h1, hd1, ht1⟩ := trackerLoop_total m raw.tracker
      ((((St.mk (some d.Clear) ts [] []).call .digitClear).call .trackerSetReader).call
        .trackerFirst)
      rfl htracker
    by_cases hrun : (st1.fTriggerStore.isSome || flag) = true
    · cases hts : st1.fTriggerStore with
      | none =>
        have hflag : flag = true := by simpa [hts] using hrun
        subst hflag
        obtain ⟨st2, h2⟩ := ReadTriggerDDL_total m fCrateManager true raw st1 htrigger
          (fun _ => hd1)
        refine ⟨st2, ?_⟩
        obtain ⟨d1, hd1'⟩ := Option.isSome_iff_exists.mp hd1
        simp [Raw2Digits, ReadTrackerDDL, h1, hts, hd1', h2]
      | some t =>
        obtain ⟨st2, h2⟩ := ReadTriggerDDL_total m fCrateManager flag raw
          ({ st1 with fTriggerStore := some t.Clear }.call .triggerClear) htrigger
          (fun _ => hd1)
        refine ⟨st2, ?_⟩
        obtain ⟨d1, hd1'⟩ := Option.isSome_iff_exists.mp hd1
        simp only [St.call, hd1', List.nil_append, List.cons_append] at h1 h2
        simp [Raw2Digits, ReadTrackerDDL, St.call, h1, hts, hd1', h2]
    · refine ⟨st1, ?_⟩
      simp [Raw2Digits, ReadTrackerDDL, h1, hrun]

theorem setGlobalCalls_append (a b : List Call) :
    setGlobalCalls (a ++ b) = setGlobalCalls a ++ setGlobalCalls b := by
  simp [setGlobalCalls]

theorem bitStep_setGlobalCalls (seg : Option AliMpVSegmentation)
    (localBoard : AliMUONLocalTriggerBoard) (detElemId nBoard : Int) (iCath : Nat)
    (pattern : Int) (ibitxy : Nat) (s s1 : Sink)
    (h : bitStep seg localBoard detElemId nBoard iCath pattern ibitxy s = .ok s1) :
    setGlobalCalls s1.calls = setGlobalCalls s.calls := by
  unfold bitStep at h
  by_cases hb : bitSet pattern ibitxy = true
  · simp only [hb, if_true] at h
    cases seg with
    | none => simp at h
    | some seg =>
      simp only at h
      by_cases hv : (seg.PadByLocation nBoard ((ibitxy : Int) + bitOffset localBoard iCath)
          true).IsValid = true
      · cases hadd : s.store.Add detElemId nBoard ibitxy iCath with
        | none =>
          simp only [hv, hadd, Bool.not_true, Bool.false_eq_true, if_false,
            Except.ok.injEq] at h
          subst h
          simp [setGlobalCalls_append, setGlobalCalls]
        | some p =>
          simp only [hv, hadd, Bool.not_true, Bool.false_eq_true, if_false,
            Except.ok.injEq] at h
          subst h
          simp [setGlobalCalls_append, setGlobalCalls]
      · simp only [hv, Bool.not_false, if_true, Except.ok.injEq] at h
        subst h
        rfl
  · simp only [hb, Bool.false_eq_true, if_false, Except.ok.injEq] at h
    subst h
    rfl

theorem slotStep_setGlobalCalls (m : Mapping) (fCrateManager : Option AliMUONTriggerCrateStore)
    (nBoard : Int) (xyPattern : XYPattern) (iChamber iCath : Nat) (s s1 : Sink)
    (h : slotStep m fCrateManager nBoard xyPattern iChamber iCath s = .ok s1) :
    setGlobalCalls s1.calls = setGlobalCalls s.calls := by
  unfold slotStep at h
  by_cases hp : TArraySAt (xyPattern.at iCath) iChamber = 0
  · simp only [hp, if_true, Except.ok.injEq] at h
    subst h
    rfl
  · simp only [hp, if_false] at h
    cases fCrateManager with
    | none => simp at h
    | some cm =>
      simp only at h
      cases hb : cm.LocalBoard nBoard with
      | none => simp [hb] at h
      | some localBoard =>
        simp only [hb] at h
        refine forEach_rel _ (fun a b => setGlobalCalls b.calls = setGlobalCalls a.calls)
          (fun _ => rfl) ?_ ?_ _ _ _ h
        · intro a b c h1 h2
          exact h2.trans h1
        · intro i v v1 hv
          exact bitStep_setGlobalCalls _ _ _ _ _ _ _ _ _ hv

theorem TriggerDigits_setGlobalCalls (m : Mapping)
    (fCrateManager : Option AliMUONTriggerCrateStore) (nBoard : Int) (xyPattern : XYPattern)
    (s s1 : Sink) (r : Int)
    (h : TriggerDigits m fCrateManager nBoard xyPattern s = .ok (r, s1)) :
    setGlobalCalls s1.calls = setGlobalCalls s.calls := by
  unfold TriggerDigits at h
  cases hl : forEach (fun iChamber => forEach (slotStep m fCrateManager nBoard xyPattern iChamber)
      (List.range 2)) (List.range 4) s with
  | error e => simp [hl] at h
  | ok s2 =>
    simp only [hl, Except.ok.injEq, Prod.mk.injEq] at h
    rw [← h.2]
    refine forEach_rel _ (fun a b => setGlobalCalls b.calls = setGlobalCalls a.calls)
      (fun _ => rfl) ?_ ?_ _ _ _ hl
    · intro a b c h1 h2
      exact h2.trans h1
    · intro iChamber t t1 ht
      refine forEach_rel _ (fun a b => setGlobalCalls b.calls = setGlobalCalls a.calls)
        (fun _ => rfl) ?_ ?_ _ _ _ ht
      · intro a b c h1 h2
        exact h2.trans h1
      · intro iCath u u1 hu
        exact slotStep_setGlobalCalls _ _ _ _ _ _ _ _ hu

theorem sameGlobal_refl (st : St) : sameGlobal st st := ⟨rfl, rfl, rfl⟩

theorem sameGlobal_trans (s t u : St) (h1 : sameGlobal s t) (h2 : sameGlobal t u) :
    sameGlobal s u :=
  ⟨h2.1.trans h1.1, h2.2.1.trans h1.2.1, h2.2.2.trans h1.2.2⟩

theorem fillLocal_sameGlobal (loCircuit : Int) (ls : AliMUONLocalStruct) (st : St) :
    sameGlobal st (fillLocal loCircuit ls st) := by
  unfold fillLocal
  cases hts : st.fTriggerStore with
  | none => exact sameGlobal_refl st
  | some ts =>
    refine ⟨by simp [hts], by simp [St.global, hts, AliMUONVTriggerStore.Add], ?_⟩
    simp [setGlobalCalls_append, setGlobalCalls]

theorem fillTriggerDigits_sameGlobal (m : Mapping) (cm : AliMUONTriggerCrateStore)
    (loCircuit : Int) (ls : AliMUONLocalStruct) (st st1 : St)
    (h : fillTriggerDigits m cm loCircuit ls st = .ok st1) : sameGlobal st st1 := by
  unfold fillTriggerDigits at h
  cases hds : st.fDigitStore with
  | none =>
    simp only [hds] at h
    cases htd : TriggerDigitsNull m (some cm) loCircuit (mkXYPattern ls) st.reports with
    | error e => simp [htd] at h
    | ok p =>
      simp only [htd, Except.ok.injEq] at h
      subst h
      exact ⟨rfl, rfl, rfl⟩
  | some ds =>
    simp only [hds] at h
    cases htd : TriggerDigits m (some cm) loCircuit (mkXYPattern ls)
        { store := ds, calls := st.calls, reports := st.reports } with
    | error e => simp [htd] at h
    | ok p =>
      obtain ⟨r, s1⟩ := p
      simp only [htd, Except.ok.injEq] at h
      subst h
      exact ⟨rfl, rfl, TriggerDigits_setGlobalCalls _ _ _ _ _ _ _ htd⟩

theorem localStep_sameGlobal (m : Mapping) (cm : AliMUONTriggerCrateStore) (flag : Bool)
    (boards : List (Option AliMUONLocalTriggerBoard)) (l : Option AliMUONLocalStruct)
    (st st1 : St) (h : localStep m cm flag boards l st = .ok st1) : sameGlobal st st1 := by
  cases l with
  | none =>
    simp only [localStep, Except.ok.injEq] at h
    subst h
    exact sameGlobal_refl st
  | some ls =>
    unfold localStep at h
    cases hb : TObjArrayAt boards (ls.id + 1) with
    | none => simp [hb] at h
    | some localBoard =>
      simp only [hb] at h
      by_cases hz : localBoard.GetNumber = 0
      · simp only [hz, if_true, Except.ok.injEq] at h
        subst h
        exact sameGlobal_refl st
      · simp only [hz, if_false] at h
        cases flag with
        | false =>
          simp only [Bool.false_eq_true, if_false, Except.ok.injEq] at h
          subst h
          exact fillLocal_sameGlobal _ _ _
        | true =>
          simp only [if_true] at h
          exact sameGlobal_trans _ _ _ (fillLocal_sameGlobal _ _ _)
            (fillTriggerDigits_sameGlobal _ _ _ _ _ _ h)

theorem regLoop_sameGlobal (m : Mapping) (fCrateManager : Option AliMUONTriggerCrateStore)
    (flag : Bool) (ddl : Int) :
    ∀ (regs : List AliMUONRegHeader) (iReg : Nat) (st st1 : St),
      regLoop m fCrateManager flag ddl iReg regs st = .ok st1 → sameGlobal st st1 := by
  intro regs
  induction regs with
  | nil =>
    intro iReg st st1 h
    simp only [regLoop, Except.ok.injEq] at h
    subst h
    exact sameGlobal_refl st
  | cons reg rest ih =>
    intro iReg st st1 h
    simp only [regLoop] at h
    cases hr : regStep m fCrateManager flag ddl iReg reg st with
    | error e => simp [hr] at h
    | ok st2 =>
      simp only [hr] at h
      refine sameGlobal_trans _ _ _ ?_ (ih _ _ _ h)
      unfold regStep at hr
      cases fCrateManager with
      | none => simp at hr
      | some cm =>
        simp only at hr
        cases hc : cm.Crate ddl iReg with
        | none => simp [hc] at hr
        | some crate =>
          simp only [hc] at hr
          exact forEach_rel _ sameGlobal sameGlobal_refl sameGlobal_trans
            (fun l s t hs => localStep_sameGlobal m cm flag crate.Boards l s t hs) _ _ _ hr

theorem ddlLoop_global (m : Mapping) (fCrateManager : Option AliMUONTriggerCrateStore)
    (flag : Bool) :
    ∀ (l : List AliMUONDDLTrigger) (st st1 : St) (ts : AliMUONVTriggerStore),
      ddlLoop m fCrateManager flag l st = .ok st1 → st.fTriggerStore = some ts →
      ∃ ts1, st1.fTriggerStore = some ts1 ∧
        ts1.global = (flaggedGlobals l).getLast?.or ts.global ∧
        setGlobalCalls st1.calls = setGlobalCalls st.calls ++ flaggedGlobals l := by
  intro l
  induction l with
  | nil =>
    intro st st1 ts h hts
    simp only [ddlLoop, Except.ok.injEq] at h
    subst h
    exact ⟨ts, hts, by simp [flaggedGlobals], by
      simp [St.call, setGlobalCalls_append, setGlobalCalls, flaggedGlobals]⟩
  | cons d rest ih =>
    intro st st1 ts h hts
    simp only [ddlLoop] at h
    cases hd : ddlStep m fCrateManager flag d (st.call .triggerNextDDL) with
    | error e => simp [hd] at h
    | ok st2 =>
      simp only [hd] at h
      unfold ddlStep at hd
      have hsg := regLoop_sameGlobal _ _ _ _ _ _ _ _ hd
      have hcalls : setGlobalCalls (st.call .triggerNextDDL).calls = setGlobalCalls st.calls := by
        simp [St.call, setGlobalCalls_append, setGlobalCalls]
      by_cases hf : d.darcHeader.GetGlobalFlag = true
      · have hfill : fillGlobal d.darcHeader (st.call .triggerNextDDL) =
            { st.call .triggerNextDDL with
              fTriggerStore := some (ts.SetGlobal { response := d.darcHeader.GetGlobalOutput }),
              calls := (st.call .triggerNextDDL).calls ++
                [.triggerSetGlobal { response := d.darcHeader.GetGlobalOutput }] } := by
          simp [fillGlobal, St.call, hts, hf]
        rw [hfill] at hsg
        obtain ⟨hsome, hglob, hcall⟩ := hsg
        obtain ⟨ts2, hts2⟩ := Option.isSome_iff_exists.mp (hsome.trans rfl)
        obtain ⟨ts1, h1, h2, h3⟩ := ih st2 st1 ts2 h hts2
        have hg2 : ts2.global = some { response := d.darcHeader.GetGlobalOutput } := by
          simpa [St.global, hts2, AliMUONVTriggerStore.SetGlobal] using hglob
        have hfl : flaggedGlobals (d :: rest) =
            { response := d.darcHeader.GetGlobalOutput } :: flaggedGlobals rest := by
          simp [flaggedGlobals, hf]
        refine ⟨ts1, h1, ?_, ?_⟩
        · rw [h2, hg2, hfl, List.getLast?_cons]
          cases (flaggedGlobals rest).getLast? <;> rfl
        · rw [h3, hcall, hfl]
          simp [setGlobalCalls_append, setGlobalCalls, St.call]
      · have hfill : fillGlobal d.darcHeader (st.call .triggerNextDDL) =
            st.call .triggerNextDDL := by
          simp [fillGlobal, St.call, hts, hf]
        rw [hfill] at hsg
        obtain ⟨hsome, hglob, hcall⟩ := hsg
        have hsome1 : st2.fTriggerStore.isSome = true := by
          rw [hsome]
          simp [St.call, hts]
        obtain ⟨ts2, hts2⟩ := Option.isSome_iff_exists.mp hsome1
        obtain ⟨ts1, h1, h2, h3⟩ := ih st2 st1 ts2 h hts2
        have hg2 : ts2.global = ts.global := by
          simpa [St.global, hts2, St.call, hts] using hglob
        have hfl : flaggedGlobals (d :: rest) = flaggedGlobals rest := by
          simp [flaggedGlobals, hf]
        refine ⟨ts1, h1, ?_, ?_⟩
        · rw [h2, hg2, hfl]
        · rw [h3, hcall, hfl, hcalls]

theorem localStep_copyCard (m : Mapping) (cm : AliMUONTriggerCrateStore) (flag : Bool)
    (boards : List (Option AliMUONLocalTriggerBoard)) (ls : AliMUONLocalStruct) (st : St)
    (h : isCopyCard boards ls = true) : localStep m cm flag boards (some ls) st = .ok st := by
  unfold isCopyCard at h
  cases hb : TObjArrayAt boards (ls.id + 1) with
  | none => simp [hb] at h
  | some localBoard =>
    simp only [hb, beq_iff_eq] at h
    simp [localStep, hb, h]

theorem localStep_dropCopy (m : Mapping) (cm : AliMUONTriggerCrateStore) (flag : Bool)
    (boards : List (Option AliMUONLocalTriggerBoard)) (l : Option AliMUONLocalStruct) (st : St) :
    localStep m cm flag boards (dropCopyLocal boards l) st = localStep m cm flag boards l st := by
  cases l with
  | none => rfl
  | some ls =>
    by_cases h : isCopyCard boards ls = true
    · rw [localStep_copyCard m cm flag boards ls st h]
      simp [dropCopyLocal, h, localStep]
    · simp [dropCopyLocal, h]

theorem regLoop_dropCopy (m : Mapping) (cm : AliMUONTriggerCrateStore) (flag : Bool)
    (ddl : Int) :
    ∀ (regs : List AliMUONRegHeader) (iReg : Nat) (st : St),
      regLoop m (some cm) flag ddl iReg (dropCopyRegs cm ddl iReg regs) st =
        regLoop m (some cm) flag ddl iReg regs st := by
  intro regs
  induction regs with
  | nil => intro iReg st; rfl
  | cons reg rest ih =>
    intro iReg st
    have hstep : regStep m (some cm) flag ddl iReg
        (match cm.Crate ddl iReg with
          | none => reg
          | some crate => { locals := reg.locals.map (dropCopyLocal crate.Boards) }) st =
        regStep m (some cm) flag ddl iReg reg st := by
      unfold regStep
      cases hc : cm.Crate ddl iReg with
      | none => rfl
      | some crate =>
        simp only [hc]
        rw [forEach_map]
        exact forEach_congr _ _ _ _ (fun l _ t => localStep_dropCopy m cm flag crate.Boards l t)
    simp only [dropCopyRegs, regLoop, hstep]
    cases regStep m (some cm) flag ddl iReg reg st with
    | error e => rfl
    | ok st1 => exact ih (iReg + 1) st1

theorem ddlLoop_dropCopy (m : Mapping) (cm : AliMUONTriggerCrateStore) (flag : Bool) :
    ∀ (l : List AliMUONDDLTrigger) (st : St),
      ddlLoop m (some cm) flag (l.map (dropCopyDDL cm)) st = ddlLoop m (some cm) flag l st := by
  intro l
  induction l with
  | nil => intro st; rfl
  | cons d rest ih =>
    intro st
    have hstep : ddlStep m (some cm) flag (dropCopyDDL cm d) (st.call .triggerNextDDL) =
        ddlStep m (some cm) flag d (st.call .triggerNextDDL) := by
      unfold ddlStep
      have hg : fillGlobal (dropCopyDDL cm d).darcHeader (st.call .triggerNextDDL) =
          fillGlobal d.darcHeader (st.call .triggerNextDDL) := rfl
      rw [hg]
      exact regLoop_dropCopy m cm flag d.GetDDL d.darcHeader.regHeaders 0 _
    simp only [List.map_cons, ddlLoop, hstep]
    cases ddlStep m (some cm) flag d (st.call .triggerNextDDL) with
    | error e => rfl
    | ok st1 => exact ih st1

theorem bitSet_toShort (p i : Nat) (hi : i < 16) :
    bitSet (toShort p) i = (p % 65536).testBit i := by
  rw [Nat.testBit_to_div_mod]
  unfold bitSet toShort
  rw [Int.shiftRight_eq_div_pow]
  have h2 : (0 : Int) < 2 ^ i := by positivity
  interval_cases i <;> simp only [Nat.reducePow, Nat.cast_ofNat, pow_zero, pow_one] <;>
    (split <;> simp only [bne_iff_ne, ne_eq, decide_eq_true_eq, Bool.decide_eq_true,
      bne, Bool.not_eq_eq_eq_not] <;> (rw [Bool.eq_iff_iff]; simp; omega))

theorem forEach_filter_of_skip {α σ : Type} (f : α → σ → Except Fault σ) (q : α → Bool)
    (hskip : ∀ a s, q a = false → f a s = .ok s) :
    ∀ (l : List α) (s : σ), forEach f (l.filter q) s = forEach f l s := by
  intro l
  induction l with
  | nil => intro s; rfl
  | cons a rest ih =>
    intro s
    cases hq : q a with
    | false =>
      simp only [List.filter_cons, hq, Bool.false_eq_true, if_false, forEach, hskip a s hq]
      exact ih s
    | true =>
      simp only [List.filter_cons, hq, if_true, forEach]
      cases f a s with
      | error e => rfl
      | ok s1 => exact ih s1

theorem filter_testBit_length (k : Nat) :
    ∀ p : Nat, p < 2 ^ k →
      ((List.range k).filter (fun i => p.testBit i)).length = (Nat.digits 2 p).sum := by
  induction k with
  | zero =>
    intro p hp
    have : p = 0 := by simpa using hp
    subst this
    simp
  | succ k ih =>
    intro p hp
    have hhalf : p / 2 < 2 ^ k := by
      rw [pow_succ] at hp
      omega
    have hfun : ((fun i => p.testBit i) ∘ Nat.succ) = fun i => (p / 2).testBit i := by
      funext i
      simp [Nat.testBit_succ]
    have hlen : ((List.range (k + 1)).filter (fun i => p.testBit i)).length =
        (if p % 2 = 1 then 1 else 0) + (Nat.digits 2 (p / 2)).sum := by
      rw [List.range_succ_eq_map, List.filter_cons, List.filter_map, hfun]
      by_cases h : p % 2 = 1
      · simp [h, ih (p / 2) hhalf]
        omega
      · simp [h, ih (p / 2) hhalf]
    rw [hlen]
    rcases Nat.eq_zero_or_pos p with h0 | hpos
    · subst h0
      simp
    · rw [Nat.digits_def' (by norm_num) hpos]
      rcases Nat.mod_two_eq_zero_or_one p with h | h
      · simp [h]
      · simp [h]

theorem bitOffset_eq (localBoard : AliMUONLocalTriggerBoard) (iCath ibitxy : Nat)
    (hc : iCath < 2) :
    (ibitxy : Int) + bitOffset localBoard iCath = lookupChannel localBoard iCath ibitxy := by
  unfold bitOffset lookupChannel
  interval_cases iCath
  · simp
  · cases localBoard.GetSwitch 6 <;> simp
    omega

theorem bitStep_insert (seg : AliMpVSegmentation) (localBoard : AliMUONLocalTriggerBoard)
    (detElemId nBoard : Int) (iCath : Nat) (pattern : Int) (ibitxy : Nat) (s : Sink)
    (hc : iCath < 2) (hbit : bitSet pattern ibitxy = true)
    (hvalid : (seg.PadByLocation nBoard (lookupChannel localBoard iCath ibitxy) true).IsValid
      = true)
    (hfresh : (detElemId, nBoard, (ibitxy : Int), (iCath : Int)) ∉
      s.store.digits.map AliMUONVDigit.key) :
    bitStep (some seg) localBoard detElemId nBoard iCath pattern ibitxy s =
      .ok { s with
        store := { digits := s.store.digits ++
          [triggerDigit seg localBoard detElemId nBoard iCath ibitxy] },
        calls := s.calls ++ [.digitAdd detElemId nBoard ibitxy iCath] } := by
  have hany := any_hasKey_false s.store.digits _ _ _ _ hfresh
  have hoff := bitOffset_eq localBoard iCath ibitxy hc
  unfold bitStep
  simp only [hbit, if_true, hoff, hvalid, Bool.not_true, Bool.false_eq_true, if_false,
    AliMUONVDigitStore.Add, hany]
  simp [AliMUONVDigitStore.SetPadXY, AliMUONVDigitStore.SetCharge, updateAt_append_length,
    triggerDigit]

theorem forEach_accumulate {α : Type} (f : α → Sink → Except Fault Sink)
    (g : α → List AliMUONVDigit) (C : α → Prop)
    (hstep : ∀ a s, C a → ((s.store.digits ++ g a).map AliMUONVDigit.key).Nodup →
      ∃ s1, f a s = .ok s1 ∧ s1.store.digits = s.store.digits ++ g a) :
    ∀ (l : List α) (s : Sink), (∀ a ∈ l, C a) →
      ((s.store.digits ++ l.flatMap g).map AliMUONVDigit.key).Nodup →
      ∃ s1, forEach f l s = .ok s1 ∧ s1.store.digits = s.store.digits ++ l.flatMap g := by
  intro l
  induction l with
  | nil =>
    intro s _ _
    exact ⟨s, rfl, by simp⟩
  | cons a rest ih =>
    intro s hC hnd
    rw [List.flatMap_cons, ← List.append_assoc, List.map_append] at hnd
    obtain ⟨s1, h1, hs1⟩ := hstep a s (hC a (List.mem_cons_self _ _))
      (List.Nodup.of_append_left hnd)
    have hnd2 : ((s1.store.digits ++ rest.flatMap g).map AliMUONVDigit.key).Nodup := by
      rw [hs1, List.map_append]
      exact hnd
    obtain ⟨s2, h2, hs2⟩ := ih s1 (fun b hb => hC b (List.mem_cons_of_mem _ hb)) hnd2
    refine ⟨s2, by simp [forEach, h1, h2], ?_⟩
    rw [hs2, hs1, List.flatMap_cons, List.append_assoc]

theorem flatMap_singleton_eq_map {α β : Type} (f : α → β) (l : List α) :
    l.flatMap (fun a => [f a]) = l.map f := by
  induction l with
  | nil => rfl
  | cons a rest ih => simp [List.flatMap_cons, ih]

theorem setPositions_zero : setPositions 0 = [] := by decide

theorem mem_setPositions (pattern : Int) (i : Nat) (h : i ∈ setPositions pattern) :
    bitSet pattern i = true := by
  unfold setPositions at h
  exact (List.mem_filter.mp h).2

theorem slotStep_insert (m : Mapping) (cm : AliMUONTriggerCrateStore) (nBoard : Int)
    (localBoard : AliMUONLocalTriggerBoard) (xyPattern : XYPattern) (iChamber iCath : Nat)
    (s : Sink) (hb : cm.LocalBoard nBoard = some localBoard) (hc : iCath < 2)
    (hvalid : slotPadsValid m localBoard nBoard xyPattern iChamber iCath = true)
    (hfresh : ((s.store.digits ++
      expectedSlotDigits m localBoard nBoard xyPattern iChamber iCath).map
        AliMUONVDigit.key).Nodup) :
    ∃ s1, slotStep m (some cm) nBoard xyPattern iChamber iCath s = .ok s1 ∧
      s1.store.digits = s.store.digits ++
        expectedSlotDigits m localBoard nBoard xyPattern iChamber iCath := by
  by_cases hp : TArraySAt (xyPattern.at iCath) iChamber = 0
  · refine ⟨s, by simp [slotStep, hp], ?_⟩
    unfold expectedSlotDigits
    rw [hp, setPositions_zero]
    cases m.GetMpSegmentation (m.DetElemId ((iChamber : Int) + 10) localBoard.GetName)
      (GetCathodType iCath) <;> simp
  · unfold slotPadsValid at hvalid
    unfold expectedSlotDigits at hfresh ⊢
    cases hseg : m.GetMpSegmentation (m.DetElemId ((iChamber : Int) + 10) localBoard.GetName)
        (GetCathodType iCath) with
    | none => simp [hp, hseg] at hvalid
    | some seg =>
      simp only [hseg, Bool.or_eq_true, beq_iff_eq, hp, false_or, List.all_eq_true] at hvalid
      simp only [hseg] at hfresh ⊢
      rw [← flatMap_singleton_eq_map (triggerDigit seg localBoard
        (m.DetElemId ((iChamber : Int) + 10) localBoard.GetName) nBoard iCath)
        (setPositions (TArraySAt (xyPattern.at iCath) iChamber))] at hfresh ⊢
      obtain ⟨s1, h1, hs1⟩ := forEach_accumulate
        (bitStep (some seg) localBoard (m.DetElemId ((iChamber : Int) + 10) localBoard.GetName)
          nBoard iCath (TArraySAt (xyPattern.at iCath) iChamber))
        (fun i => [triggerDigit seg localBoard
          (m.DetElemId ((iChamber : Int) + 10) localBoard.GetName) nBoard iCath i])
        (fun i => i ∈ setPositions (TArraySAt (xyPattern.at iCath) iChamber))
        (fun i t hi hnd => by
          refine ⟨_, bitStep_insert seg localBoard _ nBoard iCath _ i t hc
            (mem_setPositions _ i hi) (hvalid i hi) ?_, rfl⟩
          intro hin
          rw [List.map_append] at hnd
          exact (List.nodup_append.mp hnd).2.2 hin (by simp [triggerDigit, AliMUONVDigit.key]))
        (setPositions (TArraySAt (xyPattern.at iCath) iChamber)) s (fun i hi => hi) hfresh
      refine ⟨s1, ?_, hs1⟩
      unfold slotStep
      simp only [hp, if_false, hb]
      rw [hseg]
      have hfilter := forEach_filter_of_skip
        (bitStep (some seg) localBoard (m.DetElemId ((iChamber : Int) + 10) localBoard.GetName)
          nBoard iCath (TArraySAt (xyPattern.at iCath) iChamber))
        (bitSet (TArraySAt (xyPattern.at iCath) iChamber))
        (fun i t hi => by simp [bitStep, hi]) (List.range 16) s
      rw [← hfilter]
      exact h1

theorem TriggerDigits_insert (m : Mapping) (cm : AliMUONTriggerCrateStore) (nBoard : Int)
    (localBoard : AliMUONLocalTriggerBoard) (xyPattern : XYPattern) (s : Sink)
    (hb : cm.LocalBoard nBoard = some localBoard)
    (hvalid : padsValid m localBoard nBoard xyPattern = true)
    (hfresh : ((s.store.digits ++ expectedTriggerDigits m localBoard nBoard xyPattern).map
      AliMUONVDigit.key).Nodup) :
    ∃ s1, TriggerDigits m (some cm) nBoard xyPattern s = .ok (kTRUE, s1) ∧
      s1.store.digits = s.store.digits ++ expectedTriggerDigits m localBoard nBoard xyPattern := by
  unfold padsValid at hvalid
  rw [List.all_eq_true] at hvalid
  obtain ⟨s1, h1, hs1⟩ := forEach_accumulate
    (fun iChamber => forEach (slotStep m (some cm) nBoard xyPattern iChamber) (List.range 2))
    (fun iChamber => (List.range 2).flatMap fun iCath =>
      expectedSlotDigits m localBoard nBoard xyPattern iChamber iCath)
    (fun iChamber => iChamber ∈ List.range 4)
    (fun iChamber t hch hnd => by
      have hv := hvalid iChamber hch
      rw [List.all_eq_true] at hv
      exact forEach_accumulate (slotStep m (some cm) nBoard xyPattern iChamber)
        (fun iCath => expectedSlotDigits m localBoard nBoard xyPattern iChamber iCath)
        (fun iCath => iCath ∈ List.range 2)
        (fun iCath u hi hnd2 => slotStep_insert m cm nBoard localBoard xyPattern iChamber iCath u
          hb (List.mem_range.mp hi) (hv iCath hi) hnd2)
        (List.range 2) t (fun i hi => hi) hnd)
    (List.range 4) s (fun i hi => hi) hfresh
  exact ⟨s1, by simp [TriggerDigits, h1], hs1⟩

theorem expectedSlotDigits_length (m : Mapping) (localBoard : AliMUONLocalTriggerBoard)
    (nBoard : Int) (xyPattern : XYPattern) (iChamber iCath : Nat)
    (hvalid : slotPadsValid m localBoard nBoard xyPattern iChamber iCath = true) :
    (expectedSlotDigits m localBoard nBoard xyPattern iChamber iCath).length =
      (setPositions (TArraySAt (xyPattern.at iCath) iChamber)).length := by
  unfold expectedSlotDigits
  by_cases hp : TArraySAt (xyPattern.at iCath) iChamber = 0
  · rw [hp, setPositions_zero]
    cases m.GetMpSegmentation (m.DetElemId ((iChamber : Int) + 10) localBoard.GetName)
      (GetCathodType iCath) <;> simp
  · unfold slotPadsValid at hvalid
    cases hseg : m.GetMpSegmentation (m.DetElemId ((iChamber : Int) + 10) localBoard.GetName)
        (GetCathodType iCath) with
    | none => simp [hp, hseg] at hvalid
    | some seg => simp
theorem flatMap_length_congr {α β γ : Type} (f : α → List β) (g : α → List γ) :
    ∀ l : List α, (∀ a ∈ l, (f a).length = (g a).length) →
      (l.flatMap f).length = (l.flatMap g).length := by
  intro l
  induction l with
  | nil => intro _; rfl
  | cons a rest ih =>
    intro h
    rw [List.flatMap_cons, List.flatMap_cons, List.length_append, List.length_append,
      h a (List.mem_cons_self _ _), ih (fun b hb => h b (List.mem_cons_of_mem _ hb))]

theorem expectedTriggerDigits_length (m : Mapping) (localBoard : AliMUONLocalTriggerBoard)
    (nBoard : Int) (xyPattern : XYPattern)
    (hvalid : padsValid m localBoard nBoard xyPattern = true) :
    (expectedTriggerDigits m localBoard nBoard xyPattern).length =
      (allSetPositions xyPattern).length := by
  unfold padsValid at hvalid
  rw [List.all_eq_true] at hvalid
  unfold expectedTriggerDigits allSetPositions
  apply flatMap_length_congr
  intro iChamber hch
  have hv := hvalid iChamber hch
  rw [List.all_eq_true] at hv
  apply flatMap_length_congr
  intro iCath hi
  exact expectedSlotDigits_length m localBoard nBoard xyPattern iChamber iCath (hv iCath hi)

theorem bitStep_seg_congr (seg seg' : AliMpVSegmentation) (localBoard : AliMUONLocalTriggerBoard)
    (detElemId nBoard : Int) (iCath : Nat) (pattern : Int) (ibitxy : Nat) (s : Sink)
    (hc : iCath < 2)
    (h : seg'.PadByLocation nBoard (lookupChannel localBoard iCath ibitxy) true =
      seg.PadByLocation nBoard (lookupChannel localBoard iCath ibitxy) true) :
    bitStep (some seg') localBoard detElemId nBoard iCath pattern ibitxy s =
      bitStep (some seg) localBoard detElemId nBoard iCath pattern ibitxy s := by
  unfold bitStep
  simp only [bitOffset_eq localBoard iCath ibitxy hc, h]

theorem bitStep_key_cases (seg : Option AliMpVSegmentation)
    (localBoard : AliMUONLocalTriggerBoard) (detElemId nBoard : Int) (iCath : Nat)
    (pattern : Int) (ibitxy : Nat) (s s1 : Sink)
    (h : bitStep seg localBoard detElemId nBoard iCath pattern ibitxy s = .ok s1) :
    (s1.calls = s.calls ∨ s1.calls = s.calls ++ [.digitAdd detElemId nBoard ibitxy iCath]) ∧
    (s1.store.digits = s.store.digits ∨
      ∃ d, s1.store.digits = s.store.digits ++ [d] ∧
        d.key = (detElemId, nBoard, (ibitxy : Int), (iCath : Int))) := by
  unfold bitStep at h
  by_cases hb : bitSet pattern ibitxy = true
  · simp only [hb, if_true] at h
    cases seg with
    | none => simp at h
    | some seg =>
      simp only at h
      by_cases hv : (seg.PadByLocation nBoard ((ibitxy : Int) + bitOffset localBoard iCath)
          true).IsValid = true
      · by_cases hany : s.store.digits.any
            (fun d => d.hasKey detElemId nBoard ibitxy iCath) = true
        · simp only [hv, AliMUONVDigitStore.Add, hany, if_true, Bool.not_true,
            Bool.false_eq_true, if_false, Except.ok.injEq] at h
          subst h
          exact ⟨Or.inr rfl, Or.inl rfl⟩
        · simp only [hv, AliMUONVDigitStore.Add, hany, Bool.not_true,
            Bool.false_eq_true, if_false, Except.ok.injEq] at h
          subst h
          refine ⟨Or.inr rfl, Or.inr
            ⟨{ detElemId := detElemId, manuId := nBoard, manuChannel := ibitxy,
               cathode := iCath,
               padXY := some
                 ((seg.PadByLocation nBoard ((ibitxy : Int) + bitOffset localBoard iCath)
                    true).ix,
                  (seg.PadByLocation nBoard ((ibitxy : Int) + bitOffset localBoard iCath)
                    true).iy),
               adc := none, charge := some 1 }, ?_, rfl⟩⟩
          simp only [AliMUONVDigitStore.SetPadXY, AliMUONVDigitStore.SetCharge,
            updateAt_append_length]
      · simp only [hv, Bool.not_false, if_true, Except.ok.injEq] at h
        subst h
        exact ⟨Or.inl rfl, Or.inl rfl⟩
  · simp only [hb, Bool.false_eq_true, if_false, Except.ok.injEq] at h
    subst h
    exact ⟨Or.inl rfl, Or.inl rfl⟩

theorem fillTriggerDigits_triggerStore (m : Mapping) (cm : AliMUONTriggerCrateStore)
    (loCircuit : Int) (ls : AliMUONLocalStruct) (st st1 : St)
    (h : fillTriggerDigits m cm loCircuit ls st = .ok st1) :
    st1.fTriggerStore = st.fTriggerStore := by
  unfold fillTriggerDigits at h
  cases hds : st.fDigitStore with
  | none =>
    simp only [hds] at h
    cases htd : TriggerDigitsNull m (some cm) loCircuit (mkXYPattern ls) st.reports with
    | error e => simp [htd] at h
    | ok p =>
      simp only [htd, Except.ok.injEq] at h
      subst h
      rfl
  | some ds =>
    simp only [hds] at h
    cases htd : TriggerDigits m (some cm) loCircuit (mkXYPattern ls)
        { store := ds, calls := st.calls, reports := st.reports } with
    | error e => simp [htd] at h
    | ok p =>
      simp only [htd, Except.ok.injEq] at h
      subst h
      rfl

theorem digitUntouched_refl (st : St) : digitUntouched st st := ⟨rfl, rfl⟩

theorem digitUntouched_trans (s t u : St) (h1 : digitUntouched s t) (h2 : digitUntouched t u) :
    digitUntouched s u :=
  ⟨h2.1.trans h1.1, h2.2.trans h1.2⟩

theorem triggerUntouched_refl (st : St) : triggerUntouched st st := ⟨rfl, rfl⟩

theorem triggerUntouched_trans (s t u : St) (h1 : triggerUntouched s t)
    (h2 : triggerUntouched t u) : triggerUntouched s u :=
  ⟨h2.1.trans h1.1, h2.2.trans h1.2⟩

theorem trackerSample_triggerUntouched (m : Mapping) (s : Sample) (st st1 : St)
    (h : trackerSample m s st = .ok st1) : triggerUntouched st st1 := by
  unfold trackerSample at h
  cases hseg : m.GetMpSegmentationByElectronics (m.GetDEfromBus s.buspatchId) s.manuId with
  | none => simp [hseg] at h
  | some seg =>
    simp only [hseg] at h
    by_cases hv : (seg.PadByLocation s.manuId s.channelId false).IsValid = true
    · simp only [hv, Bool.not_true, Bool.false_eq_true, if_false] at h
      cases hds : st.fDigitStore with
      | none => simp [hds] at h
      | some ds =>
        simp only [hds] at h
        cases hadd : ds.Add (m.GetDEfromBus s.buspatchId) s.manuId s.channelId
            (m.GetCathod (m.GetDEfromBus s.buspatchId) seg.PlaneType).toInt with
        | none =>
          simp only [hadd, Except.ok.injEq] at h
          subst h
          exact ⟨rfl, by simp [St.call, St.report, Call.onTriggerStore]⟩
        | some p =>
          simp only [hadd, Except.ok.injEq] at h
          subst h
          exact ⟨rfl, by simp [St.call, Call.onTriggerStore]⟩
    · simp only [hv, Bool.not_false, if_true, Except.ok.injEq] at h
      subst h
      exact ⟨rfl, rfl⟩

theorem trackerLoop_triggerUntouched (m : Mapping) :
    ∀ (l : List Sample) (st st1 : St), trackerLoop m l st = .ok st1 →
      triggerUntouched st st1 := by
  intro l
  induction l with
  | nil =>
    intro st st1 h
    simp only [trackerLoop, Except.ok.injEq] at h
    subst h
    exact ⟨rfl, by simp [St.call, Call.onTriggerStore]⟩
  | cons s rest ih =>
    intro st st1 h
    simp only [trackerLoop] at h
    cases hs : trackerSample m s (st.call .trackerNext) with
    | error e => simp [hs] at h
    | ok st2 =>
      simp only [hs] at h
      have h0 : triggerUntouched st (st.call .trackerNext) :=
        ⟨rfl, by simp [St.call, Call.onTriggerStore]⟩
      exact triggerUntouched_trans _ _ _ h0
        (triggerUntouched_trans _ _ _ (trackerSample_triggerUntouched m s _ st2 hs)
          (ih st2 st1 h))

theorem trackerSample_withTrigger (m : Mapping) (s : Sample) (st : St)
    (x : Option AliMUONVTriggerStore) :
    trackerSample m s (st.withTrigger x) =
      match trackerSample m s st with
      | .error e => .error e
      | .ok st1 => .ok (st1.withTrigger x) := by
  have hds0 : (st.withTrigger x).fDigitStore = st.fDigitStore := rfl
  cases hseg : m.GetMpSegmentationByElectronics (m.GetDEfromBus s.buspatchId) s.manuId with
  | none => simp only [trackerSample, hseg]
  | some seg =>
    by_cases hv : (seg.PadByLocation s.manuId s.channelId false).IsValid = true
    · cases hds : st.fDigitStore with
      | none => simp only [trackerSample, hseg, hv, hds0, hds, Bool.not_true,
          Bool.false_eq_true, if_false]
      | some ds =>
        cases hadd : ds.Add (m.GetDEfromBus s.buspatchId) s.manuId s.channelId
            (m.GetCathod (m.GetDEfromBus s.buspatchId) seg.PlaneType).toInt with
        | none =>
          simp only [trackerSample, hseg, hv, hds0, hds, hadd, Bool.not_true,
            Bool.false_eq_true, if_false]
          rfl
        | some p =>
          simp only [trackerSample, hseg, hv, hds0, hds, hadd, Bool.not_true,
            Bool.false_eq_true, if_false]
          rfl
    · simp only [trackerSample, hseg, hv, Bool.not_false, if_true]
      rfl

theorem trackerLoop_withTrigger (m : Mapping) (x : Option AliMUONVTriggerStore) :
    ∀ (l : List Sample) (st : St),
      trackerLoop m l (st.withTrigger x) =
        match trackerLoop m l st with
        | .error e => .error e
        | .ok st1 => .ok (st1.withTrigger x) := by
  intro l
  induction l with
  | nil => intro st; rfl
  | cons s rest ih =>
    intro st
    simp only [trackerLoop]
    have h := trackerSample_withTrigger m s (st.call .trackerNext) x
    have hc : (st.withTrigger x).call .trackerNext = (st.call .trackerNext).withTrigger x := rfl
    rw [hc, h]
    cases trackerSample m s (st.call .trackerNext) with
    | error e => rfl
    | ok st2 => exact ih st2
theorem Raw2Digits_with_digit_store (m : Mapping)
    (fCrateManager : Option AliMUONTriggerCrateStore) (flag : Bool) (raw : RawEvent)
    (ds : AliMUONVDigitStore) (t : Option AliMUONVTriggerStore) :
    Raw2Digits m fCrateManager flag raw (some ds) t =
      match trackerLoop m raw.tracker (trackerStart t) with
      | .error e => .error e
      | .ok st1 =>
        if st1.fTriggerStore.isSome || flag then
          let st2 : St :=
            match st1.fTriggerStore with
            | none => st1
            | some ts => { st1 with fTriggerStore := some ts.Clear }.call .triggerClear
          if flag && st2.fDigitStore.isNone then
            .ok (kTRUE, st2.report .errNoDigitStore)
          else
            match ReadTriggerDDL m fCrateManager flag raw st2 with
            | .error e => .error e
            | .ok (_, st3) => .ok (kTRUE, st3)
        else .ok (kTRUE, st1) := by
  have hstart : (((St.mk (some ds.Clear) t [] []).call .digitClear).call
      .trackerSetReader).call .trackerFirst = trackerStart t := rfl
  unfold Raw2Digits ReadTrackerDDL
  simp only [Option.isNone_some, Bool.false_and, Bool.false_eq_true, if_false, hstart]
  cases trackerLoop m raw.tracker (trackerStart t) with
  | error e => rfl
  | ok st1 => rfl

theorem Raw2Digits_digit_content_irrelevant (m : Mapping)
    (fCrateManager : Option AliMUONTriggerCrateStore) (flag : Bool) (raw : RawEvent)
    (ds ds1 : AliMUONVDigitStore) (t : Option AliMUONVTriggerStore) :
    Raw2Digits m fCrateManager flag raw (some ds) t =
      Raw2Digits m fCrateManager flag raw (some ds1) t := rfl

theorem Raw2Digits_trigger_content_irrelevant_no_digits (m : Mapping)
    (fCrateManager : Option AliMUONTriggerCrateStore) (flag : Bool) (raw : RawEvent)
    (ts ts1 : AliMUONVTriggerStore) :
    Raw2Digits m fCrateManager flag raw none (some ts) =
      Raw2Digits m fCrateManager flag raw none (some ts1) := rfl

theorem Raw2Digits_trigger_content_irrelevant (m : Mapping)
    (fCrateManager : Option AliMUONTriggerCrateStore) (flag : Bool) (raw : RawEvent)
    (ds : AliMUONVDigitStore) (ts ts1 : AliMUONVTriggerStore) :
    Raw2Digits m fCrateManager flag raw (some ds) (some ts) =
      Raw2Digits m fCrateManager flag raw (some ds) (some ts1) := by
  have key : ∀ t : AliMUONVTriggerStore,
      Raw2Digits m fCrateManager flag raw (some ds) (some t) =
        match trackerLoop m raw.tracker (trackerStart none) with
        | .error e => .error e
        | .ok st1 =>
          if flag && st1.fDigitStore.isNone then
            .ok (kTRUE, ((st1.withTrigger (some { global := none, locals := [] })).call
              .triggerClear).report .errNoDigitStore)
          else
            match ReadTriggerDDL m fCrateManager flag raw
                ((st1.withTrigger (some { global := none, locals := [] })).call
                  .triggerClear) with
            | .error e => .error e
            | .ok (_, st3) => .ok (kTRUE, st3) := by
    intro t
    rw [Raw2Digits_with_digit_store]
    have hs : trackerStart (some t) = (trackerStart none).withTrigger (some t) := rfl
    rw [hs, trackerLoop_withTrigger]
    cases hl : trackerLoop m raw.tracker (trackerStart none) with
    | error e => rfl
    | ok st1 => rfl
  rw [key ts, key ts1]
theorem fillGlobal_digitUntouched (darcHeader : AliMUONDarcHeader) (st : St) :
    digitUntouched st (fillGlobal darcHeader st) := by
  unfold fillGlobal
  cases st.fTriggerStore with
  | none => exact digitUntouched_refl st
  | some ts =>
    by_cases hf : darcHeader.GetGlobalFlag = true
    · simp only [hf, if_true]
      exact ⟨rfl, by simp [Call.onDigitStore]⟩
    · simp only [hf, Bool.false_eq_true, if_false]
      exact digitUntouched_refl st

theorem fillLocal_digitUntouched (loCircuit : Int) (ls : AliMUONLocalStruct) (st : St) :
    digitUntouched st (fillLocal loCircuit ls st) := by
  unfold fillLocal
  cases st.fTriggerStore with
  | none => exact digitUntouched_refl st
  | some ts => exact ⟨rfl, by simp [Call.onDigitStore]⟩

theorem localStep_digitUntouched (m : Mapping) (cm : AliMUONTriggerCrateStore)
    (boards : List (Option AliMUONLocalTriggerBoard)) (l : Option AliMUONLocalStruct)
    (st st1 : St) (h : localStep m cm false boards l st = .ok st1) : digitUntouched st st1 := by
  cases l with
  | none =>
    simp only [localStep, Except.ok.injEq] at h
    subst h
    exact digitUntouched_refl st
  | some ls =>
    unfold localStep at h
    cases hb : TObjArrayAt boards (ls.id + 1) with
    | none => simp [hb] at h
    | some localBoard =>
      simp only [hb] at h
      by_cases hz : localBoard.GetNumber = 0
      · simp only [hz, if_true, Except.ok.injEq] at h
        subst h
        exact digitUntouched_refl st
      · simp only [hz, if_false, Bool.false_eq_true, Except.ok.injEq] at h
        subst h
        exact fillLocal_digitUntouched _ _ _

theorem regLoop_digitUntouched (m : Mapping) (fCrateManager : Option AliMUONTriggerCrateStore)
    (ddl : Int) :
    ∀ (regs : List AliMUONRegHeader) (iReg : Nat) (st st1 : St),
      regLoop m fCrateManager false ddl iReg regs st = .ok st1 → digitUntouched st st1 := by
  intro regs
  induction regs with
  | nil =>
    intro iReg st st1 h
    simp only [regLoop, Except.ok.injEq] at h
    subst h
    exact digitUntouched_refl st
  | cons reg rest ih =>
    intro iReg st st1 h
    simp only [regLoop] at h
    cases hr : regStep m fCrateManager false ddl iReg reg st with
    | error e => simp [hr] at h
    | ok st2 =>
      simp only [hr] at h
      refine digitUntouched_trans _ _ _ ?_ (ih _ _ _ h)
      unfold regStep at hr
      cases fCrateManager with
      | none => simp at hr
      | some cm =>
        simp only at hr
        cases hc : cm.Crate ddl iReg with
        | none => simp [hc] at hr
        | some crate =>
          simp only [hc] at hr
          exact forEach_rel _ digitUntouched digitUntouched_refl digitUntouched_trans
            (fun l s t hs => localStep_digitUntouched m cm crate.Boards l s t hs) _ _ _ hr

theorem ddlLoop_digitUntouched (m : Mapping) (fCrateManager : Option AliMUONTriggerCrateStore) :
    ∀ (l : List AliMUONDDLTrigger) (st st1 : St),
      ddlLoop m fCrateManager false l st = .ok st1 → digitUntouched st st1 := by
  intro l
  induction l with
  | nil =>
    intro st st1 h
    simp only [ddlLoop, Except.ok.injEq] at h
    subst h
    exact ⟨rfl, by simp [St.call, Call.onDigitStore]⟩
  | cons d rest ih =>
    intro st st1 h
    simp only [ddlLoop] at h
    cases hd : ddlStep m fCrateManager false d (st.call .triggerNextDDL) with
    | error e => simp [hd] at h
    | ok st2 =>
      simp only [hd] at h
      unfold ddlStep at hd
      have h0 : digitUntouched st (st.call .triggerNextDDL) :=
        ⟨rfl, by simp [St.call, Call.onDigitStore]⟩
      exact digitUntouched_trans _ _ _ h0
        (digitUntouched_trans _ _ _ (fillGlobal_digitUntouched d.darcHeader _)
          (digitUntouched_trans _ _ _ (regLoop_digitUntouched _ _ _ _ _ _ _ hd) (ih st2 st1 h)))

theorem ReadTriggerDDL_digitUntouched (m : Mapping)
    (fCrateManager : Option AliMUONTriggerCrateStore) (raw : RawEvent) (st st1 : St) (r : Int)
    (h : ReadTriggerDDL m fCrateManager false raw st = .ok (r, st1)) :
    digitUntouched st st1 := by
  unfold ReadTriggerDDL at h
  cases hl : ddlLoop m fCrateManager false raw.trigger (st.call .triggerSetReader) with
  | error e => simp [hl] at h
  | ok st2 =>
    simp only [hl, Except.ok.injEq, Prod.mk.injEq] at h
    rw [← h.2]
    have h0 : digitUntouched st (st.call .triggerSetReader) :=
      ⟨rfl, by simp [St.call, Call.onDigitStore]⟩
    exact digitUntouched_trans _ _ _ h0 (ddlLoop_digitUntouched _ _ _ _ _ hl)

theorem TriggerDigits_triggerCalls (m : Mapping)
    (fCrateManager : Option AliMUONTriggerCrateStore) (nBoard : Int) (xyPattern : XYPattern)
    (s s1 : Sink) (r : Int)
    (h : TriggerDigits m fCrateManager nBoard xyPattern s = .ok (r, s1)) :
    s1.calls.filter Call.onTriggerStore = s.calls.filter Call.onTriggerStore := by
  unfold TriggerDigits at h
  cases hl : forEach (fun iChamber => forEach (slotStep m fCrateManager nBoard xyPattern iChamber)
      (List.range 2)) (List.range 4) s with
  | error e => simp [hl] at h
  | ok s2 =>
    simp only [hl, Except.ok.injEq, Prod.mk.injEq] at h
    rw [← h.2]
    refine forEach_rel _
      (fun a b => b.calls.filter Call.onTriggerStore = a.calls.filter Call.onTriggerStore)
      (fun _ => rfl) ?_ ?_ _ _ _ hl
    · intro a b c h1 h2
      exact h2.trans h1
    · intro iChamber t t1 ht
      refine forEach_rel _
        (fun a b => b.calls.filter Call.onTriggerStore = a.calls.filter Call.onTriggerStore)
        (fun _ => rfl) ?_ ?_ _ _ _ ht
      · intro a b c h1 h2
        exact h2.trans h1
      · intro iCath u u1 hu
        unfold slotStep at hu
        by_cases hp : TArraySAt (xyPattern.at iCath) iChamber = 0
        · simp only [hp, if_true, Except.ok.injEq] at hu
          subst hu
          rfl
        · simp only [hp, if_false] at hu
          cases fCrateManager with
          | none => simp at hu
          | some cm =>
            simp only at hu
            cases hb : cm.LocalBoard nBoard with
            | none => simp [hb] at hu
            | some localBoard =>
              simp only [hb] at hu
              refine forEach_rel _
                (fun a b =>
                  b.calls.filter Call.onTriggerStore = a.calls.filter Call.onTriggerStore)
                (fun _ => rfl) ?_ ?_ _ _ _ hu
              · intro a b c h1 h2
                exact h2.trans h1
              · intro i v v1 hv
                rcases (bitStep_key_cases _ _ _ _ _ _ _ _ _ hv).1 with hc | hc
                · rw [hc]
                · rw [hc]
                  simp [Call.onTriggerStore]

theorem localStep_triggerUntouched (m : Mapping) (cm : AliMUONTriggerCrateStore) (flag : Bool)
    (boards : List (Option AliMUONLocalTriggerBoard)) (l : Option AliMUONLocalStruct)
    (st st1 : St) (h : localStep m cm flag boards l st = .ok st1)
    (hts : st.fTriggerStore = none) : triggerUntouched st st1 := by
  cases l with
  | none =>
    simp only [localStep, Except.ok.injEq] at h
    subst h
    exact triggerUntouched_refl st
  | some ls =>
    unfold localStep at h
    cases hb : TObjArrayAt boards (ls.id + 1) with
    | none => simp [hb] at h
    | some localBoard =>
      simp only [hb] at h
      by_cases hz : localBoard.GetNumber = 0
      · simp only [hz, if_true, Except.ok.injEq] at h
        subst h
        exact triggerUntouched_refl st
      · have hfill : fillLocal localBoard.GetNumber ls st = st := by
          simp [fillLocal, hts]
        simp only [hz, if_false, hfill] at h
        cases flag with
        | false =>
          simp only [Bool.false_eq_true, if_false, Except.ok.injEq] at h
          subst h
          exact triggerUntouched_refl st
        | true =>
          simp only [if_true] at h
          refine ⟨fillTriggerDigits_triggerStore m cm _ ls st st1 h, ?_⟩
          unfold fillTriggerDigits at h
          cases hds : st.fDigitStore with
          | none =>
            simp only [hds] at h
            cases htd : TriggerDigitsNull m (some cm) localBoard.GetNumber (mkXYPattern ls)
                st.reports with
            | error e => simp [htd] at h
            | ok p =>
              simp only [htd, Except.ok.injEq] at h
              subst h
              rfl
          | some ds =>
            simp only [hds] at h
            cases htd : TriggerDigits m (some cm) localBoard.GetNumber (mkXYPattern ls)
                { store := ds, calls := st.calls, reports := st.reports } with
            | error e => simp [htd] at h
            | ok p =>
              obtain ⟨r, s1⟩ := p
              simp only [htd, Except.ok.injEq] at h
              subst h
              exact TriggerDigits_triggerCalls _ _ _ _ _ _ _ htd

theorem forEach_localStep_triggerUntouched (m : Mapping) (cm : AliMUONTriggerCrateStore)
    (flag : Bool) (boards : List (Option AliMUONLocalTriggerBoard)) :
    ∀ (l : List (Option AliMUONLocalStruct)) (st st1 : St),
      forEach (localStep m cm flag boards) l st = .ok st1 → st.fTriggerStore = none →
      triggerUntouched st st1 := by
  intro l
  induction l with
  | nil =>
    intro st st1 h _
    simp only [forEach, Except.ok.injEq] at h
    subst h
    exact triggerUntouched_refl st
  | cons a rest ih =>
    intro st st1 h hts
    simp only [forEach] at h
    cases ha : localStep m cm flag boards a st with
    | error e => simp [ha] at h
    | ok st2 =>
      simp only [ha] at h
      have h1 := localStep_triggerUntouched m cm flag boards a st st2 ha hts
      exact triggerUntouched_trans _ _ _ h1 (ih st2 st1 h (h1.1.trans hts))

theorem regLoop_triggerUntouched (m : Mapping) (fCrateManager : Option AliMUONTriggerCrateStore)
    (flag : Bool) (ddl : Int) :
    ∀ (regs : List AliMUONRegHeader) (iReg : Nat) (st st1 : St),
      regLoop m fCrateManager flag ddl iReg regs st = .ok st1 → st.fTriggerStore = none →
      triggerUntouched st st1 := by
  intro regs
  induction regs with
  | nil =>
    intro iReg st st1 h _
    simp only [regLoop, Except.ok.injEq] at h
    subst h
    exact triggerUntouched_refl st
  | cons reg rest ih =>
    intro iReg st st1 h hts
    simp only [regLoop] at h
    cases hr : regStep m fCrateManager flag ddl iReg reg st with
    | error e => simp [hr] at h
    | ok st2 =>
      simp only [hr] at h
      unfold regStep at hr
      cases fCrateManager with
      | none => simp at hr
      | some cm =>
        simp only at hr
        cases hc : cm.Crate ddl iReg with
        | none => simp [hc] at hr
        | some crate =>
          simp only [hc] at hr
          have h1 := forEach_localStep_triggerUntouched m cm flag crate.Boards _ _ _ hr hts
          exact triggerUntouched_trans _ _ _ h1 (ih _ st2 st1 h (h1.1.trans hts))

theorem ddlLoop_triggerUntouched (m : Mapping) (fCrateManager : Option AliMUONTriggerCrateStore)
    (flag : Bool) :
    ∀ (l : List AliMUONDDLTrigger) (st st1 : St),
      ddlLoop m fCrateManager flag l st = .ok st1 → st.fTriggerStore = none →
      triggerUntouched st st1 := by
  intro l
  induction l with
  | nil =>
    intro st st1 h _
    simp only [ddlLoop, Except.ok.injEq] at h
    subst h
    exact ⟨rfl, by simp [St.call, Call.onTriggerStore]⟩
  | cons d rest ih =>
    intro st st1 h hts
    simp only [ddlLoop] at h
    cases hd : ddlStep m fCrateManager flag d (st.call .triggerNextDDL) with
    | error e => simp [hd] at h
    | ok st2 =>
      simp only [hd] at h
      unfold ddlStep at hd
      have hfill : fillGlobal d.darcHeader (st.call .triggerNextDDL) =
          st.call .triggerNextDDL := by
        simp [fillGlobal, St.call, hts]
      rw [hfill] at hd
      have h0 : triggerUntouched st (st.call .triggerNextDDL) :=
        ⟨rfl, by simp [St.call, Call.onTriggerStore]⟩
      have h1 := regLoop_triggerUntouched _ _ _ _ _ _ _ _ hd (h0.1.trans hts)
      exact triggerUntouched_trans _ _ _ h0
        (triggerUntouched_trans _ _ _ h1 (ih st2 st1 h (h1.1.trans (h0.1.trans hts))))

theorem ReadTriggerDDL_triggerUntouched (m : Mapping)
    (fCrateManager : Option AliMUONTriggerCrateStore) (flag : Bool) (raw : RawEvent)
    (st st1 : St) (r : Int)
    (h : ReadTriggerDDL m fCrateManager flag raw st = .ok (r, st1))
    (hts : st.fTriggerStore = none) : triggerUntouched st st1 := by
  unfold ReadTriggerDDL at h
  cases hl : ddlLoop m fCrateManager flag raw.trigger (st.call .triggerSetReader) with
  | error e => simp [hl] at h
  | ok st2 =>
    simp only [hl, Except.ok.injEq, Prod.mk.injEq] at h
    rw [← h.2]
    have h0 : triggerUntouched st (st.call .triggerSetReader) :=
      ⟨rfl, by simp [St.call, Call.onTriggerStore]⟩
    exact triggerUntouched_trans _ _ _ h0 (ddlLoop_triggerUntouched _ _ _ _ _ _ hl
      (h0.1.trans hts))

theorem Raw2Digits_digit_store_untouched (m : Mapping)
    (fCrateManager : Option AliMUONTriggerCrateStore) (flag : Bool) (raw : RawEvent)
    (ts : AliMUONVTriggerStore) (r : Int) (st1 : St)
    (h : Raw2Digits m fCrateManager flag raw none (some ts) = .ok (r, st1)) :
    st1.fDigitStore = none ∧ st1.calls.filter Call.onDigitStore = [] := by
  cases flag with
  | true =>
    have hval : Raw2Digits m fCrateManager true raw none (some ts) =
        .ok (kTRUE, { fDigitStore := none,
                      fTriggerStore := some { global := none, locals := [] },
                      calls := [.triggerClear], reports := [.errNoDigitStore] }) := rfl
    rw [hval] at h
    simp only [Except.ok.injEq, Prod.mk.injEq] at h
    rw [← h.2]
    exact ⟨rfl, by decide⟩
  | false =>
    have hval : Raw2Digits m fCrateManager false raw none (some ts) =
        match ReadTriggerDDL m fCrateManager false raw
            ((St.mk none (some { global := none, locals := [] }) [] []).call .triggerClear) with
        | .error e => .error e
        | .ok (_, st3) => .ok (kTRUE, st3) := rfl
    rw [hval] at h
    cases hr : ReadTriggerDDL m fCrateManager false raw
        ((St.mk none (some { global := none, locals := [] }) [] []).call .triggerClear) with
    | error e => simp [hr] at h
    | ok p =>
      obtain ⟨r1, st3⟩ := p
      simp only [hr, Except.ok.injEq, Prod.mk.injEq] at h
      rw [← h.2]
      obtain ⟨h1, h2⟩ := ReadTriggerDDL_digitUntouched _ _ _ _ _ _ hr
      exact ⟨h1, h2.trans (by decide)⟩

theorem Raw2Digits_trigger_store_untouched (m : Mapping)
    (fCrateManager : Option AliMUONTriggerCrateStore) (flag : Bool) (raw : RawEvent)
    (ds : AliMUONVDigitStore) (r : Int) (st1 : St)
    (h : Raw2Digits m fCrateManager flag raw (some ds) none = .ok (r, st1)) :
    st1.fTriggerStore = none ∧ st1.calls.filter Call.onTriggerStore = [] := by
  rw [Raw2Digits_with_digit_store] at h
  cases hl : trackerLoop m raw.tracker (trackerStart none) with
  | error e => simp [hl] at h
  | ok st2 =>
    simp only [hl] at h
    obtain ⟨h1, h2⟩ := trackerLoop_triggerUntouched m _ _ _ hl
    have h1' : st2.fTriggerStore = none := h1
    have h2' : st2.calls.filter Call.onTriggerStore = [] := h2.trans (by decide)
    simp only [h1', Option.isSome_none, Bool.false_or] at h
    cases flag with
    | false =>
      simp only [Bool.false_eq_true, if_false, Except.ok.injEq, Prod.mk.injEq] at h
      rw [← h.2]
      exact ⟨h1', h2'⟩
    | true =>
      simp only [if_true, Bool.true_and] at h
      cases hd : st2.fDigitStore with
      | none =>
        simp only [hd, Option.isNone_none, if_true, Except.ok.injEq, Prod.mk.injEq] at h
        rw [← h.2]
        exact ⟨h1', by simpa [St.report] using h2'⟩
      | some d =>
        simp only [hd, Option.isNone_some, Bool.false_eq_true, if_false] at h
        cases hr : ReadTriggerDDL m fCrateManager true raw st2 with
        | error e => simp [hr] at h
        | ok p =>
          obtain ⟨r1, st3⟩ := p
          simp only [hr, Except.ok.injEq, Prod.mk.injEq] at h
          rw [← h.2]
          obtain ⟨h3, h4⟩ := ReadTriggerDDL_triggerUntouched _ _ _ _ _ _ _ hr h1'
          exact ⟨h3.trans h1', h4.trans h2'⟩

theorem bitStepNull_total (seg : AliMpVSegmentation) (localBoard : AliMUONLocalTriggerBoard)
    (detElemId nBoard : Int) (iCath : Nat) (pattern : Int) (ibitxy : Nat)
    (reports : List Report)
    (h : (!bitSet pattern ibitxy ||
      !(seg.PadByLocation nBoard ((ibitxy : Int) + bitOffset localBoard iCath)
        true).IsValid) = true) :
    ∃ r1, bitStepNull (some seg) localBoard detElemId nBoard iCath pattern ibitxy reports =
      .ok r1 := by
  unfold bitStepNull
  by_cases hb : bitSet pattern ibitxy = true
  · have hv : (seg.PadByLocation nBoard ((ibitxy : Int) + bitOffset localBoard iCath)
        true).IsValid = false := by simpa [hb] using h
    simp [hb, hv]
  · simp [hb]

theorem slotStepNull_total (m : Mapping) (cm : AliMUONTriggerCrateStore) (nBoard : Int)
    (xyPattern : XYPattern) (iChamber iCath : Nat) (reports : List Report)
    (h : slotQuiet m cm nBoard xyPattern iChamber iCath = true) :
    ∃ r1, slotStepNull m (some cm) nBoard xyPattern iChamber iCath reports = .ok r1 := by
  unfold slotStepNull
  by_cases hp : TArraySAt (xyPattern.at iCath) iChamber = 0
  · simp [hp]
  · unfold slotQuiet at h
    cases hb : cm.LocalBoard nBoard with
    | none => simp [hp, hb] at h
    | some localBoard =>
      simp only [hb, Bool.or_eq_true, beq_iff_eq, hp, false_or] at h
      cases hseg : m.GetMpSegmentation
          (m.DetElemId ((iChamber : Int) + 10) localBoard.GetName) (GetCathodType iCath) with
      | none => simp [hseg] at h
      | some seg =>
        simp only [hseg] at h
        rw [List.all_eq_true] at h
        simp only [hp, if_false, hb]
        rw [hseg]
        obtain ⟨r1, h1, _⟩ := forEach_total
          (bitStepNull (some seg) localBoard
            (m.DetElemId ((iChamber : Int) + 10) localBoard.GetName)
            nBoard iCath (TArraySAt (xyPattern.at iCath) iChamber)) (fun _ => True)
          (List.range 16) reports trivial
          (fun i hi t _ => by
            obtain ⟨t1, ht1⟩ := bitStepNull_total seg localBoard
              (m.DetElemId ((iChamber : Int) + 10) localBoard.GetName) nBoard iCath
              (TArraySAt (xyPattern.at iCath) iChamber) i t (h i hi)
            exact ⟨t1, ht1, trivial⟩)
        exact ⟨r1, h1⟩

theorem TriggerDigitsNull_total (m : Mapping) (cm : AliMUONTriggerCrateStore) (nBoard : Int)
    (xyPattern : XYPattern) (reports : List Report)
    (h : boardQuiet m cm nBoard xyPattern = true) :
    ∃ r1, TriggerDigitsNull m (some cm) nBoard xyPattern reports = .ok (kTRUE, r1) := by
  unfold boardQuiet at h
  rw [List.all_eq_true] at h
  obtain ⟨r1, h1, _⟩ := forEach_total
    (fun iChamber => forEach (slotStepNull m (some cm) nBoard xyPattern iChamber)
      (List.range 2))
    (fun _ => True) (List.range 4) reports trivial
    (fun iChamber hc t _ => by
      have hch := h iChamber hc
      rw [List.all_eq_true] at hch
      obtain ⟨t1, ht1, _⟩ := forEach_total (slotStepNull m (some cm) nBoard xyPattern iChamber)
        (fun _ => True) (List.range 2) t trivial
        (fun iCath hi u _ => by
          obtain ⟨u1, hu1⟩ := slotStepNull_total m cm nBoard xyPattern iChamber iCath u
            (hch iCath hi)
          exact ⟨u1, hu1, trivial⟩)
      exact ⟨t1, ht1, trivial⟩)
  exact ⟨r1, by simp [TriggerDigitsNull, h1]⟩

theorem fillTriggerDigits_returns (m : Mapping) (cm : AliMUONTriggerCrateStore)
    (loCircuit : Int) (ls : AliMUONLocalStruct) (st : St)
    (hres : (if st.fDigitStore.isSome then boardResolves m cm loCircuit (mkXYPattern ls)
      else boardQuiet m cm loCircuit (mkXYPattern ls)) = true) :
    ∃ st1, fillTriggerDigits m cm loCircuit ls st = .ok st1 ∧
      st1.fDigitStore.isSome = st.fDigitStore.isSome := by
  cases hds : st.fDigitStore with
  | none =>
    simp only [hds, Option.isSome_none, Bool.false_eq_true, if_false] at hres
    obtain ⟨r1, h1⟩ := TriggerDigitsNull_total m cm loCircuit (mkXYPattern ls) st.reports hres
    exact ⟨{ st with reports := r1 }, by simp only [fillTriggerDigits, hds, h1], by
      simp only [hds]⟩
  | some ds =>
    simp only [hds, Option.isSome_some, if_true] at hres
    obtain ⟨s1, h1⟩ := TriggerDigits_total m cm loCircuit (mkXYPattern ls)
      { store := ds, calls := st.calls, reports := st.reports } hres
    exact ⟨{ st with fDigitStore := some s1.store, calls := s1.calls, reports := s1.reports },
      by simp only [fillTriggerDigits, hds, h1], rfl⟩

theorem localStep_returns (m : Mapping) (cm : AliMUONTriggerCrateStore) (flag hasStore : Bool)
    (boards : List (Option AliMUONLocalTriggerBoard)) (l : Option AliMUONLocalStruct) (st : St)
    (hb : localHasBoard boards l = true)
    (hs : flag = true → localSynthesisResolves m cm hasStore boards l = true)
    (hst : st.fDigitStore.isSome = hasStore) :
    ∃ st1, localStep m cm flag boards l st = .ok st1 ∧ st1.fDigitStore.isSome = hasStore := by
  cases l with
  | none => exact ⟨st, rfl, hst⟩
  | some ls =>
    unfold localHasBoard at hb
    obtain ⟨localBoard, hlb⟩ := Option.isSome_iff_exists.mp hb
    by_cases hz : localBoard.GetNumber = 0
    · exact ⟨st, by simp [localStep, hlb, hz], hst⟩
    · cases flag with
      | false =>
        refine ⟨fillLocal localBoard.GetNumber ls st, by simp [localStep, hlb, hz], ?_⟩
        rw [fillLocal_digitStore]
        exact hst
      | true =>
        have hs1 := hs rfl
        simp only [localSynthesisResolves, hlb, Bool.or_eq_true, beq_iff_eq, hz, false_or]
          at hs1
        have hst1 : (fillLocal localBoard.GetNumber ls st).fDigitStore.isSome = hasStore := by
          rw [fillLocal_digitStore]
          exact hst
        obtain ⟨st1, h1, hd1⟩ := fillTriggerDigits_returns m cm localBoard.GetNumber ls
          (fillLocal localBoard.GetNumber ls st) (by rw [hst1]; exact hs1)
        exact ⟨st1, by simp [localStep, hlb, hz, h1], hd1.trans hst1⟩

theorem regLoop_returns (m : Mapping) (cm : AliMUONTriggerCrateStore) (flag hasStore : Bool)
    (ddl : Int) :
    ∀ (regs : List AliMUONRegHeader) (iReg : Nat) (st : St),
      regsHaveBoards cm ddl iReg regs = true →
      (flag = true → regsSynthesisResolve m cm hasStore ddl iReg regs = true) →
      st.fDigitStore.isSome = hasStore →
      ∃ st1, regLoop m (some cm) flag ddl iReg regs st = .ok st1 ∧
        st1.fDigitStore.isSome = hasStore := by
  intro regs
  induction regs with
  | nil => intro iReg st _ _ hst; exact ⟨st, rfl, hst⟩
  | cons reg rest ih =>
    intro iReg st hb hs hst
    simp only [regsHaveBoards, Bool.and_eq_true] at hb
    simp only [regsSynthesisResolve, Bool.and_eq_true] at hs
    obtain ⟨hreg, hrest⟩ := hb
    cases hc : cm.Crate ddl iReg with
    | none => simp [hc] at hreg
    | some crate =>
      simp only [hc] at hreg hs
      rw [List.all_eq_true] at hreg
      obtain ⟨st1, h1, hp1⟩ := forEach_total (localStep m cm flag crate.Boards)
        (fun t => t.fDigitStore.isSome = hasStore) reg.locals st hst
        (fun l hl t ht => localStep_returns m cm flag hasStore crate.Boards l t (hreg l hl)
          (fun hf => (List.all_eq_true.mp (hs hf).1) l hl) ht)
      obtain ⟨st2, h2, hp2⟩ := ih (iReg + 1) st1 hrest (fun hf => (hs hf).2) hp1
      exact ⟨st2, by simp [regLoop, regStep, hc, h1, h2], hp2⟩

theorem ddlLoop_returns (m : Mapping) (cm : AliMUONTriggerCrateStore) (flag hasStore : Bool) :
    ∀ (l : List AliMUONDDLTrigger) (st : St),
      cratesAndBoardsResolve cm l = true →
      (flag = true → synthesisResolves m cm hasStore l = true) →
      st.fDigitStore.isSome = hasStore →
      ∃ st1, ddlLoop m (some cm) flag l st = .ok st1 := by
  intro l
  induction l with
  | nil => intro st _ _ _; exact ⟨_, rfl⟩
  | cons d rest ih =>
    intro st hb hs hst
    simp only [cratesAndBoardsResolve, List.all_cons, Bool.and_eq_true] at hb
    simp only [synthesisResolves, List.all_cons, Bool.and_eq_true] at hs
    have hst1 : (fillGlobal d.darcHeader (st.call .triggerNextDDL)).fDigitStore.isSome =
        hasStore := by
      rw [fillGlobal_digitStore]
      exact hst
    obtain ⟨st1, h1, hp1⟩ := regLoop_returns m cm flag hasStore d.GetDDL
      d.darcHeader.regHeaders 0 _ hb.1 (fun hf => (hs hf).1) hst1
    obtain ⟨st2, h2⟩ := ih st1 hb.2 (fun hf => (hs hf).2) hp1
    exact ⟨st2, by simp [ddlLoop, ddlStep, h1, h2]⟩

theorem ReadTriggerDDL_returns (m : Mapping) (cm : AliMUONTriggerCrateStore) (flag : Bool)
    (raw : RawEvent) (st : St) (hcb : cratesAndBoardsResolve cm raw.trigger = true)
    (hs : flag = true → synthesisResolves m cm st.fDigitStore.isSome raw.trigger = true) :
    ∃ st1, ReadTriggerDDL m (some cm) flag raw st = .ok (kTRUE, st1) := by
  obtain ⟨st1, h1⟩ := ddlLoop_returns m cm flag st.fDigitStore.isSome raw.trigger
    (st.call .triggerSetReader) hcb hs rfl
  exact ⟨st1, by simp [ReadTriggerDDL, h1]⟩

theorem foldl_SetGlobal_global (l : List AliMUONGlobalTrigger) :
    ∀ ts : AliMUONVTriggerStore,
      (l.foldl AliMUONVTriggerStore.SetGlobal ts).global = l.getLast?.or ts.global := by
  induction l with
  | nil => intro ts; simp
  | cons g rest ih =>
    intro ts
    rw [List.foldl_cons, ih]
    cases rest with
    | nil => simp [AliMUONVTriggerStore.SetGlobal]
    | cons g1 rest1 =>
      obtain ⟨x, hx⟩ : ∃ x, (g1 :: rest1).getLast? = some x :=
        ⟨_, List.getLast?_eq_getLast _ (by simp)⟩
      rw [List.getLast?_cons_cons, hx]
      rfl

theorem maker_ReadTrackerDDL (self : AliMUONDigitMaker) (m : Mapping) (raw : RawEvent) :
    self.ReadTrackerDDL m raw =
      match ReadTrackerDDL m raw self.run with
      | .error e => .error e
      | .ok (v, st1) =>
        .ok (v,
          { self with
            fRawStreamTracker := ((self.fRawStreamTracker.SetReader raw).First).exhausted,
            fTrackerTimer := self.fTrackerTimer.Start.Stop,
            run := st1 }) := by
  unfold AliMUONDigitMaker.ReadTrackerDDL ReadTrackerDDL
  simp only [AliMUONRawStreamTracker.SetReader, AliMUONRawStreamTracker.First]
  cases trackerLoop m raw.tracker ((self.run.call .trackerSetReader).call .trackerFirst) with
  | error e => rfl
  | ok st1 => rfl

theorem maker_ReadTriggerDDL (self : AliMUONDigitMaker) (m : Mapping) (raw : RawEvent) :
    self.ReadTriggerDDL m raw =
      match ReadTriggerDDL m self.fCrateManager self.fMakeTriggerDigits raw self.run with
      | .error e => .error e
      | .ok (v, st1) =>
        .ok (v,
          { self with
            fRawStreamTrigger := (self.fRawStreamTrigger.SetReader raw).exhausted,
            fTriggerTimer := self.fTriggerTimer.Start.Stop,
            run := st1 }) := by
  unfold AliMUONDigitMaker.ReadTriggerDDL ReadTriggerDDL
  simp only [AliMUONRawStreamTrigger.SetReader]
  cases ddlLoop m self.fCrateManager self.fMakeTriggerDigits raw.trigger
      (self.run.call .triggerSetReader) with
  | error e => rfl
  | ok st1 => rfl

theorem maker_ReadTrackerDDL_settings (self : AliMUONDigitMaker) (m : Mapping) (raw : RawEvent)
    (r : Int) (o : AliMUONDigitMaker) (h : self.ReadTrackerDDL m raw = .ok (r, o)) :
    o.fMakeTriggerDigits = self.fMakeTriggerDigits ∧ o.fCrateManager = self.fCrateManager ∧
      ReadTrackerDDL m raw self.run = .ok (r, o.run) := by
  rw [maker_ReadTrackerDDL] at h
  cases hr : ReadTrackerDDL m raw self.run with
  | error e => simp [hr] at h
  | ok p =>
    simp only [hr, Except.ok.injEq, Prod.mk.injEq] at h
    obtain ⟨h1, h2⟩ := h
    subst h2
    subst h1
    exact ⟨rfl, rfl, rfl⟩

theorem maker_ReadTriggerDDL_settings (self : AliMUONDigitMaker) (m : Mapping) (raw : RawEvent)
    (r : Int) (o : AliMUONDigitMaker) (h : self.ReadTriggerDDL m raw = .ok (r, o)) :
    o.fMakeTriggerDigits = self.fMakeTriggerDigits ∧ o.fCrateManager = self.fCrateManager ∧
      ReadTriggerDDL m self.fCrateManager self.fMakeTriggerDigits raw self.run =
        .ok (r, o.run) := by
  rw [maker_ReadTriggerDDL] at h
  cases hr : ReadTriggerDDL m self.fCrateManager self.fMakeTriggerDigits raw self.run with
  | error e => simp [hr] at h
  | ok p =>
    simp only [hr, Except.ok.injEq, Prod.mk.injEq] at h
    obtain ⟨h1, h2⟩ := h
    subst h2
    subst h1
    exact ⟨rfl, rfl, rfl⟩

theorem maker_Raw2Digits_outcome (self : AliMUONDigitMaker) (m : Mapping) (raw : RawEvent)
    (d : Option AliMUONVDigitStore) (t : Option AliMUONVTriggerStore) :
    outcome (self.Raw2Digits m raw d t) =
      Raw2Digits m self.fCrateManager self.fMakeTriggerDigits raw d t := by
  unfold AliMUONDigitMaker.Raw2Digits Raw2Digits
  simp only [AliMUONDigitMaker.withRun]
  cases d with
  | none =>
    cases t with
    | none => rfl
    | some ts =>
      simp only [Option.isNone_none, Option.isNone_some, Bool.and_false, Bool.false_eq_true,
        if_false, Option.isSome_some, Bool.true_or, if_true, Bool.and_true]
      cases hflag : self.fMakeTriggerDigits with
      | true => rfl
      | false =>
        simp only [Bool.false_eq_true, if_false, maker_ReadTriggerDDL, hflag]
        cases ReadTriggerDDL m self.fCrateManager false raw
            ((St.mk none (some ts.Clear) [] []).call .triggerClear) with
        | error e => rfl
        | ok p => rfl
  | some ds =>
    simp only [Option.isNone_some, Bool.false_and, Bool.false_eq_true, if_false,
      maker_ReadTrackerDDL]
    cases ReadTrackerDDL m raw ((St.mk (some ds.Clear) t [] []).call .digitClear) with
    | error e => rfl
    | ok p =>
      obtain ⟨v, st1⟩ := p
      simp only
      by_cases hrun : (st1.fTriggerStore.isSome || self.fMakeTriggerDigits) = true
      · simp only [hrun, if_true]
        cases hts : st1.fTriggerStore with
        | none =>
          simp only
          by_cases hc : (self.fMakeTriggerDigits && st1.fDigitStore.isNone) = true
          · simp only [hc, if_true]
            rfl
          · simp only [hc, if_false, maker_ReadTriggerDDL]
            cases ReadTriggerDDL m self.fCrateManager self.fMakeTriggerDigits raw st1 with
            | error e => rfl
            | ok q => rfl
        | some ts =>
          simp only
          by_cases hc : (self.fMakeTriggerDigits && st1.fDigitStore.isNone) = true
          · have hc1 : (self.fMakeTriggerDigits &&
                (({ st1 with fTriggerStore := some ts.Clear } : St).call
                  .triggerClear).fDigitStore.isNone) = true := hc
            simp only [hc1, if_true]
            rfl
          · have hc1 : ¬ (self.fMakeTriggerDigits &&
                (({ st1 with fTriggerStore := some ts.Clear } : St).call
                  .triggerClear).fDigitStore.isNone) = true := hc
            simp only [hc1, if_false, maker_ReadTriggerDDL]
            cases ReadTriggerDDL m self.fCrateManager self.fMakeTriggerDigits raw
                (({ st1 with fTriggerStore := some ts.Clear } : St).call .triggerClear) with
            | error e => rfl
            | ok q => rfl
      · simp only [hrun, if_false]
        rfl

theorem maker_Raw2Digits_keeps (self : AliMUONDigitMaker) (m : Mapping) (raw : RawEvent)
    (d : Option AliMUONVDigitStore) (t : Option AliMUONVTriggerStore) :
    keepsSettings self (self.Raw2Digits m raw d t) := by
  unfold AliMUONDigitMaker.Raw2Digits
  simp only [AliMUONDigitMaker.withRun]
  cases d with
  | none =>
    cases t with
    | none => exact ⟨rfl, rfl⟩
    | some ts =>
      simp only [Option.isNone_none, Option.isNone_some, Bool.and_false, Bool.false_eq_true,
        if_false, Option.isSome_some, Bool.true_or, if_true, Bool.and_true]
      cases hflag : self.fMakeTriggerDigits with
      | true => exact ⟨hflag.symm, rfl⟩
      | false =>
        simp only [Bool.false_eq_true, if_false, maker_ReadTriggerDDL, hflag]
        cases ReadTriggerDDL m self.fCrateManager false raw
            ((St.mk none (some ts.Clear) [] []).call .triggerClear) with
        | error e => trivial
        | ok p => exact ⟨hflag.symm, rfl⟩
  | some ds =>
    simp only [Option.isNone_some, Bool.false_and, Bool.false_eq_true, if_false,
      maker_ReadTrackerDDL]
    cases ReadTrackerDDL m raw ((St.mk (some ds.Clear) t [] []).call .digitClear) with
    | error e => trivial
    | ok p =>
      obtain ⟨v, st1⟩ := p
      simp only
      by_cases hrun : (st1.fTriggerStore.isSome || self.fMakeTriggerDigits) = true
      · simp only [hrun, if_true]
        cases hts : st1.fTriggerStore with
        | none =>
          simp only
          by_cases hc : (self.fMakeTriggerDigits && st1.fDigitStore.isNone) = true
          · simp only [hc, if_true]
            exact ⟨rfl, rfl⟩
          · simp only [hc, if_false, maker_ReadTriggerDDL]
            cases ReadTriggerDDL m self.fCrateManager self.fMakeTriggerDigits raw st1 with
            | error e => trivial
            | ok q => exact ⟨rfl, rfl⟩
        | some ts =>
          simp only
          by_cases hc : (self.fMakeTriggerDigits && st1.fDigitStore.isNone) = true
          · have hc1 : (self.fMakeTriggerDigits &&
                (({ st1 with fTriggerStore := some ts.Clear } : St).call
                  .triggerClear).fDigitStore.isNone) = true := hc
            simp only [hc1, if_true]
            exact ⟨rfl, rfl⟩
          · have hc1 : ¬ (self.fMakeTriggerDigits &&
                (({ st1 with fTriggerStore := some ts.Clear } : St).call
                  .triggerClear).fDigitStore.isNone) = true := hc
            simp only [hc1, if_false, maker_ReadTriggerDDL]
            cases ReadTriggerDDL m self.fCrateManager self.fMakeTriggerDigits raw
                (({ st1 with fTriggerStore := some ts.Clear } : St).call .triggerClear) with
            | error e => trivial
            | ok q => exact ⟨rfl, rfl⟩
      · simp only [hrun, if_false]
        exact ⟨rfl, rfl⟩

theorem maker_Raw2Digits_settings (self : AliMUONDigitMaker) (m : Mapping) (raw : RawEvent)
    (d : Option AliMUONVDigitStore) (t : Option AliMUONVTriggerStore)
    (r : Int) (o : AliMUONDigitMaker) (h : self.Raw2Digits m raw d t = .ok (r, o)) :
    o.fMakeTriggerDigits = self.fMakeTriggerDigits ∧ o.fCrateManager = self.fCrateManager := by
  have hk := maker_Raw2Digits_keeps self m raw d t
  rw [h] at hk
  exact hk

/-! ## The claims -/

/-- C1: with both stores null, `Raw2Digits` returns `kFALSE`, which is 0, for
every event and either value of the trigger-digit flag; no call is made on a
raw stream or on a store, and the only trace of the run is the error message. -/
theorem Raw2Digits_no_store (m : Mapping) (fCrateManager : Option AliMUONTriggerCrateStore)
    (fMakeTriggerDigits : Bool) (raw : RawEvent) :
    Raw2Digits m fCrateManager fMakeTriggerDigits raw none none =
      .ok (kFALSE, { fDigitStore := none, fTriggerStore := none, calls := [],
                     reports := [.errNoStore] }) ∧ kFALSE = 0 :=
  ⟨rfl, rfl⟩

/-- C2 (what the code does): with the trigger-digit flag set, no digit store
and a trigger store, `Raw2Digits` reports the error, skips the trigger decoding,
but has cleared the trigger store before and returns `kTRUE`, the success
value, which differs from `kFALSE`. -/
theorem Raw2Digits_trigger_digits_without_digit_store (m : Mapping)
    (fCrateManager : Option AliMUONTriggerCrateStore) (raw : RawEvent)
    (ts : AliMUONVTriggerStore) :
    Raw2Digits m fCrateManager true raw none (some ts) =
      .ok (kTRUE, { fDigitStore := none, fTriggerStore := some { global := none, locals := [] },
                    calls := [.triggerClear], reports := [.errNoDigitStore] }) ∧
      kTRUE ≠ kFALSE :=
  ⟨rfl, by decide⟩

/-- C3 (as stated, refuted): two samples with a valid pad on the same channel
leave one digit, that of the first; the second valid sample has none. -/
theorem ReadTrackerDDL_duplicate_sample_no_digit :
    validPad Example.mapping Example.sample99 = true ∧
    ∃ st1, ReadTrackerDDL Example.mapping
        { tracker := [Example.sample87, Example.sample99], trigger := [] } Example.emptyState =
        .ok (kTRUE, st1) ∧
      st1.digits = [{ detElemId := 103, manuId := 12, manuChannel := 5, cathode := 0,
                      padXY := some (4, 9), adc := some 87, charge := none }] :=
  ⟨by decide, _, rfl, by decide⟩

/-- C3 (amended): when every sample has a segmentation and the samples with a
valid pad carry pairwise distinct keys, `ReadTrackerDDL` run on an empty digit
store returns and leaves exactly one digit per sample with a valid pad, in
stream order: keyed by the detector element of the bus patch, the manu, the
channel and the cathode of the plane, placed on the pad of the mapping, with
the charge of the sample as ADC value. -/
theorem ReadTrackerDDL_one_digit_per_valid_sample (m : Mapping) (raw : RawEvent) (st : St)
    (hst : st.fDigitStore = some { digits := [] })
    (hseg : ∀ s ∈ raw.tracker, hasSegmentation m s = true)
    (hkeys : ((expectedDigits m raw.tracker).map AliMUONVDigit.key).Nodup) :
    ∃ st1, ReadTrackerDDL m raw st = .ok (kTRUE, st1) ∧
      st1.fDigitStore = some { digits := expectedDigits m raw.tracker } := by
  obtain ⟨st1, hrun, hs1⟩ := trackerLoop_distinct m raw.tracker
    ((st.call .trackerSetReader).call .trackerFirst) [] hst hseg (by simpa using hkeys)
  exact ⟨st1, by simp [ReadTrackerDDL, hrun], by simpa using hs1⟩

/-- C3 witness: the sample (link 3, chip 12, channel 5, amplitude 87), mapped
to pad (4, 9) on detector element 103, yields exactly one digit. -/
theorem ReadTrackerDDL_one_digit_per_valid_sample_witness :
    ∃ st1, ReadTrackerDDL Example.mapping { tracker := [Example.sample87], trigger := [] }
        Example.emptyState = .ok (kTRUE, st1) ∧
      st1.fDigitStore = some { digits :=
        [{ detElemId := 103, manuId := 12, manuChannel := 5, cathode := 0,
           padXY := some (4, 9), adc := some 87, charge := none }] } :=
  ReadTrackerDDL_one_digit_per_valid_sample Example.mapping
    { tracker := [Example.sample87], trigger := [] } Example.emptyState rfl
    (by decide) (by decide)

/-- C4 (as stated, refuted): a stream with three samples with a valid pad, two
of them on the same channel, leaves two digits in the store. -/
theorem ReadTrackerDDL_count_below_valid_samples :
    [Example.sample87, Example.sampleNoPad, Example.sample99, Example.sample40].countP
        (validPad Example.mapping) = 3 ∧
    ∃ st1, ReadTrackerDDL Example.mapping
        { tracker := [Example.sample87, Example.sampleNoPad, Example.sample99, Example.sample40],
          trigger := [] } Example.emptyState = .ok (kTRUE, st1) ∧
      st1.digits.length = 2 :=
  ⟨by decide, _, rfl, by decide⟩

/-- C4 (amended): samples with an invalid pad produce no digit: two tracker
streams that differ only by samples with an invalid pad (inserted, removed or
moved) end with the same digit store, or with the same fault; and when the run
starts on an empty store, every sample has a segmentation and the samples with
a valid pad carry pairwise distinct keys, the number of digits in the store
afterwards is the number of samples with a valid pad. -/
theorem ReadTrackerDDL_invalid_pads_ignored (m : Mapping) (raw raw' : RawEvent) (st : St)
    (hsame : raw.tracker.filter (fun s => !invalidPad m s) =
      raw'.tracker.filter (fun s => !invalidPad m s)) :
    resultDigits (ReadTrackerDDL m raw st) = resultDigits (ReadTrackerDDL m raw' st) ∧
    (st.fDigitStore = some { digits := [] } →
      (∀ s ∈ raw.tracker, hasSegmentation m s = true) →
      ((expectedDigits m raw.tracker).map AliMUONVDigit.key).Nodup →
      ∃ st1, ReadTrackerDDL m raw st = .ok (kTRUE, st1) ∧
        st1.digits.length = raw.tracker.countP (validPad m)) := by
  constructor
  · have h1 := trackerLoop_filter m raw.tracker ((st.call .trackerSetReader).call .trackerFirst)
    have h2 := trackerLoop_filter m raw'.tracker ((st.call .trackerSetReader).call .trackerFirst)
    rw [hsame] at h1
    have h3 := h1.symm.trans h2
    unfold ReadTrackerDDL
    cases hl : trackerLoop m raw.tracker ((st.call .trackerSetReader).call .trackerFirst) with
    | error e =>
      cases hl' : trackerLoop m raw'.tracker ((st.call .trackerSetReader).call .trackerFirst) with
      | error e' => rw [hl, hl'] at h3; simpa [stateDigits, resultDigits] using h3
      | ok st2 => rw [hl, hl'] at h3; simp [stateDigits] at h3
    | ok st1 =>
      cases hl' : trackerLoop m raw'.tracker ((st.call .trackerSetReader).call .trackerFirst) with
      | error e' => rw [hl, hl'] at h3; simp [stateDigits] at h3
      | ok st2 => rw [hl, hl'] at h3; simpa [stateDigits, resultDigits] using h3
  · intro hst hseg hkeys
    obtain ⟨st1, hrun, hs1⟩ := trackerLoop_distinct m raw.tracker
      ((st.call .trackerSetReader).call .trackerFirst) [] hst hseg (by simpa using hkeys)
    refine ⟨st1, by simp [ReadTrackerDDL, hrun], ?_⟩
    simp [St.digits, hs1, expectedDigits_length]

/-- C4 witness: a stream with an invalid-pad sample in the middle and the same
stream without it. -/
theorem ReadTrackerDDL_invalid_pads_ignored_witness :
    resultDigits (ReadTrackerDDL Example.mapping
        { tracker := [Example.sample87, Example.sampleNoPad, Example.sample40], trigger := [] }
        Example.emptyState) =
      resultDigits (ReadTrackerDDL Example.mapping
        { tracker := [Example.sampleNoPad, Example.sample87, Example.sample40,
            Example.sampleNoPad], trigger := [] } Example.emptyState) ∧
    ∃ st1, ReadTrackerDDL Example.mapping
        { tracker := [Example.sample87, Example.sampleNoPad, Example.sample40], trigger := [] }
        Example.emptyState = .ok (kTRUE, st1) ∧ st1.digits.length = 2 :=
  have h := ReadTrackerDDL_invalid_pads_ignored Example.mapping
    { tracker := [Example.sample87, Example.sampleNoPad, Example.sample40], trigger := [] }
    { tracker := [Example.sampleNoPad, Example.sample87, Example.sample40,
        Example.sampleNoPad], trigger := [] } Example.emptyState (by decide)
  ⟨h.1, h.2 rfl (by decide) (by decide)⟩

/-- C5 (as stated, refuted): on a stream of two samples with valid pads on
distinct channels, `ReadTrackerDDL` inserts two digits and returns 1. -/
theorem ReadTrackerDDL_value_is_not_digit_count :
    ∃ st1, ReadTrackerDDL Example.mapping
        { tracker := [Example.sample87, Example.sample40], trigger := [] } Example.emptyState =
        .ok (1, st1) ∧ insertedCount Example.emptyState st1 = 2 :=
  ⟨_, rfl, by decide⟩

/-- C5 (amended): the value `ReadTrackerDDL` returns is the constant `kTRUE`,
whatever the number of digits inserted: it returns nothing else, and it does
return whenever the digit store is not null and every sample has a
segmentation. -/
theorem ReadTrackerDDL_returns_kTRUE (m : Mapping) (raw : RawEvent) (st : St) :
    (∀ r st1, ReadTrackerDDL m raw st = .ok (r, st1) → r = kTRUE) ∧
    (st.fDigitStore.isSome = true → (∀ s ∈ raw.tracker, hasSegmentation m s = true) →
      ∃ st1, ReadTrackerDDL m raw st = .ok (kTRUE, st1)) := by
  refine ⟨fun r st1 h => ReadTrackerDDL_ok_value m raw st r st1 h, fun hst hseg => ?_⟩
  obtain ⟨st1, hrun, _, _⟩ := trackerLoop_total m raw.tracker
    ((st.call .trackerSetReader).call .trackerFirst) hst hseg
  exact ⟨st1, by simp [ReadTrackerDDL, hrun]⟩

/-- C5 witness: a stream of three samples, one without a valid pad. -/
theorem ReadTrackerDDL_returns_kTRUE_witness :
    ∃ st1, ReadTrackerDDL Example.mapping
        { tracker := [Example.sample87, Example.sampleNoPad, Example.sample40], trigger := [] }
        Example.emptyState = .ok (kTRUE, st1) :=
  (ReadTrackerDDL_returns_kTRUE Example.mapping
    { tracker := [Example.sample87, Example.sampleNoPad, Example.sample40], trigger := [] }
    Example.emptyState).2 rfl (by decide)

/-- C6 (what the code does): with both stores supplied `Raw2Digits` does not
return `kTRUE` for every event.  The example event, with a sample without a
valid pad, a sample denied by the store, a pattern bit without a valid pad and
a trigger digit denied by the store, is decoded with the result `kTRUE` and
the four messages; the same event with one more sample, on a detector element
without a segmentation, ends with a null pointer fault and returns no value. -/
theorem Raw2Digits_fault_instead_of_kTRUE :
    (Raw2Digits Example.mapping (some Example.crates) true Example.softEvent
        (some { digits := [] }) (some { global := none, locals := [] })).toOption.map
          (fun p => (p.1, p.2.reports)) =
      some (kTRUE, [.errNoPad 103 12 9, .errNotAdded 103 12 5, .warnNoPad 1000 7 13,
        .errTriggerNotAdded 1000 7 0 0]) ∧
    Example.softNoSegEvent.tracker = Example.softEvent.tracker ++ [Example.sampleNoSeg] ∧
    Example.softNoSegEvent.trigger = Example.softEvent.trigger ∧
    hasSegmentation Example.mapping Example.sampleNoSeg = false ∧
    Raw2Digits Example.mapping (some Example.crates) true Example.softNoSegEvent
        (some { digits := [] }) (some { global := none, locals := [] }) =
      .error .nullPointer :=
  ⟨by decide, rfl, rfl, by decide, by decide⟩

/-- C7: with a trigger store present, whenever `ReadTriggerDDL` returns,
`SetGlobal` has been called once per DDL section that carries the global flag,
in stream order, with the record built from the global output of that section,
and not at all without a flagged section; the store, which has a single slot
for the global record, holds what these calls of `SetGlobal` leave there: the
record of the last flagged section, and the record it held before when no
section carries the flag.  The decoder returns whenever all crates and boards
are resolvable and, when trigger digits are made, their synthesis does not
fault: its lookups resolve and, with a null digit store, no set bit has a valid
pad. -/
theorem ReadTriggerDDL_global_last_wins (m : Mapping)
    (fCrateManager : Option AliMUONTriggerCrateStore) (fMakeTriggerDigits : Bool)
    (raw : RawEvent) (st : St) (ts : AliMUONVTriggerStore)
    (hts : st.fTriggerStore = some ts) :
    (∀ r st1, ReadTriggerDDL m fCrateManager fMakeTriggerDigits raw st = .ok (r, st1) →
      ∃ ts1, st1.fTriggerStore = some ts1 ∧
        ts1.global = (flaggedGlobals raw.trigger).getLast?.or ts.global ∧
        setGlobalCalls st1.calls = setGlobalCalls st.calls ++ flaggedGlobals raw.trigger ∧
        ts1.global =
          ((flaggedGlobals raw.trigger).foldl AliMUONVTriggerStore.SetGlobal ts).global) ∧
    (∀ cm, fCrateManager = some cm → cratesAndBoardsResolve cm raw.trigger = true →
      (fMakeTriggerDigits = true →
        synthesisResolves m cm st.fDigitStore.isSome raw.trigger = true) →
      ∃ st1, ReadTriggerDDL m fCrateManager fMakeTriggerDigits raw st = .ok (kTRUE, st1)) := by
  refine ⟨fun r st1 h => ?_, fun cm hcm h1 h2 => ?_⟩
  · unfold ReadTriggerDDL at h
    cases hl : ddlLoop m fCrateManager fMakeTriggerDigits raw.trigger
        (st.call .triggerSetReader) with
    | error e => simp [hl] at h
    | ok st2 =>
      simp only [hl, Except.ok.injEq, Prod.mk.injEq] at h
      obtain ⟨ts1, h1, h2, h3⟩ := ddlLoop_global m fCrateManager fMakeTriggerDigits raw.trigger
        (st.call .triggerSetReader) st2 ts hl hts
      rw [← h.2]
      refine ⟨ts1, h1, h2, ?_, ?_⟩
      · rw [h3]
        simp [St.call, setGlobalCalls_append, setGlobalCalls]
      · rw [h2, foldl_SetGlobal_global]
  · rw [hcm]
    exact ReadTriggerDDL_returns m cm fMakeTriggerDigits raw st h1 h2

/-- C7 witness: three DDL sections, the first two flagged with the global
outputs 3 and 9, the third not flagged: the store ends with the record of 9
and `SetGlobal` was called with 3 and then with 9; and a run with trigger
digits asked for and a null digit store, on two flagged sections, that returns
with the record of 9 as well. -/
theorem ReadTriggerDDL_global_last_wins_witness :
    (∃ st1 ts1, ReadTriggerDDL Example.mapping (some Example.crates) true Example.softEvent
        Example.emptyState = .ok (kTRUE, st1) ∧ st1.fTriggerStore = some ts1 ∧
      ts1.global = some { response := 9 } ∧
      setGlobalCalls st1.calls = [{ response := 3 }, { response := 9 }]) ∧
    (∃ st1 ts1, ReadTriggerDDL Example.mapping (some Example.crates) true Example.quietEvent
        Example.noDigitState = .ok (kTRUE, st1) ∧ st1.fTriggerStore = some ts1 ∧
      st1.fDigitStore = none ∧ ts1.global = some { response := 9 } ∧
      setGlobalCalls st1.calls = [{ response := 3 }, { response := 9 }]) := by
  constructor
  · have h := ReadTriggerDDL_global_last_wins Example.mapping (some Example.crates) true
      Example.softEvent Example.emptyState { global := none, locals := [] } rfl
    obtain ⟨st1, h1⟩ := h.2 Example.crates rfl (by decide) (fun _ => by decide)
    obtain ⟨ts1, h2, h3, h4, _⟩ := h.1 kTRUE st1 h1
    exact ⟨st1, ts1, h1, h2, h3, h4⟩
  · have h := ReadTriggerDDL_global_last_wins Example.mapping (some Example.crates) true
      Example.quietEvent Example.noDigitState { global := none, locals := [] } rfl
    obtain ⟨st1, h1⟩ := h.2 Example.crates rfl (by decide) (fun _ => by decide)
    obtain ⟨ts1, h2, h3, h4, _⟩ := h.1 kTRUE st1 h1
    have h5 : (ReadTriggerDDL Example.mapping (some Example.crates) true Example.quietEvent
        Example.noDigitState).toOption.map (fun p => p.2.fDigitStore) = some none := by
      decide
    rw [h1] at h5
    simp only [Except.toOption, Option.map_some', Option.some.injEq] at h5
    exact ⟨st1, ts1, h1, h2, h5, h3, h4⟩

/-- C8: a local struct whose resolved board has board number 0 contributes
nothing: the loop body leaves the state as it is (no local trigger record, no
trigger digit, no call on a store), whatever the patterns and the trigger-digit
flag; and the whole run of `ReadTriggerDDL` on any stream is the run on the
stream in which every such struct is replaced by a null entry. -/
theorem ReadTriggerDDL_copy_cards_contribute_nothing (m : Mapping)
    (cm : AliMUONTriggerCrateStore) (fMakeTriggerDigits : Bool) (raw : RawEvent) (st : St) :
    (∀ boards ls, isCopyCard boards ls = true →
      localStep m cm fMakeTriggerDigits boards (some ls) st = .ok st) ∧
    ReadTriggerDDL m (some cm) fMakeTriggerDigits
        { raw with trigger := raw.trigger.map (dropCopyDDL cm) } st =
      ReadTriggerDDL m (some cm) fMakeTriggerDigits raw st := by
  refine ⟨fun boards ls h => localStep_copyCard m cm fMakeTriggerDigits boards ls st h, ?_⟩
  unfold ReadTriggerDDL
  rw [ddlLoop_dropCopy]

/-- C8 witness: the copy card of the example crate, all its patterns full, with
trigger digits asked for. -/
theorem ReadTriggerDDL_copy_cards_contribute_nothing_witness :
    isCopyCard [none, some Example.board7, some Example.board9, some Example.copyBoard]
        Example.localCopy = true ∧
    localStep Example.mapping Example.crates true
        [none, some Example.board7, some Example.board9, some Example.copyBoard]
        (some Example.localCopy) Example.emptyState = .ok Example.emptyState :=
  ⟨by decide,
   (ReadTriggerDDL_copy_cards_contribute_nothing Example.mapping Example.crates true
      Example.softEvent Example.emptyState).1 _ _ (by decide)⟩

/-- C9 (what the code does): a region without a crate is not skipped; after
the warning the null crate pointer is used and the run ends with a null pointer
fault, although the region holds no local struct and the same stream without
it is decoded to the end. -/
theorem ReadTriggerDDL_missing_crate_faults :
    Example.crates.Crate 0 1 = none ∧
    ReadTriggerDDL Example.mapping (some Example.crates) true Example.missingCrateEvent
        Example.emptyState = .error .nullPointer ∧
    Raw2Digits Example.mapping (some Example.crates) true Example.missingCrateEvent
        (some { digits := [] }) (some { global := none, locals := [] }) =
      .error .nullPointer ∧
    (ReadTriggerDDL Example.mapping (some Example.crates) true Example.oneCrateEvent
        Example.emptyState).toOption.map (fun p => (p.1, p.2.fTriggerStore)) =
      some (kTRUE, some (AliMUONVTriggerStore.mk none
        [{ loCircuit := 7, localStruct := Example.local7 }])) :=
  ⟨rfl, rfl, rfl, by decide⟩

/-- C10 (what the code does): a sample without a segmentation is not skipped;
the segmentation pointer is used unchecked and the run ends with a null pointer
fault, so the valid sample after it gets no digit. -/
theorem ReadTrackerDDL_no_segmentation_faults :
    hasSegmentation Example.mapping Example.sampleNoSeg = false ∧
    validPad Example.mapping Example.sample87 = true ∧
    ReadTrackerDDL Example.mapping
        { tracker := [Example.sampleNoSeg, Example.sample87], trigger := [] }
        Example.emptyState = .error .nullPointer ∧
    Raw2Digits Example.mapping (some Example.crates) false
        { tracker := [Example.sampleNoSeg, Example.sample87], trigger := [] }
        (some { digits := [] }) none = .error .nullPointer :=
  ⟨by decide, by decide, rfl, rfl⟩

/-- C11: for every 16-bit pattern `p`, stored in the signed 16-bit cell and
widened to `Int_t`, the test of `TriggerDigits` at position `i` in 0..15 holds
exactly when bit `i` of `p` is set; the positions treated as set are those
bits in ascending order, their number is the number of binary digits 1 of `p`,
and the loop over the 16 positions does what it does at these positions alone. -/
theorem TriggerDigits_bit_positions (p : Nat) (hp : p < 65536) :
    (∀ i, i < 16 → bitSet (toShort p) i = p.testBit i) ∧
    setPositions (toShort p) = (List.range 16).filter (fun i => p.testBit i) ∧
    (setPositions (toShort p)).Pairwise (fun i j => i < j) ∧
    (setPositions (toShort p)).length = (Nat.digits 2 p).sum ∧
    (∀ seg localBoard detElemId nBoard iCath s,
      forEach (bitStep seg localBoard detElemId nBoard iCath (toShort p)) (List.range 16) s =
        forEach (bitStep seg localBoard detElemId nBoard iCath (toShort p))
          (setPositions (toShort p)) s) := by
  have hmod : p % 65536 = p := Nat.mod_eq_of_lt hp
  have hbit : ∀ i, i < 16 → bitSet (toShort p) i = p.testBit i := by
    intro i hi
    rw [bitSet_toShort p i hi, hmod]
  have hpos : setPositions (toShort p) = (List.range 16).filter (fun i => p.testBit i) := by
    unfold setPositions
    apply List.filter_congr
    intro i hi
    exact hbit i (List.mem_range.mp hi)
  refine ⟨hbit, hpos, ?_, ?_, ?_⟩
  · unfold setPositions
    exact List.Pairwise.filter _ (List.pairwise_lt_range 16)
  · rw [hpos]
    exact filter_testBit_length 16 p hp
  · intro seg localBoard detElemId nBoard iCath s
    unfold setPositions
    rw [forEach_filter_of_skip]
    intro i t hi
    simp [bitStep, hi]

/-- C11 witness: the pattern 0xFFFF is stored as -1 and yields the 16 positions
0 to 15; the pattern 0 yields no position. -/
theorem TriggerDigits_bit_positions_witness :
    toShort 0xFFFF = -1 ∧
    setPositions (toShort 0xFFFF) = [0, 1, 2, 3, 4, 5, 6, 7, 8, 9, 10, 11, 12, 13, 14, 15] ∧
    (setPositions (toShort 0xFFFF)).length = 16 ∧
    setPositions (toShort 0) = [] :=
  ⟨by decide,
   (TriggerDigits_bit_positions 0xFFFF (by decide)).2.1.trans (by decide),
   (TriggerDigits_bit_positions 0xFFFF (by decide)).2.2.2.1.trans (by norm_num),
   (TriggerDigits_bit_positions 0 (by decide)).2.1.trans (by decide)⟩

/-- C12: when the board is known to the crate store, every pad lookup is valid
and the store accepts every insertion (no key is met twice), `TriggerDigits`
returns and adds exactly one digit per set bit of each of the eight pattern
words, none for a zero word, in the order of the loops: the digit of bit `i` of
slot `iChamber` on cathode `iCath` is keyed (DetElemId(iChamber+10, board
name), nBoard, i, iCath) and has charge 1; their number is the number of
set bits of the eight words. -/
theorem TriggerDigits_one_digit_per_set_bit (m : Mapping) (cm : AliMUONTriggerCrateStore)
    (nBoard : Int) (localBoard : AliMUONLocalTriggerBoard) (xyPattern : XYPattern) (s : Sink)
    (hb : cm.LocalBoard nBoard = some localBoard)
    (hvalid : padsValid m localBoard nBoard xyPattern = true)
    (hfresh : ((s.store.digits ++ expectedTriggerDigits m localBoard nBoard xyPattern).map
      AliMUONVDigit.key).Nodup) :
    ∃ s1, TriggerDigits m (some cm) nBoard xyPattern s = .ok (kTRUE, s1) ∧
      s1.store.digits = s.store.digits ++ expectedTriggerDigits m localBoard nBoard xyPattern ∧
      (expectedTriggerDigits m localBoard nBoard xyPattern).length =
        (allSetPositions xyPattern).length := by
  obtain ⟨s1, h1, h2⟩ := TriggerDigits_insert m cm nBoard localBoard xyPattern s hb hvalid hfresh
  exact ⟨s1, h1, h2, expectedTriggerDigits_length m localBoard nBoard xyPattern hvalid⟩

/-- C12 witness: board 7, X pattern of the first slot 0x0001, every other
pattern 0, switch 6 unset: exactly one digit, for bit 0 on the detector element
of chamber 10, with charge 1. -/
theorem TriggerDigits_one_digit_per_set_bit_witness :
    mkXYPattern Example.local7 = { x := [1, 0, 0, 0], y := [0, 0, 0, 0] } ∧
    Example.board7.GetSwitch 6 = false ∧
    Example.mapping.DetElemId 10 Example.board7.GetName = 1000 ∧
    ∃ s1, TriggerDigits Example.mapping (some Example.crates) 7 (mkXYPattern Example.local7)
        { store := { digits := [] }, calls := [], reports := [] } = .ok (kTRUE, s1) ∧
      s1.store.digits = [{ detElemId := 1000, manuId := 7, manuChannel := 0, cathode := 0,
                           padXY := some (7, 0), adc := none, charge := some 1 }] := by
  obtain ⟨s1, h1, h2, _⟩ := TriggerDigits_one_digit_per_set_bit Example.mapping Example.crates 7
    Example.board7 (mkXYPattern Example.local7)
    { store := { digits := [] }, calls := [], reports := [] } rfl (by decide) (by decide)
  exact ⟨by decide, rfl, by decide, s1, h1, h2.trans (by decide)⟩

/-- C13: for a set bit `i` of a pattern word, the pad is looked up at channel
`i - 8` exactly when the cathode is 1 and switch 6 of the board is set, and at
channel `i` in every other case: the channel the code computes is that one,
the step depends on the segmentation through the pad at that location only,
and when that pad is valid and the store accepts the digit, the digit added
carries the indices of that pad. -/
theorem TriggerDigits_pad_lookup_location (seg : AliMpVSegmentation)
    (localBoard : AliMUONLocalTriggerBoard) (detElemId nBoard : Int) (iCath : Nat)
    (pattern : Int) (ibitxy : Nat) (s : Sink) (hc : iCath < 2)
    (hbit : bitSet pattern ibitxy = true) :
    ((ibitxy : Int) + bitOffset localBoard iCath = (ibitxy : Int) - 8 ↔
      (iCath = 1 ∧ localBoard.GetSwitch 6 = true)) ∧
    (¬(iCath = 1 ∧ localBoard.GetSwitch 6 = true) →
      (ibitxy : Int) + bitOffset localBoard iCath = (ibitxy : Int)) ∧
    (∀ seg1 : AliMpVSegmentation,
      seg1.PadByLocation nBoard ((ibitxy : Int) + bitOffset localBoard iCath) true =
        seg.PadByLocation nBoard ((ibitxy : Int) + bitOffset localBoard iCath) true →
      bitStep (some seg1) localBoard detElemId nBoard iCath pattern ibitxy s =
        bitStep (some seg) localBoard detElemId nBoard iCath pattern ibitxy s) ∧
    ((seg.PadByLocation nBoard ((ibitxy : Int) + bitOffset localBoard iCath) true).IsValid
        = true →
      (detElemId, nBoard, (ibitxy : Int), (iCath : Int)) ∉
        s.store.digits.map AliMUONVDigit.key →
      ∃ s1 d, bitStep (some seg) localBoard detElemId nBoard iCath pattern ibitxy s = .ok s1 ∧
        s1.store.digits = s.store.digits ++ [d] ∧
        d.padXY = some
          ((seg.PadByLocation nBoard ((ibitxy : Int) + bitOffset localBoard iCath) true).ix,
           (seg.PadByLocation nBoard ((ibitxy : Int) + bitOffset localBoard iCath)
             true).iy)) := by
  have hoff := bitOffset_eq localBoard iCath ibitxy hc
  refine ⟨?_, ?_, ?_, ?_⟩
  · rw [hoff]
    unfold lookupChannel
    by_cases h : iCath = 1 ∧ localBoard.GetSwitch 6 = true
    · simp [h]
    · simp only [h, if_false, iff_false]
      omega
  · intro h
    rw [hoff]
    simp [lookupChannel, h]
  · intro seg1 h
    rw [hoff] at h
    exact bitStep_seg_congr seg seg1 localBoard detElemId nBoard iCath pattern ibitxy s hc h
  · intro hvalid hfresh
    rw [hoff] at hvalid ⊢
    exact ⟨_, _, bitStep_insert seg localBoard detElemId nBoard iCath pattern ibitxy s hc hbit
      hvalid hfresh, rfl, rfl⟩

/-- C13 witness: board 9 has switch 6 set; bit 12 of the Y pattern 0x9100 is
looked up at channel 4 and the digit carries the pad (9, 4) found there. -/
theorem TriggerDigits_pad_lookup_location_witness :
    bitSet (toShort 0x9100) 12 = true ∧ Example.board9.GetSwitch 6 = true ∧
    ((12 : Int) + bitOffset Example.board9 1 = 4) ∧
    ∃ s1 d, bitStep (some Example.triggerSeg) Example.board9 1000 9 1 (toShort 0x9100) 12
        { store := { digits := [] }, calls := [], reports := [] } = .ok s1 ∧
      s1.store.digits = [d] ∧ d.padXY = some (9, 4) := by
  have h := TriggerDigits_pad_lookup_location Example.triggerSeg Example.board9 1000 9 1
    (toShort 0x9100) 12 { store := { digits := [] }, calls := [], reports := [] }
    (by decide) (by decide)
  obtain ⟨s1, d, h1, h2, h3⟩ := h.2.2.2 (by decide) (by decide)
  exact ⟨by decide, rfl, by decide, s1, d, h1, h2, h3.trans (by decide)⟩

/-- C19: for a bit index `i` in 0..15 and a cathode 0 or 1, the channel passed
to the pad lookup lies in -8..15 and is not negative when the cathode is 0
or switch 6 is unset; whatever the step does, the store is asked for, and a
digit added is keyed by, the bit index `i` itself; with the inversion active
(cathode 1, switch 6 set) the digit added for bit `i` is keyed by channel
`i` and carries the pad looked up at channel `i - 8`. -/
theorem TriggerDigits_lookup_channel_range (localBoard : AliMUONLocalTriggerBoard)
    (iCath ibitxy : Nat) (hc : iCath < 2) (hi : ibitxy < 16) :
    (-8 ≤ (ibitxy : Int) + bitOffset localBoard iCath ∧
      (ibitxy : Int) + bitOffset localBoard iCath ≤ 15) ∧
    ((iCath = 0 ∨ localBoard.GetSwitch 6 = false) →
      0 ≤ (ibitxy : Int) + bitOffset localBoard iCath) ∧
    (∀ seg detElemId nBoard pattern s s1,
      bitStep seg localBoard detElemId nBoard iCath pattern ibitxy s = .ok s1 →
      (s1.calls = s.calls ∨
        s1.calls = s.calls ++ [.digitAdd detElemId nBoard ibitxy iCath]) ∧
      (s1.store.digits = s.store.digits ∨
        ∃ d, s1.store.digits = s.store.digits ++ [d] ∧
          d.key = (detElemId, nBoard, (ibitxy : Int), (iCath : Int)))) ∧
    (∀ (seg : AliMpVSegmentation) detElemId nBoard pattern s,
      iCath = 1 → localBoard.GetSwitch 6 = true → bitSet pattern ibitxy = true →
      (seg.PadByLocation nBoard ((ibitxy : Int) - 8) true).IsValid = true →
      (detElemId, nBoard, (ibitxy : Int), (iCath : Int)) ∉
        s.store.digits.map AliMUONVDigit.key →
      bitStep (some seg) localBoard detElemId nBoard iCath pattern ibitxy s =
        .ok { s with
          store := { digits := s.store.digits ++
            [{ detElemId := detElemId, manuId := nBoard, manuChannel := ibitxy, cathode := 1,
               padXY := some ((seg.PadByLocation nBoard ((ibitxy : Int) - 8) true).ix,
                 (seg.PadByLocation nBoard ((ibitxy : Int) - 8) true).iy),
               adc := none, charge := some 1 }] },
          calls := s.calls ++ [.digitAdd detElemId nBoard ibitxy 1] }) := by
  have hoff := bitOffset_eq localBoard iCath ibitxy hc
  have hrange : -8 ≤ lookupChannel localBoard iCath ibitxy ∧
      lookupChannel localBoard iCath ibitxy ≤ 15 := by
    unfold lookupChannel
    split <;> omega
  refine ⟨by rw [hoff]; exact hrange, ?_, ?_, ?_⟩
  · intro h
    rw [hoff]
    unfold lookupChannel
    rcases h with h | h
    · simp [h]
    · simp [h]
  · intro seg detElemId nBoard pattern s s1 h
    exact bitStep_key_cases seg localBoard detElemId nBoard iCath pattern ibitxy s s1 h
  · intro seg detElemId nBoard pattern s h1 hsw hbit hvalid hfresh
    have hl : lookupChannel localBoard iCath ibitxy = (ibitxy : Int) - 8 := by
      simp [lookupChannel, h1, hsw]
    rw [← hl] at hvalid
    rw [bitStep_insert seg localBoard detElemId nBoard iCath pattern ibitxy s hc hbit hvalid
      hfresh]
    subst h1
    simp [triggerDigit, hl]

/-- C19 witness: board 9 (switch 6 set), cathode 1, bit 15 of the pattern
0x9100: the pad is looked up at channel 7 and the digit is keyed by channel
15. -/
theorem TriggerDigits_lookup_channel_range_witness :
    (15 : Int) + bitOffset Example.board9 1 = 7 ∧
    bitStep (some Example.triggerSeg) Example.board9 1000 9 1 (toShort 0x9100) 15
        { store := { digits := [] }, calls := [], reports := [] } =
      .ok { store := { digits :=
              [{ detElemId := 1000, manuId := 9, manuChannel := 15, cathode := 1,
                 padXY := some (9, 7), adc := none, charge := some 1 }] },
            calls := [.digitAdd 1000 9 15 1], reports := [] } :=
  ⟨by decide,
   ((TriggerDigits_lookup_channel_range Example.board9 1 15 (by decide) (by decide)).2.2.2
      Example.triggerSeg 1000 9 (toShort 0x9100)
      { store := { digits := [] }, calls := [], reports := [] } rfl rfl (by decide) (by decide)
      (by decide)).trans (by decide)⟩

/-- C18: for every region index in 0..7 and every DDL number, whatever the
buffer held, `GetCrateName` leaves the base name of the region ("1", "2",
"2-3", then the decimal index for 3 to 7) followed by "R" for DDL 0 and by "L"
for any other DDL; two distinct pairs of a DDL in 0..1 and a region in 0..7
get distinct names. -/
theorem GetCrateName_value (name : String) (iDDL iReg : Int) (h0 : 0 ≤ iReg) (h7 : iReg ≤ 7) :
    GetCrateName name iDDL iReg =
      crateBaseName iReg ++ (if iDDL = 0 then "R" else "L") ∧
    (∀ name1 iDDL1 iReg1, 0 ≤ iReg1 → iReg1 ≤ 7 → 0 ≤ iDDL → iDDL ≤ 1 → 0 ≤ iDDL1 → iDDL1 ≤ 1 →
      GetCrateName name1 iDDL1 iReg1 = GetCrateName name iDDL iReg →
      iDDL1 = iDDL ∧ iReg1 = iReg) := by
  have hval : ∀ (nm : String) (d r : Int), 0 ≤ r → r ≤ 7 →
      GetCrateName nm d r = crateBaseName r ++ (if d = 0 then "R" else "L") := by
    intro nm d r hr0 hr7
    unfold GetCrateName
    by_cases hd : d = 0
    · interval_cases r <;> simp [hd, crateBaseName] <;> decide
    · interval_cases r <;> simp [hd, crateBaseName] <;> decide
  refine ⟨hval name iDDL iReg h0 h7, ?_⟩
  intro name1 iDDL1 iReg1 hr0 hr7 hd0 hd1 hd0' hd1' heq
  rw [hval name iDDL iReg h0 h7, hval name1 iDDL1 iReg1 hr0 hr7] at heq
  interval_cases iDDL <;> interval_cases iDDL1 <;> interval_cases iReg <;>
    interval_cases iReg1 <;> first | exact ⟨rfl, rfl⟩ | (exact absurd heq (by decide))

/-- C18 witness: region 2 of DDL 1 is crate "2-3L", region 0 of DDL 0 is crate
"1R". -/
theorem GetCrateName_value_witness :
    GetCrateName "" 1 2 = "2-3L" ∧ GetCrateName "" 0 0 = "1R" :=
  ⟨(GetCrateName_value "" 1 2 (by decide) (by decide)).1.trans (by decide),
   (GetCrateName_value "" 0 0 (by decide) (by decide)).1.trans (by decide)⟩

/-- C15 (what the code does): a local struct whose board is missing from the
board array of its crate is not skipped; the null board pointer is used
unchecked and the run ends with a null pointer fault, so the local struct of
board 7 that follows it in the same region gets no record and no digit. -/
theorem ReadTriggerDDL_missing_board_faults :
    TObjArrayAt [none, some Example.board7, some Example.board9, some Example.copyBoard]
        (Example.localNoBoard.id + 1) = none ∧
    ReadTriggerDDL Example.mapping (some Example.crates) true Example.missingBoardEvent
        Example.emptyState = .error .nullPointer ∧
    ReadTriggerDDL Example.mapping (some Example.crates) false Example.missingBoardEvent
        Example.emptyState = .error .nullPointer ∧
    Raw2Digits Example.mapping (some Example.crates) true Example.missingBoardEvent
        (some { digits := [] }) (some { global := none, locals := [] }) =
      .error .nullPointer :=
  ⟨rfl, rfl, rfl, rfl⟩

/-- C14: decoding is deterministic.  Take two digit makers with the same
make-trigger-digits flag and the same crate store; what else they hold from
earlier calls (the store members, the trace, the streams in the middle of
another event, the stopwatches) may differ.  Called with the same mapping on
the same event, each into a freshly cleared digit store and a freshly cleared
trigger store, the two end alike: they return the same value and leave the same
digits, the same global record and the same local records, or they end with the
same fault.  A call leaves the flag and the crate store as they were, and a
second call on the object the first call has left behind, again into fresh
stores, gives what the first call gave. -/
theorem Raw2Digits_deterministic (m : Mapping) (raw : RawEvent)
    (self self1 : AliMUONDigitMaker) (ds ds1 : AliMUONVDigitStore)
    (ts ts1 : AliMUONVTriggerStore)
    (hflag : self1.fMakeTriggerDigits = self.fMakeTriggerDigits)
    (hcm : self1.fCrateManager = self.fCrateManager)
    (hds : ds.digits = []) (hds1 : ds1.digits = [])
    (hts : ts.global = none ∧ ts.locals = []) (hts1 : ts1.global = none ∧ ts1.locals = []) :
    outcome (self.Raw2Digits m raw (some ds) (some ts)) =
      outcome (self1.Raw2Digits m raw (some ds1) (some ts1)) ∧
    (∀ r o r1 o1,
      self.Raw2Digits m raw (some ds) (some ts) = .ok (r, o) →
      self1.Raw2Digits m raw (some ds1) (some ts1) = .ok (r1, o1) →
      r = r1 ∧ o.run.digits = o1.run.digits ∧ o.run.global = o1.run.global ∧
        o.run.locals = o1.run.locals) ∧
    (∀ r o, self.Raw2Digits m raw (some ds) (some ts) = .ok (r, o) →
      o.fMakeTriggerDigits = self.fMakeTriggerDigits ∧
      o.fCrateManager = self.fCrateManager ∧
      outcome (o.Raw2Digits m raw (some ds1) (some ts1)) = .ok (r, o.run)) := by
  have hd : ds = ds1 := by
    cases ds
    cases ds1
    simp only at hds hds1
    rw [hds, hds1]
  have ht : ts = ts1 := by
    cases ts
    cases ts1
    simp only at hts hts1
    rw [hts.1, hts.2, hts1.1, hts1.2]
  have hout : outcome (self.Raw2Digits m raw (some ds) (some ts)) =
      outcome (self1.Raw2Digits m raw (some ds1) (some ts1)) := by
    rw [maker_Raw2Digits_outcome, maker_Raw2Digits_outcome, hflag, hcm, hd, ht]
  refine ⟨hout, ?_, ?_⟩
  · intro r o r1 o1 h h1
    rw [h, h1] at hout
    simp only [outcome, Except.ok.injEq, Prod.mk.injEq] at hout
    rw [hout.1, hout.2]
    exact ⟨rfl, rfl, rfl, rfl⟩
  · intro r o h
    obtain ⟨h1, h2⟩ := maker_Raw2Digits_settings self m raw (some ds) (some ts) r o h
    refine ⟨h1, h2, ?_⟩
    rw [maker_Raw2Digits_outcome, h1, h2, ← hd, ← ht, ← maker_Raw2Digits_outcome, h]
    rfl

/-- C14 witness: the example event decoded by a new digit maker and by one
that holds the stores, the trace and the half-read streams of earlier calls,
each into fresh stores: both return `kTRUE` with the same six digits, the same
global record and the same three local records; and the new digit maker called
a second time gives them again. -/
theorem Raw2Digits_deterministic_witness :
    Example.usedMaker.run ≠ Example.newMaker.run ∧
    Example.usedMaker.fRawStreamTracker ≠ Example.newMaker.fRawStreamTracker ∧
    ∃ o, Example.newMaker.Raw2Digits Example.mapping Example.softEvent
        (some { digits := [] }) (some { global := none, locals := [] }) = .ok (kTRUE, o) ∧
      outcome (Example.usedMaker.Raw2Digits Example.mapping Example.softEvent
        (some { digits := [] }) (some { global := none, locals := [] })) =
          .ok (kTRUE, o.run) ∧
      outcome (o.Raw2Digits Example.mapping Example.softEvent
        (some { digits := [] }) (some { global := none, locals := [] })) =
          .ok (kTRUE, o.run) ∧
      o.run.digits.length = 6 ∧ o.run.global = some { response := 9 } ∧
      o.run.locals.length = 3 := by
  have h := Raw2Digits_deterministic Example.mapping Example.softEvent Example.newMaker
    Example.usedMaker { digits := [] } { digits := [] } { global := none, locals := [] }
    { global := none, locals := [] } rfl rfl rfl rfl ⟨rfl, rfl⟩ ⟨rfl, rfl⟩
  obtain ⟨st, hst⟩ := Raw2Digits_total Example.mapping (some Example.crates) true
    Example.softEvent (some { digits := [] }) (some { global := none, locals := [] })
    (Or.inl rfl) (by decide) (by decide)
  have hvals : (Raw2Digits Example.mapping (some Example.crates) true Example.softEvent
      (some { digits := [] }) (some { global := none, locals := [] })).toOption.map
        (fun p => (p.2.digits.length, p.2.global, p.2.locals.length)) =
      some (6, some { response := 9 }, 3) := by decide
  rw [hst] at hvals
  simp only [Except.toOption, Option.map_some', Option.some.injEq, Prod.mk.injEq] at hvals
  have hnew : outcome (Example.newMaker.Raw2Digits Example.mapping Example.softEvent
      (some { digits := [] }) (some { global := none, locals := [] })) = .ok (kTRUE, st) := by
    rw [maker_Raw2Digits_outcome]
    exact hst
  cases hr : Example.newMaker.Raw2Digits Example.mapping Example.softEvent
      (some { digits := [] }) (some { global := none, locals := [] }) with
  | error e => simp [hr, outcome] at hnew
  | ok p =>
    obtain ⟨v, o⟩ := p
    simp only [hr, outcome, Except.ok.injEq, Prod.mk.injEq] at hnew
    obtain ⟨hv, ho⟩ := hnew
    subst hv
    have h1 := h.1
    rw [hr] at h1
    refine ⟨by decide, by decide, o, rfl, h1.symm, (h.2.2 kTRUE o hr).2.2, ?_, ?_, ?_⟩
    · rw [ho]; exact hvals.1
    · rw [ho]; exact hvals.2.1
    · rw [ho]; exact hvals.2.2

/-- C17: what the stores hold before the call does not matter.  For each way
of supplying the stores, two runs of `Raw2Digits` that differ only in the
initial contents of the supplied stores end alike (same value, same final
stores, or same fault): the digit store is cleared before the tracker is
decoded and the trigger store before the trigger is decoded.  A store that is
not supplied stays null and no call is made on it. -/
theorem Raw2Digits_initial_contents_irrelevant (m : Mapping)
    (fCrateManager : Option AliMUONTriggerCrateStore) (fMakeTriggerDigits : Bool)
    (raw : RawEvent) :
    (∀ ds ds1 ts ts1,
      Raw2Digits m fCrateManager fMakeTriggerDigits raw (some ds) (some ts) =
        Raw2Digits m fCrateManager fMakeTriggerDigits raw (some ds1) (some ts1)) ∧
    (∀ ds ds1,
      Raw2Digits m fCrateManager fMakeTriggerDigits raw (some ds) none =
        Raw2Digits m fCrateManager fMakeTriggerDigits raw (some ds1) none) ∧
    (∀ ts ts1,
      Raw2Digits m fCrateManager fMakeTriggerDigits raw none (some ts) =
        Raw2Digits m fCrateManager fMakeTriggerDigits raw none (some ts1)) ∧
    (∀ ts r st1,
      Raw2Digits m fCrateManager fMakeTriggerDigits raw none (some ts) = .ok (r, st1) →
      st1.fDigitStore = none ∧ st1.calls.filter Call.onDigitStore = []) ∧
    (∀ ds r st1,
      Raw2Digits m fCrateManager fMakeTriggerDigits raw (some ds) none = .ok (r, st1) →
      st1.fTriggerStore = none ∧ st1.calls.filter Call.onTriggerStore = []) := by
  refine ⟨fun ds ds1 ts ts1 => ?_, fun ds ds1 => ?_, fun ts ts1 => ?_, fun ts r st1 h => ?_,
    fun ds r st1 h => ?_⟩
  · rw [Raw2Digits_digit_content_irrelevant m fCrateManager fMakeTriggerDigits raw ds ds1
      (some ts)]
    exact Raw2Digits_trigger_content_irrelevant m fCrateManager fMakeTriggerDigits raw ds1 ts ts1
  · exact Raw2Digits_digit_content_irrelevant m fCrateManager fMakeTriggerDigits raw ds ds1 none
  · exact Raw2Digits_trigger_content_irrelevant_no_digits m fCrateManager fMakeTriggerDigits raw
      ts ts1
  · exact Raw2Digits_digit_store_untouched m fCrateManager fMakeTriggerDigits raw ts r st1 h
  · exact Raw2Digits_trigger_store_untouched m fCrateManager fMakeTriggerDigits raw ds r st1 h

/-- C17 witness: the example event decoded into stores that already hold a
digit and records gives what it gives into empty stores; decoded without a
digit store it leaves the digit store pointer null and makes no call on a digit
store. -/
theorem Raw2Digits_initial_contents_irrelevant_witness :
    Raw2Digits Example.mapping (some Example.crates) true Example.softEvent
        (some Example.usedDigitStore) (some Example.usedTriggerStore) =
      Raw2Digits Example.mapping (some Example.crates) true Example.softEvent
        (some { digits := [] }) (some { global := none, locals := [] }) ∧
    ∃ st1, Raw2Digits Example.mapping (some Example.crates) false Example.softEvent none
        (some Example.usedTriggerStore) = .ok (kTRUE, st1) ∧
      st1.fDigitStore = none ∧ st1.calls.filter Call.onDigitStore = [] := by
  refine ⟨(Raw2Digits_initial_contents_irrelevant Example.mapping (some Example.crates) true
    Example.softEvent).1 _ _ _ _, ?_⟩
  obtain ⟨st1, h1⟩ := Raw2Digits_total Example.mapping (some Example.crates) false
    Example.softEvent none (some Example.usedTriggerStore) (Or.inr rfl) (by decide) (by decide)
  obtain ⟨h2, h3⟩ := (Raw2Digits_initial_contents_irrelevant Example.mapping
    (some Example.crates) false Example.softEvent).2.2.2.1 Example.usedTriggerStore kTRUE st1 h1
  exact ⟨st1, h1, h2, h3⟩

end AliMUON
